import Mathlib

/-!
Verification of compose-cli: the lifecycle event coordinator and the readiness
poller.

A shallow embedding of

* `printer.Run` (`local/compose/printer.go`), the single consumer of the
  container event queue,
* `checkPodsState` (`kube/client/utils.go`), one evaluation pass of the pod
  readiness poller,
* the label filters of `local/compose/filters.go`,
* the simulated variant `ecsLocalSimulation` (`ecs/local/compose.go`) with its
  augmentation of the project, and the two operations of the cloud-native
  variant in `ecs/run.go`,
* `runRemove` (`cli/cmd/compose/remove.go`),

followed by the properties established for them.

Conventions of the embedding:

* a Go `map[string]struct{}` is a `List String` read as a set, a Go
  `map[string]string` is an association list with unique keys;
* the blocking receive `<-p.queue` reads the head of a finite list of events;
  when the list is drained the loop is blocked in the receive and the run is
  `RunResult.waiting`, exposing the loop variables at that point;
* calls on the consumer, on the stop callback and on the two loggers are
  recorded, in program order, in a list of `Effect`s;
* a backend is what each call of `compose.Service` returns, and an operation
  that calls it gives back the list of the `Call`s it made;
* an operation that works on the project of its caller through a pointer gives
  back that project as the call leaves it.
-/

namespace Compose

/-! ## Go values shared by the two components -/

/-- A Go `error` value. `errorf format` is the value built by
`fmt.Errorf(format)` with no operand; `external tag` is an error value produced
outside of the embedded code, such as the one a callback returns, of message
`tag`; `wrap cause message` is the value built by `errors.Wrap(cause, message)`
of `github.com/pkg/errors`. -/
inductive GoError where
  | errorf (format : String)
  | external (tag : String)
  | wrap (cause : GoError) (message : String)
  deriving DecidableEq, Repr

/-! ### Package `fmt`: a format without operands

What `fmt.Sprintf(format)` and `fmt.Errorf(format)` write when the call has no
operand, following `doPrintf` of the Go standard library: plain text is
copied, `%%` gives `%`, and any other verb gives an error marker. -/

/-- Go `parsenum` of package `fmt` on the characters left: whether a number was
read, and the characters after it. A number above `1e6` makes the rest of the
format be skipped. -/
def parsenum : Nat → Bool → List Char → Bool × List Char
  | _, isnum, [] => (isnum, [])
  | num, isnum, c :: cs =>
    if c.isDigit then
      if num > 1000000 then (false, [])
      else parsenum (num * 10 + (c.toNat - 48)) true cs
    else (isnum, c :: cs)

/-- Go `argNumber` of package `fmt` with no operand, on the characters left:
the characters after a bracketed index `[n]`, whether an index was found, and
whether no opening bracket was met (`goodArgNum`, since no index is in range). -/
def argNumber (cs : List Char) : List Char × Bool × Bool :=
  match cs with
  | '[' :: rest =>
    if (rest.map Char.utf8Size).sum < 2 then (rest, false, false)
    else
      match rest.span (fun c => c != ']') with
      | (_, []) => (rest, false, false)
      | (inner, _ :: after) =>
        match parsenum 0 false inner with
        | (true, []) => (after, true, false)
        | _ => (after, false, false)
  | _ => (cs, false, true)

/-- The width of a verb, in `doPrintf` with no operand: the text written (the
marker of a bad width for `*`), the characters left, whether the last item
read was an index, and whether the argument number is still good. -/
def fmtWidth (cs : List Char) (afterIndex : Bool) : List Char × List Char × Bool × Bool :=
  match cs with
  | '*' :: rest => ("%!(BADWIDTH)".toList, rest, false, true)
  | _ =>
    let (widPresent, rest) := parsenum 0 false cs
    ([], rest, afterIndex, !(afterIndex && widPresent))

/-- The precision of a verb, in `doPrintf` with no operand, with the results
of `fmtWidth`. -/
def fmtPrecision (cs : List Char) (afterIndex : Bool) :
    List Char × List Char × Bool × Bool :=
  match cs with
  | '.' :: rest =>
    match (argNumber rest).1 with
    | '*' :: rest2 => ("%!(BADPREC)".toList, rest2, false, !afterIndex && (argNumber rest).2.2)
    | rest2 =>
      ([], (parsenum 0 false rest2).2, (argNumber rest).2.1,
        !afterIndex && (argNumber rest).2.2)
  | _ => ([], cs, afterIndex, true)

/-- The index that may come right before the verb: `argNumber` once more,
unless an index was just read. -/
def fmtLastIndex (cs : List Char) (afterIndex : Bool) : List Char × Bool :=
  if afterIndex then (cs, true) else ((argNumber cs).1, (argNumber cs).2.2)

/-- One verb of `doPrintf` with no operand, on the characters that follow `%`:
the text written and the characters left. -/
def fmtVerb (cs : List Char) : List Char × List Char :=
  let flags := cs.dropWhile
    (fun c => c == '#' || c == '0' || c == '+' || c == '-' || c == ' ')
  let index := argNumber flags
  let width := fmtWidth index.1 index.2.1
  let precision := fmtPrecision width.2.1 width.2.2.1
  let last := fmtLastIndex precision.2.1 precision.2.2.1
  let goodArgNum := index.2.2 && width.2.2.2 && precision.2.2.2 && last.2
  let bad := width.1 ++ precision.1
  match last.1 with
  | [] => (bad ++ "%!(NOVERB)".toList, [])
  | verb :: rest =>
    if verb == '%' then (bad ++ ['%'], rest)
    else if !goodArgNum then
      (bad ++ "%!".toList ++ [verb] ++ "(BADINDEX)".toList, rest)
    else
      (bad ++ "%!".toList ++ [verb] ++ "(MISSING)".toList, rest)

/-- The loop of `doPrintf` with no operand; each step reads at least one
character, so that `fuel` no less than the number of characters reads them
all. -/
def fmtLoop : Nat → List Char → List Char
  | 0, _ => []
  | _ + 1, [] => []
  | fuel + 1, c :: cs =>
    if c == '%' then (fmtVerb cs).1 ++ fmtLoop fuel (fmtVerb cs).2
    else c :: fmtLoop fuel cs

/-- Go `fmt.Sprintf(format)` with no operand. -/
def Sprintf (format : String) : String :=
  String.mk (fmtLoop format.length format.toList)

/-- Go method `Error()` of an error value: its message. -/
def GoError.Error : GoError → String
  | .errorf format => Sprintf format
  | .external tag => tag
  | .wrap cause message => message ++ ": " ++ cause.Error

/-- Go `errors.Cause` of `github.com/pkg/errors`: the innermost wrapped error. -/
def GoError.Cause : GoError → GoError
  | .wrap cause _ => cause.Cause
  | e => e

/-! ## `api/compose`: container events -/

/-- Constants `compose.ContainerEventLog`, `compose.ContainerEventAttach`,
`compose.ContainerEventExit` and `compose.UserCancel`, the values of
`ContainerEvent.Type`. -/
inductive EventType where
  | ContainerEventLog
  | ContainerEventAttach
  | ContainerEventExit
  | UserCancel
  deriving DecidableEq, Repr

/-- Go struct `compose.ContainerEvent`, with the fields `printer.Run` reads;
`Type_` is its field `Type`. -/
structure ContainerEvent where
  Type_ : EventType
  Container : String
  Service : String
  Line : String
  ExitCode : Int
  Restarting : Bool
  deriving DecidableEq, Repr

/-- One observable action of `printer.Run`, in program order: the three
methods of `compose.LogConsumer`, the call `stopFn()`, `fmt.Println` and
`logrus.Error`. -/
inductive Effect where
  | Register (container : String)
  | Status (container : String) (msg : String)
  | Log (container : String) (service : String) (line : String)
  | stopFn
  | Println (msg : String)
  | logrusError (code : Int)
  deriving DecidableEq, Repr

/-! ## `local/compose/printer.go` -/

/-- The loop variables of `printer.Run`: `aborting`, `exitCode`, the parameter
`exitCodeFrom` (assigned inside the loop) and the set `containers`. -/
structure RunState where
  aborting : Bool
  exitCode : Int
  exitCodeFrom : String
  containers : List String
  deriving DecidableEq, Repr

/-- Outcome of one iteration of the `for` loop of `printer.Run`: either the
loop goes on with new loop variables, or `Run` returns `(code, err)`. In both
cases `calls` lists the actions of the iteration. -/
inductive StepResult where
  | next (st : RunState) (calls : List Effect)
  | done (code : Int) (err : Option GoError) (calls : List Effect)
  deriving DecidableEq, Repr

/-- Outcome of `printer.Run` on a finite queue: `returned code err calls queue`
when it returns `(code, err)` leaving `queue` unread, `waiting st calls` when
every event was read and the loop is blocked in `<-p.queue` with loop
variables `st`. -/
inductive RunResult where
  | returned (code : Int) (err : Option GoError) (calls : List Effect)
      (queue : List ContainerEvent)
  | waiting (st : RunState) (calls : List Effect)
  deriving DecidableEq, Repr

/-- Go `delete(containers, container)` on the set `containers`. -/
def mapDelete (containers : List String) (container : String) : List String :=
  containers.filter (fun c => c != container)

/-- Go `fmt.Sprintf("exited with code %d", code)`. -/
def exitedWithCode (code : Int) : String :=
  "exited with code " ++ toString code

/-- Lines 101-104 of `printer.go`: `if len(containers) == 0 { return exitCode, nil }`,
otherwise the next iteration. -/
def checkLast (st : RunState) (calls : List Effect) : StepResult :=
  if st.containers.isEmpty then .done st.exitCode none calls else .next st calls

/-- The body of the `for` loop of `printer.Run` (lines 66-109) for one received
`event`. `stopFn` is the result the stop callback gives when it is called. -/
def step (cascadeStop : Bool) (stopFn : Option GoError) (st : RunState)
    (event : ContainerEvent) : StepResult :=
  let container := event.Container
  match event.Type_ with
  | .UserCancel => .next { st with aborting := true } []
  | .ContainerEventAttach =>
    if st.containers.contains container then
      .next st []
    else
      .next { st with containers := container :: st.containers } [.Register container]
  | .ContainerEventExit =>
    let containers :=
      if !event.Restarting then mapDelete st.containers container else st.containers
    let status : List Effect :=
      if !st.aborting then [.Status container (exitedWithCode event.ExitCode)] else []
    if cascadeStop then
      let stop : Option GoError × List Effect :=
        if !st.aborting then
          (stopFn, [.Println "Aborting on container exit...", .stopFn])
        else
          (none, [])
      match stop.1 with
      | some err => .done 0 (some err) (status ++ stop.2)
      | none =>
        let exitCodeFrom := if st.exitCodeFrom == "" then event.Service else st.exitCodeFrom
        let captured : Int × List Effect :=
          if exitCodeFrom == event.Service then
            (event.ExitCode, [.logrusError event.ExitCode])
          else
            (st.exitCode, [])
        checkLast
          { aborting := true, exitCode := captured.1, exitCodeFrom := exitCodeFrom,
            containers := containers }
          (status ++ stop.2 ++ captured.2)
    else
      checkLast { st with containers := containers } status
  | .ContainerEventLog =>
    if !st.aborting then
      .next st [.Log container event.Service event.Line]
    else
      .next st []

/-- The actions of one iteration. -/
def StepResult.calls : StepResult → List Effect
  | .next _ cs => cs
  | .done _ _ cs => cs

/-- Puts the actions `calls`, made earlier, in front of those of `r`. -/
def RunResult.after (calls : List Effect) : RunResult → RunResult
  | .returned code err cs queue => .returned code err (calls ++ cs) queue
  | .waiting st cs => .waiting st (calls ++ cs)

/-- The `for` loop of `printer.Run`, entered with loop variables `st`, on the
events `queue` will deliver. -/
def loop (cascadeStop : Bool) (stopFn : Option GoError) :
    RunState → List ContainerEvent → RunResult
  | st, [] => .waiting st []
  | st, event :: queue =>
    match step cascadeStop stopFn st event with
    | .next st' calls => (loop cascadeStop stopFn st' queue).after calls
    | .done code err calls => .returned code err calls queue

/-- The loop variables at the entry of `printer.Run` (lines 60-64). -/
def initState (exitCodeFrom : String) : RunState :=
  { aborting := false, exitCode := 0, exitCodeFrom := exitCodeFrom, containers := [] }

/-- Go `(p *printer) Run(cascadeStop, exitCodeFrom, stopFn)` on the events the
queue delivers. -/
def Run (cascadeStop : Bool) (exitCodeFrom : String) (stopFn : Option GoError)
    (queue : List ContainerEvent) : RunResult :=
  loop cascadeStop stopFn (initState exitCodeFrom) queue

/-- The actions recorded in an outcome. -/
def RunResult.calls : RunResult → List Effect
  | .returned _ _ cs _ => cs
  | .waiting _ cs => cs

/-- The events left unread by an outcome (none when the loop is blocked on a
drained queue). -/
def RunResult.unread : RunResult → List ContainerEvent
  | .returned _ _ _ queue => queue
  | .waiting _ _ => []

/-- The events of `queue` that were read when `unread` is what is left of it. -/
def processed (queue unread : List ContainerEvent) : List ContainerEvent :=
  queue.take (queue.length - unread.length)

/-- The `Exit` events of service `s`. -/
def isExitOf (s : String) (e : ContainerEvent) : Bool :=
  e.Type_ == .ContainerEventExit && e.Service == s

/-- The exit code of the last `Exit` event of service `s` in `events`, and
`dflt` when there is none. -/
def lastExitCodeOr (dflt : Int) (s : String) (events : List ContainerEvent) : Int :=
  match (events.filter (isExitOf s)).getLast? with
  | some e => e.ExitCode
  | none => dflt

/-- Whether processing `e` sets `aborting`: a `UserCancel` does, and with
cascade-stop an `Exit` does. -/
def setsAborting (cascadeStop : Bool) (e : ContainerEvent) : Bool :=
  e.Type_ == .UserCancel || (cascadeStop && e.Type_ == .ContainerEventExit)

/-- The value of `aborting` once `events` are processed, from the value
`aborting` it had before them. -/
def abortingAfter (cascadeStop : Bool) (aborting : Bool) (events : List ContainerEvent) : Bool :=
  aborting || events.any (setsAborting cascadeStop)

/-- The calls of `consumer.Log`. -/
def isLogCall : Effect → Bool
  | .Log _ _ _ => true
  | _ => false

/-- The `Log` calls expected for `events`, in order, when the first of them is
processed with the given value of `aborting`: one for each `Log` event
processed while `aborting` is false, with its container, service and line. -/
def forwardedLogs (cascadeStop : Bool) : Bool → List ContainerEvent → List Effect
  | _, [] => []
  | aborting, e :: es =>
    (if e.Type_ == .ContainerEventLog && !aborting then
      [Effect.Log e.Container e.Service e.Line] else []) ++
    forwardedLogs cascadeStop (aborting || setsAborting cascadeStop e) es

/-- The known-container set once `e` is processed: an `Attach` marks its
container known, an `Exit` that is not restarting unregisters it. -/
def knownStep (known : List String) (e : ContainerEvent) : List String :=
  match e.Type_ with
  | .ContainerEventAttach => if e.Container ∈ known then known else e.Container :: known
  | .ContainerEventExit => if e.Restarting then known else mapDelete known e.Container
  | _ => known

/-- The known-container set once `events` are processed, from the set `known`
before them. -/
def knownAfter (known : List String) (events : List ContainerEvent) : List String :=
  events.foldl knownStep known

/-- The event `e`, read after `pre` from the known set `known`, is an `Exit`
after whose processing no container is known. -/
def endsRun (known : List String) (pre : List ContainerEvent) (e : ContainerEvent) : Prop :=
  e.Type_ = .ContainerEventExit ∧ knownAfter known (pre ++ [e]) = []

instance (known : List String) (pre : List ContainerEvent) (e : ContainerEvent) :
    Decidable (endsRun known pre e) :=
  inferInstanceAs (Decidable (_ ∧ _))

/-- The exit code of the last `Exit` event of service `s` in `events`, and `0`
when there is none. -/
def lastExitCodeOf (s : String) (events : List ContainerEvent) : Int :=
  lastExitCodeOr 0 s events

/-! ### Events used in the scenarios -/

/-- An `Attach` event for `container`, of a service of the same name. -/
def attachEvent (container : String) : ContainerEvent :=
  { Type_ := .ContainerEventAttach, Container := container, Service := container,
    Line := "", ExitCode := 0, Restarting := false }

/-- A non-restarting `Exit` event for `container`, of a service of the same name. -/
def exitEvent (container : String) (code : Int) : ContainerEvent :=
  { Type_ := .ContainerEventExit, Container := container, Service := container,
    Line := "", ExitCode := code, Restarting := false }

/-- A `Log` event for `container`, of a service of the same name. -/
def logEvent (container : String) (line : String) : ContainerEvent :=
  { Type_ := .ContainerEventLog, Container := container, Service := container,
    Line := line, ExitCode := 0, Restarting := false }

/-- The event `printer.Cancel` enqueues: only `Type` is set. -/
def cancelEvent : ContainerEvent :=
  { Type_ := .UserCancel, Container := "", Service := "",
    Line := "", ExitCode := 0, Restarting := false }

/-- Scenario 5 of the specification. -/
def scenario5 : List ContainerEvent :=
  [attachEvent "a", attachEvent "b", attachEvent "c",
   exitEvent "a" 1, exitEvent "b" 7, exitEvent "c" 0]

/-- Scenario 6 of the specification. -/
def scenario6 : List ContainerEvent :=
  [attachEvent "a", attachEvent "b", exitEvent "a" 3, exitEvent "b" 0]


/-! ## `kube/client/utils.go` -/

/-- Modelled from the spec: the constant `compose.RUNNING` (package
`api/compose`), the target status "running". -/
def RUNNING : String := "Running"

/-- Modelled from the spec: the constant `compose.REMOVING` (package
`api/compose`), the target status "removed". -/
def REMOVING : String := "Removing"

/-- Modelled from the spec: the constant `compose.ServiceLabel` (package
`api/compose`), the label that names the service of a pod. -/
def ServiceLabel : String := "com.docker.compose.service"

/-- The pod phase `corev1.PodRunning` of the Kubernetes API. -/
def PodRunning : String := "Running"

/-- The pod phase `corev1.PodFailed` of the Kubernetes API. -/
def PodFailed : String := "Failed"

/-- Go struct `corev1.ContainerState`: three pointer fields, `none` for `nil`. -/
structure ContainerState where
  Waiting : Option Unit
  Running : Option Unit
  Terminated : Option Unit
  deriving DecidableEq, Repr

/-- Go struct `corev1.ContainerStatus`, with the field `checkPodsState` reads. -/
structure ContainerStatus where
  State : ContainerState
  deriving DecidableEq, Repr

/-- Go struct `corev1.PodStatus`, with the fields `checkPodsState` reads. -/
structure PodStatus where
  Phase : String
  Message : String
  Reason : String
  ContainerStatuses : List ContainerStatus
  deriving DecidableEq, Repr

/-- Go struct `corev1.Pod`: its name, its labels (a map, as an association
list), whether `DeletionTimestamp` is set, and its status. -/
structure Pod where
  Name : String
  Labels : List (String × String)
  DeletionTimestamp : Option Unit
  Status : PodStatus
  deriving DecidableEq, Repr

/-- Go `m[key]` on a `map[string]string`: the value at `key`, and `""` when
the key is absent. -/
def mapGet (m : List (String × String)) (key : String) : String :=
  (m.lookup key).getD ""

/-- Go `m[key] = value` on a `map[string]string`: the entry of `key` is
replaced when there is one, added otherwise. -/
def mapSet : List (String × String) → String → String → List (String × String)
  | [], key, value => [(key, value)]
  | (k, v) :: m, key, value =>
    if k == key then (k, value) :: m else (k, v) :: mapSet m key value

/-- Modelled from the spec: the helper `utils.StringContains` (package
`utils`), whether `needle` is one of the strings of `array`; it is how the
pods are filtered to the requested service subset. -/
def StringContains (array : List String) (needle : String) : Bool :=
  array.contains needle

/-- Lines 65-71 of `utils.go`: `containersRunning` after the inner loop, false
as soon as a container status has `State.Running == nil`. -/
def containersRunning : List ContainerStatus → Bool
  | [] => true
  | container :: rest =>
    if container.State.Running.isNone then false else containersRunning rest

/-- How the `for` loop over the pods of `checkPodsState` ends: it runs to its
end with `servicePods` and `stateReached`, or the function returns from inside
the loop with `servicePods` and an error. -/
inductive PodsLoop where
  | finished (servicePods : List (String × String)) (stateReached : Bool)
  | failed (servicePods : List (String × String)) (err : GoError)
  deriving DecidableEq, Repr

/-- The `for` loop of `checkPodsState` (lines 59-83) over the pods left to
visit, from the current `servicePods` and `stateReached`. -/
def podsLoop (services : List String) (status : String) :
    List Pod → List (String × String) → Bool → PodsLoop
  | [], servicePods, stateReached => .finished servicePods stateReached
  | pod :: pods, servicePods, stateReached =>
    let service := mapGet pod.Labels ServiceLabel
    if services.length > 0 && !StringContains services service then
      podsLoop services status pods servicePods stateReached
    else
      let running := containersRunning pod.Status.ContainerStatuses
      let servicePods := mapSet servicePods service pod.Status.Message
      if status == REMOVING then
        podsLoop services status pods servicePods stateReached
      else if pod.Status.Phase == PodFailed then
        .failed servicePods (.errorf pod.Status.Reason)
      else if status == RUNNING && (pod.Status.Phase != PodRunning || !running) then
        podsLoop services status pods servicePods false
      else
        podsLoop services status pods servicePods stateReached

/-- Go `checkPodsState(services, pods, status)`: the triple
`(stateReached, servicePods, err)` it returns. -/
def checkPodsState (services : List String) (pods : List Pod) (status : String) :
    Bool × List (String × String) × Option GoError :=
  match podsLoop services status pods [] true with
  | .failed servicePods err => (false, servicePods, some err)
  | .finished servicePods stateReached =>
    if status == REMOVING && servicePods.length > 0 then
      (false, servicePods, none)
    else
      (stateReached, servicePods, none)

/-- The service a pod belongs to: its label `compose.ServiceLabel`. -/
def podService (pod : Pod) : String :=
  mapGet pod.Labels ServiceLabel

/-- The pods of the requested services: all of them when `services` is empty. -/
def filterPods (services : List String) (pods : List Pod) : List Pod :=
  pods.filter (fun pod => services.isEmpty || podService pod ∈ services)

/-- A pod in phase `Running` all of whose container statuses have a running
sub-state. -/
def podRunning (pod : Pod) : Prop :=
  pod.Status.Phase = PodRunning ∧
    ∀ c ∈ pod.Status.ContainerStatuses, c.State.Running ≠ none

instance (pod : Pod) : Decidable (podRunning pod) :=
  inferInstanceAs (Decidable (_ ∧ _))

/-! ### Pods used in the scenarios -/

/-- A container status with a running sub-state. -/
def runningContainer : ContainerStatus :=
  { State := { Waiting := none, Running := some (), Terminated := none } }

/-- A container status with a waiting sub-state. -/
def waitingContainer : ContainerStatus :=
  { State := { Waiting := some (), Running := none, Terminated := none } }

/-- A pod of service `service` in phase `phase`, not being deleted, with the
given container statuses. -/
def mkPod (name service phase : String) (containers : List ContainerStatus) : Pod :=
  { Name := name, Labels := [(ServiceLabel, service)], DeletionTimestamp := none,
    Status := { Phase := phase, Message := name ++ " message", Reason := name ++ " reason",
                ContainerStatuses := containers } }

/-- A pod of service `web` in phase `Failed` with the failure reason `reason`. -/
def failedPod (reason : String) : Pod :=
  { Name := "p1", Labels := [(ServiceLabel, "web")], DeletionTimestamp := none,
    Status := { Phase := PodFailed, Message := "", Reason := reason,
                ContainerStatuses := [] } }

/-- The map obtained from `servicePods` by recording, in list order, the status
message of each pod of `pods` under its service. -/
def recordMessages (servicePods : List (String × String)) (pods : List Pod) :
    List (String × String) :=
  pods.foldl (fun m pod => mapSet m (podService pod) pod.Status.Message) servicePods

/-- The status message of the last pod of `pods` of service `service`, if any. -/
def lastMessage (service : String) (pods : List Pod) : Option String :=
  ((pods.filter (fun pod => podService pod == service)).getLast?).map
    (fun pod => pod.Status.Message)

/-! ## `local/compose/filters.go` -/

/-- Modelled from the spec: the constant `compose.ProjectLabel` (package
`api/compose`), the project label. -/
def ProjectLabel : String := "com.docker.compose.project"

/-- Modelled from the spec: the constant `compose.SlugLabel` (package
`api/compose`), the slug label. -/
def SlugLabel : String := "com.docker.compose.slug"

/-- Modelled from the spec: the constant `compose.OneoffLabel` (package
`api/compose`), the one-off boolean label. -/
def OneoffLabel : String := "com.docker.compose.oneoff"

/-- Modelled from the spec: the constant `compose.ContainerNumberLabel`
(package `api/compose`), the container-index label. -/
def ContainerNumberLabel : String := "com.docker.compose.container-number"

/-- Go struct `filters.KeyValuePair` of the Docker API. -/
structure KeyValuePair where
  Key : String
  Value : String
  deriving DecidableEq, Repr

/-- Go `filters.Arg(key, value)` of the Docker API. -/
def Arg (key value : String) : KeyValuePair :=
  { Key := key, Value := value }

/-- Go `fmt.Sprintf("%s=%s", a, b)`. -/
def sprintfEqS (a b : String) : String :=
  a ++ "=" ++ b

/-- Go `fmt.Sprintf("%s=%d", a, n)`. -/
def sprintfEqD (a : String) (n : Int) : String :=
  a ++ "=" ++ toString n

/-- Go `projectFilter(projectName)`. -/
def projectFilter (projectName : String) : KeyValuePair :=
  Arg "label" (sprintfEqS ProjectLabel projectName)

/-- Go `serviceFilter(serviceName)`. -/
def serviceFilter (serviceName : String) : KeyValuePair :=
  Arg "label" (sprintfEqS ServiceLabel serviceName)

/-- Go `slugFilter(slug)`. -/
def slugFilter (slug : String) : KeyValuePair :=
  Arg "label" (sprintfEqS SlugLabel slug)

/-- Go `oneOffFilter(b)`. -/
def oneOffFilter (b : Bool) : KeyValuePair :=
  let v := if b then "True" else "False"
  Arg "label" (sprintfEqS OneoffLabel v)

/-- Go `containerNumberFilter(index)`. -/
def containerNumberFilter (index : Int) : KeyValuePair :=
  Arg "label" (sprintfEqD ContainerNumberLabel index)

/-- Go `hasProjectLabelFilter()`. -/
def hasProjectLabelFilter : KeyValuePair :=
  Arg "label" ProjectLabel

/-- The decimal numeral of a natural number: its base-10 digits, most
significant first, and `0` for zero. -/
def decimalNat (n : Nat) : String :=
  if n = 0 then "0" else String.mk ((Nat.digits 10 n).reverse.map Nat.digitChar)

/-- The decimal numeral of an integer, with a leading `-` when negative. -/
def decimal : Int → String
  | .ofNat n => decimalNat n
  | .negSucc n => "-" ++ decimalNat (n + 1)

/-- The number a list of decimal digit characters, most significant first,
stands for. -/
def decimalValue (s : String) : Nat :=
  Nat.ofDigits 10 (s.data.reverse.map (fun c => c.toNat - 48))

/-! ## `compose-go/types`: the project model -/

/-- Go `m[key]` with the `ok` result on a map given as an association list;
`none` stands for a `nil` map, which reads as an empty one. -/
def kvGet {V : Type} (m : Option (List (String × V))) (key : String) : Option V :=
  match m with
  | none => none
  | some l => l.lookup key

/-- Go `m[key] = value` on a non-nil map given as an association list: the
entry of `key` is replaced when there is one, added otherwise. -/
def kvSet {V : Type} : List (String × V) → String → V → List (String × V)
  | [], key, value => [(key, value)]
  | (k, v) :: m, key, value =>
    if k == key then (k, value) :: m else (k, v) :: kvSet m key value

/-- Go `delete(m, key)` on a map given as an association list. -/
def kvDelete {V : Type} (m : List (String × V)) (key : String) : List (String × V) :=
  m.filter (fun kv => kv.1 != key)

/-- Go struct `types.IPAMPool`, with the fields the sources set. -/
structure IPAMPool where
  Subnet : String
  Gateway : String
  deriving DecidableEq, Repr

/-- Go struct `types.IPAMConfig`, with the field the sources set. -/
structure IPAMConfig where
  Config : List IPAMPool
  deriving DecidableEq, Repr

/-- Go struct `types.NetworkConfig`, with the fields the sources set. -/
structure NetworkConfig where
  Name : String
  Driver : String
  Ipam : IPAMConfig
  deriving DecidableEq, Repr

/-- Go struct `types.ServiceNetworkConfig`, with the field the sources set. -/
structure ServiceNetworkConfig where
  Ipv4Address : String
  deriving DecidableEq, Repr

/-- Go struct `types.ServiceDependency`. -/
structure ServiceDependency where
  Condition : String
  deriving DecidableEq, Repr

/-- Go struct `types.ServiceVolumeConfig`, with the fields the sources set;
`Type_` is its field `Type`. -/
structure ServiceVolumeConfig where
  Type_ : String
  Source : String
  Target : String
  deriving DecidableEq, Repr

/-- Go struct `types.ServiceConfig`, with the fields the sources read or set.
The three maps are `none` when `nil`; the values of `Environment` and of
`Networks` are pointers, `none` when `nil`. -/
structure ServiceConfig where
  Name : String
  Image : String
  Volumes : List ServiceVolumeConfig
  Environment : Option (List (String × Option String))
  Networks : Option (List (String × Option ServiceNetworkConfig))
  DependsOn : Option (List (String × ServiceDependency))
  deriving DecidableEq, Repr

/-- Go struct `types.Project`, with the fields the sources read or set; the
map `Networks` is `none` when `nil`, and the volumes, secrets and configs are
kept by name with their definition as text. -/
structure Project where
  Name : String
  Services : List ServiceConfig
  Networks : Option (List (String × NetworkConfig))
  Volumes : List (String × String)
  Secrets : List (String × String)
  Configs : List (String × String)
  deriving DecidableEq, Repr

/-- The constant `types.VolumeTypeBind` of compose-go. -/
def VolumeTypeBind : String := "bind"

/-- The constant `types.ServiceConditionStarted` of compose-go. -/
def ServiceConditionStarted : String := "service_started"

/-! ## `ecs/local/compose.go`: the augmentation for local simulation -/

/-- The document `Convert` renders: the five entries of its `config` map. -/
structure ConvertConfig where
  services : List ServiceConfig
  networks : Option (List (String × NetworkConfig))
  volumes : List (String × String)
  secrets : List (String × String)
  configs : List (String × String)
  deriving DecidableEq, Repr

/-- Modelled from the spec: the structure `compose.ConvertOptions` (package
`api/compose`), with the output format and the output path. -/
structure ConvertOptions where
  Format : String
  Output : String
  deriving DecidableEq, Repr

/-- What the simulated variant obtains from the operating system and from the
libraries it calls: the result of `os.UserHomeDir()`, the function
`filepath.Join` on two elements, the two encoders `json.MarshalIndent(config,
"", "  ")` and `yaml.Marshal(config)` with the bytes (`none` for `nil`) and the
error they return, and the error `fmt.Errorf("unsupported format %q", options)`. -/
structure Host where
  UserHomeDir : Except GoError String
  Join : String → String → String
  MarshalIndent : ConvertConfig → Option String × Option GoError
  Marshal : ConvertConfig → Option String × Option GoError
  unsupportedFormat : ConvertOptions → GoError

/-- The value assigned to `project.Networks["credentials_network"]`
(lines 102-113 of `ecs/local/compose.go`). -/
def credentialsNetwork : NetworkConfig :=
  { Name := "credentials_network", Driver := "bridge",
    Ipam := { Config := [{ Subnet := "169.254.170.0/24", Gateway := "169.254.170.1" }] } }

/-- Go `fmt.Sprintf("169.254.170.%d", n)`. -/
def sprintfAddress (n : Nat) : String :=
  "169.254.170." ++ toString n

/-- The body of the loop over the services (lines 122-133) for the service of
index `i`: the service written back to `project.Services[i]`, and `none` when
the body writes to a `nil` map, which stops the program. -/
def enhanceService (i : Nat) (service : ServiceConfig) : Option ServiceConfig :=
  match service.Networks with
  | none => none
  | some networks =>
    let networks := kvSet networks "credentials_network"
      (some { Ipv4Address := sprintfAddress (i + 3) })
    let dependsOn := match service.DependsOn with
      | none => []
      | some dependsOn => dependsOn
    let dependsOn := kvSet dependsOn "ecs-local-endpoints"
      { Condition := ServiceConditionStarted }
    match service.Environment with
    | none => none
    | some environment =>
      let environment := kvSet environment "AWS_CONTAINER_CREDENTIALS_RELATIVE_URI"
        (some "/creds")
      let environment := kvSet environment "ECS_CONTAINER_METADATA_URI"
        (some "http://169.254.170.2/v3")
      some { service with Networks := some networks, DependsOn := some dependsOn,
                          Environment := some environment }

/-- The loop `for i, service := range project.Services` (lines 121-134) on
the services from index `i` on. -/
def enhanceServices : Nat → List ServiceConfig → Option (List ServiceConfig)
  | _, [] => some []
  | i, service :: services =>
    match enhanceService i service with
    | none => none
    | some service =>
      match enhanceServices (i + 1) services with
      | none => none
      | some services => some (service :: services)

/-- The service appended to `project.Services` (lines 136-160), for the home
directory `home`. -/
def sidecar (host : Host) (home : String) : ServiceConfig :=
  { Name := "ecs-local-endpoints",
    Image := "amazon/amazon-ecs-local-container-endpoints",
    Volumes := [{ Type_ := VolumeTypeBind, Source := "/var/run", Target := "/var/run" },
                { Type_ := VolumeTypeBind, Source := host.Join home ".aws",
                  Target := "/home/.aws" }],
    Environment := some [("HOME", some "/home"), ("AWS_PROFILE", some "default")],
    Networks := some [("credentials_network", some { Ipv4Address := "169.254.170.2" })],
    DependsOn := none }

/-- Outcome of `enhanceForLocalSimulation(project)`. The function works on the
project of its caller through the pointer it is given, so that each outcome
carries the project as the call leaves it: `done project` when it returns
`(project, nil)`, the same pointer; `failed project err` when it returns
`(nil, err)`; `nilMap` when it writes to a `nil` map, which stops the program. -/
inductive Enhanced where
  | done (project : Project)
  | failed (project : Project) (err : GoError)
  | nilMap
  deriving DecidableEq, Repr

/-- Go `(e ecsLocalSimulation) enhanceForLocalSimulation(project)`. -/
def enhanceForLocalSimulation (host : Host) (project : Project) : Enhanced :=
  match project.Networks with
  | none => .nilMap
  | some networks =>
    let project :=
      { project with Networks := some (kvSet networks "credentials_network" credentialsNetwork) }
    match host.UserHomeDir with
    | .error err => .failed project err
    | .ok home =>
      match enhanceServices 0 project.Services with
      | none => .nilMap
      | some services =>
        .done { project with Services := services ++ [sidecar host home] }

/-! ## `api/compose`: the backend contract -/

/-- Modelled from the spec: the sentinel `errdefs.ErrNotImplemented` (package
`api/errdefs`), the "not implemented" signal. -/
def ErrNotImplemented : GoError := .external "not implemented"

/-- Go `errors.Wrap(err, message)` of `github.com/pkg/errors`: `nil` for a
`nil` error. -/
def errorsWrap (err : Option GoError) (message : String) : Option GoError :=
  err.map (fun cause => .wrap cause message)

/-- Modelled from the spec: the structure `compose.StopOptions` (package
`api/compose`), with the timeout and the service subset. -/
structure StopOptions where
  Timeout : Option Nat
  Services : List String
  deriving DecidableEq, Repr

/-- Modelled from the spec: the structure `compose.RemoveOptions` (package
`api/compose`), with the volume-removal and force flags and the service
subset. -/
structure RemoveOptions where
  Volumes : Bool
  Force : Bool
  Services : List String
  deriving DecidableEq, Repr

/-- Modelled from the spec: the structure `compose.DownOptions` (package
`api/compose`), with the flag `RemoveOrphans`, the timeout and the
volume-removal flag. -/
structure DownOptions where
  RemoveOrphans : Bool
  Timeout : Option Nat
  Volumes : Bool
  deriving DecidableEq, Repr

/-- The types of package `api/compose` that the sources only pass along: the
options of the operations, the log consumer, and the elements of the lists the
operations return. Their declarations are not among the sources; every
definition and theorem below holds for whatever they are. -/
structure ApiTypes where
  BuildOptions : Type
  PushOptions : Type
  PullOptions : Type
  CreateOptions : Type
  StartOptions : Type
  RestartOptions : Type
  UpOptions : Type
  KillOptions : Type
  LogOptions : Type
  PsOptions : Type
  ListOptions : Type
  RunOptions : Type
  CopyOptions : Type
  PauseOptions : Type
  EventsOptions : Type
  PortOptions : Type
  ImagesOptions : Type
  LogConsumer : Type
  ContainerSummary : Type
  Stack : Type
  ContainerProcSummary : Type
  ImageSummary : Type

/-- A call of a method of the interface `compose.Service`, with its arguments
(the context apart); `List_` is the method `List`. -/
inductive Call (T : ApiTypes) where
  | Build (project : Project) (options : T.BuildOptions)
  | Push (project : Project) (options : T.PushOptions)
  | Pull (project : Project) (options : T.PullOptions)
  | Create (project : Project) (opts : T.CreateOptions)
  | Start (project : Project) (options : T.StartOptions)
  | Restart (project : Project) (options : T.RestartOptions)
  | Stop (project : Project) (options : StopOptions)
  | Up (project : Project) (options : T.UpOptions)
  | Kill (project : Project) (options : T.KillOptions)
  | Convert (project : Project) (options : ConvertOptions)
  | Down (projectName : String) (options : DownOptions)
  | Logs (projectName : String) (consumer : T.LogConsumer) (options : T.LogOptions)
  | Ps (projectName : String) (options : T.PsOptions)
  | List_ (opts : T.ListOptions)
  | RunOneOffContainer (project : Project) (opts : T.RunOptions)
  | Remove (project : Project) (options : RemoveOptions)
  | Exec (project : Project) (opts : T.RunOptions)
  | Copy (project : Project) (opts : T.CopyOptions)
  | Pause (project : String) (options : T.PauseOptions)
  | UnPause (project : String) (options : T.PauseOptions)
  | Top (projectName : String) (services : List String)
  | Events (project : String) (options : T.EventsOptions)
  | Port (project : String) (service : String) (port : Int) (options : T.PortOptions)
  | Images (projectName : String) (options : T.ImagesOptions)

/-- The type of what a method of `compose.Service` returns; a slice is a list,
`nil` being the empty one, and an `error` is `none` when `nil`. -/
def Call.Result {T : ApiTypes} : Call T → Type
  | .Convert _ _ => Option String × Option GoError
  | .Ps _ _ => List T.ContainerSummary × Option GoError
  | .List_ _ => List T.Stack × Option GoError
  | .RunOneOffContainer _ _ => Int × Option GoError
  | .Exec _ _ => Int × Option GoError
  | .Top _ _ => List T.ContainerProcSummary × Option GoError
  | .Port _ _ _ _ => String × Int × Option GoError
  | .Images _ _ => List T.ImageSummary × Option GoError
  | _ => Option GoError

/-- An implementation of the interface `compose.Service`: what each call
returns. -/
def Backend (T : ApiTypes) : Type :=
  (c : Call T) → c.Result

/-- A call `c` made on the backend `b`: what it returns, and the record of the
call. -/
def invoke {T : ApiTypes} (b : Backend T) (c : Call T) : c.Result × List (Call T) :=
  (b c, [c])

/-! ## `ecs/local/compose.go`: the simulated variant -/

/-- Go struct `ecsLocalSimulation`: the wrapped backend `compose`. -/
structure ecsLocalSimulation (T : ApiTypes) where
  compose : Backend T

/-- What an operation that works on the project of its caller leaves: the
values it returns, the calls it made on the wrapped backend, and the project
of the caller after the call. -/
structure InPlace (T : ApiTypes) (α : Type) where
  ret : α
  calls : List (Call T)
  project : Project

namespace ecsLocalSimulation

variable {T : ApiTypes}

/-- Go `(e ecsLocalSimulation) Build`. -/
def Build (e : ecsLocalSimulation T) (project : Project) (options : T.BuildOptions) :
    Option GoError × List (Call T) :=
  invoke e.compose (.Build project options)

/-- Go `(e ecsLocalSimulation) Push`. -/
def Push (e : ecsLocalSimulation T) (project : Project) (options : T.PushOptions) :
    Option GoError × List (Call T) :=
  invoke e.compose (.Push project options)

/-- Go `(e ecsLocalSimulation) Pull`. -/
def Pull (e : ecsLocalSimulation T) (project : Project) (options : T.PullOptions) :
    Option GoError × List (Call T) :=
  invoke e.compose (.Pull project options)

/-- Go `(e ecsLocalSimulation) Create`; `none` when the augmentation writes to
a `nil` map. -/
def Create (e : ecsLocalSimulation T) (host : Host) (project : Project)
    (opts : T.CreateOptions) : Option (InPlace T (Option GoError)) :=
  match enhanceForLocalSimulation host project with
  | .nilMap => none
  | .failed project err => some { ret := some err, calls := [], project := project }
  | .done enhanced =>
    let r := invoke e.compose (.Create enhanced opts)
    some { ret := r.1, calls := r.2, project := enhanced }

/-- Go `(e ecsLocalSimulation) Start`. -/
def Start (e : ecsLocalSimulation T) (project : Project) (options : T.StartOptions) :
    Option GoError × List (Call T) :=
  invoke e.compose (.Start project options)

/-- Go `(e ecsLocalSimulation) Restart`. -/
def Restart (e : ecsLocalSimulation T) (project : Project) (options : T.RestartOptions) :
    Option GoError × List (Call T) :=
  invoke e.compose (.Restart project options)

/-- Go `(e ecsLocalSimulation) Stop`. -/
def Stop (e : ecsLocalSimulation T) (project : Project) (options : StopOptions) :
    Option GoError × List (Call T) :=
  invoke e.compose (.Stop project options)

/-- Go `(e ecsLocalSimulation) Up`. -/
def Up (_e : ecsLocalSimulation T) (_project : Project) (_options : T.UpOptions) :
    Option GoError × List (Call T) :=
  (some ErrNotImplemented, [])

/-- Go `(e ecsLocalSimulation) Kill`. -/
def Kill (e : ecsLocalSimulation T) (project : Project) (options : T.KillOptions) :
    Option GoError × List (Call T) :=
  invoke e.compose (.Kill project options)

/-- Go `(e ecsLocalSimulation) Convert`; `none` when the augmentation writes to
a `nil` map. The bytes returned are `none` for `nil`. -/
def Convert (_e : ecsLocalSimulation T) (host : Host) (project : Project)
    (options : ConvertOptions) : Option (InPlace T (Option String × Option GoError)) :=
  match enhanceForLocalSimulation host project with
  | .nilMap => none
  | .failed project err => some { ret := (none, some err), calls := [], project := project }
  | .done enhanced =>
    let enhanced :=
      { enhanced with Networks := enhanced.Networks.map (fun m => kvDelete m "default") }
    let config : ConvertConfig :=
      { services := enhanced.Services, networks := enhanced.Networks,
        volumes := enhanced.Volumes, secrets := enhanced.Secrets,
        configs := enhanced.Configs }
    let ret : Option String × Option GoError :=
      if options.Format == "json" then host.MarshalIndent config
      else if options.Format == "yaml" then host.Marshal config
      else (none, some (host.unsupportedFormat options))
    some { ret := ret, calls := [], project := enhanced }

/-- Go `(e ecsLocalSimulation) Down`. -/
def Down (e : ecsLocalSimulation T) (projectName : String) (options : DownOptions) :
    Option GoError × List (Call T) :=
  let options := { options with RemoveOrphans := true }
  invoke e.compose (.Down projectName options)

/-- Go `(e ecsLocalSimulation) Logs`. -/
def Logs (e : ecsLocalSimulation T) (projectName : String) (consumer : T.LogConsumer)
    (options : T.LogOptions) : Option GoError × List (Call T) :=
  invoke e.compose (.Logs projectName consumer options)

/-- Go `(e ecsLocalSimulation) Ps`. -/
def Ps (e : ecsLocalSimulation T) (projectName : String) (options : T.PsOptions) :
    (List T.ContainerSummary × Option GoError) × List (Call T) :=
  invoke e.compose (.Ps projectName options)

/-- Go `(e ecsLocalSimulation) List`, named `List_` here. -/
def List_ (e : ecsLocalSimulation T) (opts : T.ListOptions) :
    (List T.Stack × Option GoError) × List (Call T) :=
  invoke e.compose (.List_ opts)

/-- Go `(e ecsLocalSimulation) RunOneOffContainer`. -/
def RunOneOffContainer (_e : ecsLocalSimulation T) (_project : Project)
    (_opts : T.RunOptions) : (Int × Option GoError) × List (Call T) :=
  ((0, errorsWrap (some ErrNotImplemented) "use docker-compose run"), [])

/-- Go `(e ecsLocalSimulation) Remove`. -/
def Remove (e : ecsLocalSimulation T) (project : Project) (options : RemoveOptions) :
    Option GoError × List (Call T) :=
  invoke e.compose (.Remove project options)

/-- Go `(e ecsLocalSimulation) Exec`. -/
def Exec (_e : ecsLocalSimulation T) (_project : Project) (_opts : T.RunOptions) :
    (Int × Option GoError) × List (Call T) :=
  ((0, some ErrNotImplemented), [])

/-- Go `(e ecsLocalSimulation) Copy`. -/
def Copy (e : ecsLocalSimulation T) (project : Project) (opts : T.CopyOptions) :
    Option GoError × List (Call T) :=
  invoke e.compose (.Copy project opts)

/-- Go `(e ecsLocalSimulation) Pause`. -/
def Pause (e : ecsLocalSimulation T) (project : String) (options : T.PauseOptions) :
    Option GoError × List (Call T) :=
  invoke e.compose (.Pause project options)

/-- Go `(e ecsLocalSimulation) UnPause`. -/
def UnPause (e : ecsLocalSimulation T) (project : String) (options : T.PauseOptions) :
    Option GoError × List (Call T) :=
  invoke e.compose (.UnPause project options)

/-- Go `(e ecsLocalSimulation) Top`. -/
def Top (e : ecsLocalSimulation T) (projectName : String) (services : List String) :
    (List T.ContainerProcSummary × Option GoError) × List (Call T) :=
  invoke e.compose (.Top projectName services)

/-- Go `(e ecsLocalSimulation) Events`. -/
def Events (e : ecsLocalSimulation T) (project : String) (options : T.EventsOptions) :
    Option GoError × List (Call T) :=
  invoke e.compose (.Events project options)

/-- Go `(e ecsLocalSimulation) Port`. -/
def Port (_e : ecsLocalSimulation T) (_project : String) (_service : String) (_port : Int)
    (_options : T.PortOptions) : (String × Int × Option GoError) × List (Call T) :=
  (("", 0, some ErrNotImplemented), [])

/-- Go `(e ecsLocalSimulation) Images`. -/
def Images (_e : ecsLocalSimulation T) (_projectName : String)
    (_options : T.ImagesOptions) : (List T.ImageSummary × Option GoError) × List (Call T) :=
  (([], some ErrNotImplemented), [])

end ecsLocalSimulation

/-! ## `ecs/run.go`: the cloud-native variant -/

/-- Go struct `ecsAPIService`; the two methods of `ecs/run.go` read none of its
fields. -/
structure ecsAPIService where
  Region : String

/-- Go `(b *ecsAPIService) RunOneOffContainer`. -/
def ecsAPIService.RunOneOffContainer {T : ApiTypes} (_b : ecsAPIService)
    (_project : Project) (_opts : T.RunOptions) : Int × Option GoError :=
  (0, some ErrNotImplemented)

/-- Go `(b *ecsAPIService) Remove`. -/
def ecsAPIService.Remove (_b : ecsAPIService) (_project : Project)
    (_options : RemoveOptions) : Option GoError :=
  some ErrNotImplemented

/-! ## `cli/cmd/compose/remove.go` -/

/-- Go struct `removeOptions`. Its embedded `projectOptions` is present through
the method `toProject`, whose code is not among the sources: `toProject` is the
pair `(project, err)` it returns for a list of services. -/
structure removeOptions where
  toProject : List String → Except GoError Project
  force : Bool
  stop : Bool
  volumes : Bool

/-- Go `runRemove(ctx, backend, opts, services)`: the error it returns and the
calls it makes on the backend. -/
def runRemove {T : ApiTypes} (backend : Backend T) (opts : removeOptions)
    (services : List String) : Option GoError × List (Call T) :=
  match opts.toProject services with
  | .error err => (some err, [])
  | .ok project =>
    if opts.stop then
      invoke backend (.Stop project { Timeout := none, Services := services })
    else
      invoke backend (.Remove project { Volumes := false, Force := false,
                                        Services := services })

/-! ### Values used in the scenarios -/

/-- An instance of the types of `api/compose` where every options structure is
a name and every list element a string. -/
def textApi : ApiTypes :=
  { BuildOptions := String, PushOptions := String, PullOptions := String,
    CreateOptions := String, StartOptions := String, RestartOptions := String,
    UpOptions := String, KillOptions := String, LogOptions := String,
    PsOptions := String, ListOptions := String, RunOptions := String,
    CopyOptions := String, PauseOptions := String, EventsOptions := String,
    PortOptions := String, ImagesOptions := String, LogConsumer := String,
    ContainerSummary := String, Stack := String, ContainerProcSummary := String,
    ImageSummary := String }

/-- A backend all of whose operations succeed with empty results. -/
def quietBackend (T : ApiTypes) : Backend T
  | .Build _ _ => none
  | .Push _ _ => none
  | .Pull _ _ => none
  | .Create _ _ => none
  | .Start _ _ => none
  | .Restart _ _ => none
  | .Stop _ _ => none
  | .Up _ _ => none
  | .Kill _ _ => none
  | .Convert _ _ => (none, none)
  | .Down _ _ => none
  | .Logs _ _ _ => none
  | .Ps _ _ => ([], none)
  | .List_ _ => ([], none)
  | .RunOneOffContainer _ _ => (0, none)
  | .Remove _ _ => none
  | .Exec _ _ => (0, none)
  | .Copy _ _ => none
  | .Pause _ _ => none
  | .UnPause _ _ => none
  | .Top _ _ => ([], none)
  | .Events _ _ => none
  | .Port _ _ _ _ => ("", 0, none)
  | .Images _ _ => ([], none)

/-- A host whose home directory is `home`, with a plain path join and encoders
that return a fixed text. -/
def hostWithHome (home : String) : Host :=
  { UserHomeDir := .ok home,
    Join := fun a b => a ++ "/" ++ b,
    MarshalIndent := fun _ => (some "json document", none),
    Marshal := fun _ => (some "yaml document", none),
    unsupportedFormat := fun _ => .external "unsupported format" }

/-- A host whose home directory cannot be resolved. -/
def hostWithoutHome : Host :=
  { hostWithHome "" with UserHomeDir := .error (.external "$HOME is not defined") }

/-- A service named `name` with empty, non-nil maps. -/
def plainService (name : String) : ServiceConfig :=
  { Name := name, Image := name ++ ":latest", Volumes := [],
    Environment := some [], Networks := some [], DependsOn := none }

/-- A project of two services, `web` and `db`, on the network `default`. -/
def demoProject : Project :=
  { Name := "demo", Services := [plainService "web", plainService "db"],
    Networks := some [("default", { Name := "demo_default", Driver := "",
                                    Ipam := { Config := [] } })],
    Volumes := [], Secrets := [], Configs := [] }

/-- A project of `n` services `s0`, `s1`, ... on the network `default`. -/
def projectOfSize (n : Nat) : Project :=
  { demoProject with Services := (List.range n).map (fun i => plainService ("s" ++ toString i)) }

/-! ### What the augmentation is expected to do -/

/-- The service `s'` is the service `s` of index `i` once augmented: same
name, image and volumes; attached to `credentials_network` at the address
`169.254.170.(i+3)`, its other attachments kept; the two credential variables
in its environment, its other entries kept; a dependency on
`ecs-local-endpoints` with the condition `service_started`, its other
dependencies kept. -/
def augmentedService (i : Nat) (s s' : ServiceConfig) : Prop :=
  s'.Name = s.Name ∧ s'.Image = s.Image ∧ s'.Volumes = s.Volumes ∧
  kvGet s'.Networks "credentials_network" =
    some (some { Ipv4Address := "169.254.170." ++ decimalNat (i + 3) }) ∧
  (∀ k, k ≠ "credentials_network" → kvGet s'.Networks k = kvGet s.Networks k) ∧
  kvGet s'.Environment "AWS_CONTAINER_CREDENTIALS_RELATIVE_URI" = some (some "/creds") ∧
  kvGet s'.Environment "ECS_CONTAINER_METADATA_URI" =
    some (some "http://169.254.170.2/v3") ∧
  (∀ k, k ≠ "AWS_CONTAINER_CREDENTIALS_RELATIVE_URI" → k ≠ "ECS_CONTAINER_METADATA_URI" →
    kvGet s'.Environment k = kvGet s.Environment k) ∧
  kvGet s'.DependsOn "ecs-local-endpoints" = some { Condition := "service_started" } ∧
  (∀ k, k ≠ "ecs-local-endpoints" → kvGet s'.DependsOn k = kvGet s.DependsOn k)

/-- The parts of a text between its dots. -/
def splitDots : List Char → List (List Char)
  | [] => [[]]
  | c :: cs =>
    if c == '.' then [] :: splitDots cs
    else
      match splitDots cs with
      | [] => [[c]]
      | part :: parts => (c :: part) :: parts

/-- The octet a part of a dotted address stands for: one to three decimal
digits of value at most 255. -/
def octetOf (part : List Char) : Option Nat :=
  if part.length = 0 ∨ 3 < part.length ∨ ¬ part.all Char.isDigit then none
  else
    let n := part.foldl (fun n c => 10 * n + (c.toNat - 48)) 0
    if n ≤ 255 then some n else none

/-- The four octets of a well-formed dotted IPv4 address, `none` for a text
that is not one. -/
def parseIPv4 (address : String) : Option (List Nat) :=
  let parts := splitDots address.data
  if parts.length = 4 then parts.mapM octetOf else none

/-- The address is a well-formed IPv4 address of the subnet `169.254.170.0/24`. -/
def inCredentialsSubnet (address : String) : Bool :=
  match parseIPv4 address with
  | some [169, 254, 170, _] => true
  | _ => false

/-! ### The invariants of a project -/

/-- The service names of the project are unique. -/
def uniqueServiceNames (project : Project) : Prop :=
  (project.Services.map (fun s => s.Name)).Nodup

instance (project : Project) : Decidable (uniqueServiceNames project) :=
  inferInstanceAs (Decidable (List.Nodup _))

/-- The relation `DependsOn` of a project over service names: a service named
`a` has `b` among the keys of its `DependsOn`. -/
def dependsOn (project : Project) (a b : String) : Prop :=
  ∃ s ∈ project.Services, s.Name = a ∧ kvGet s.DependsOn b ≠ none

instance (project : Project) (a b : String) : Decidable (dependsOn project a b) :=
  inferInstanceAs (Decidable (∃ s ∈ project.Services, _))

/-- The relation `DependsOn` of the project has no cycle: no service name is
reached from itself along one or more dependencies. -/
def acyclicDependsOn (project : Project) : Prop :=
  ∀ a, ¬ Relation.TransGen (dependsOn project) a a

/-- A project one of whose services is already named `ecs-local-endpoints`. -/
def clashProject : Project :=
  { demoProject with Services := [plainService "web", plainService "ecs-local-endpoints"] }

/-! ## Properties of `printer.Run` -/

/-! ### The loop on a queue cut in two -/

theorem after_after (c1 c2 : List Effect) (r : RunResult) :
    (r.after c2).after c1 = r.after (c1 ++ c2) := by
  cases r <;> simp [RunResult.after]

theorem after_nil (r : RunResult) : r.after [] = r := by
  cases r <;> simp [RunResult.after]

theorem calls_after (c : List Effect) (r : RunResult) :
    (r.after c).calls = c ++ r.calls := by
  cases r <;> simp [RunResult.after, RunResult.calls]

theorem unread_after (c : List Effect) (r : RunResult) :
    (r.after c).unread = r.unread := by
  cases r <;> simp [RunResult.after, RunResult.unread]

/-- When the loop is blocked after `pre`, it goes on with the events that
follow from the loop variables it was blocked with. -/
theorem loop_append_waiting (cs : Bool) (stopFn : Option GoError) :
    ∀ (pre post : List ContainerEvent) (st st' : RunState) (calls : List Effect),
      loop cs stopFn st pre = .waiting st' calls →
      loop cs stopFn st (pre ++ post) = (loop cs stopFn st' post).after calls := by
  intro pre
  induction pre with
  | nil =>
    intro post st st' calls h
    simp only [loop, RunResult.waiting.injEq] at h
    obtain ⟨rfl, rfl⟩ := h
    simp [after_nil]
  | cons e pre ih =>
    intro post st st' calls h
    simp only [loop, List.cons_append] at h ⊢
    cases hstep : step cs stopFn st e with
    | next st1 c1 =>
      rw [hstep] at h
      simp only at h ⊢
      cases hrec : loop cs stopFn st1 pre with
      | returned code err c2 rest => rw [hrec] at h; simp [RunResult.after] at h
      | waiting st2 c2 =>
        rw [hrec] at h
        simp only [RunResult.after, RunResult.waiting.injEq] at h
        obtain ⟨rfl, rfl⟩ := h
        have h2 := ih post st1 st2 c2 hrec
        simp only [List.append_eq] at h2 ⊢
        rw [h2, after_after]
    | done code err c1 => rw [hstep] at h; simp at h

/-- A run that returns is a blocked run on the events before the last one read,
followed by an iteration that returns. -/
theorem loop_returned_split (cs : Bool) (stopFn : Option GoError) :
    ∀ (queue : List ContainerEvent) (st : RunState) (code : Int) (err : Option GoError)
      (calls : List Effect) (rest : List ContainerEvent),
      loop cs stopFn st queue = .returned code err calls rest →
      ∃ pre e st' c1 c2, queue = pre ++ e :: rest ∧
        loop cs stopFn st pre = .waiting st' c1 ∧
        step cs stopFn st' e = .done code err c2 ∧ calls = c1 ++ c2 := by
  intro queue
  induction queue with
  | nil => intro st code err calls rest h; simp [loop] at h
  | cons e q ih =>
    intro st code err calls rest h
    simp only [loop] at h
    cases hstep : step cs stopFn st e with
    | next st1 c1 =>
      rw [hstep] at h
      simp only at h
      cases hrec : loop cs stopFn st1 q with
      | waiting st2 c2 => rw [hrec] at h; simp [RunResult.after] at h
      | returned code2 err2 c2 rest2 =>
        rw [hrec] at h
        simp only [RunResult.after, RunResult.returned.injEq] at h
        obtain ⟨rfl, rfl, rfl, rfl⟩ := h
        obtain ⟨pre, e', st', d1, d2, hq, hw, hs, hc⟩ := ih st1 _ _ _ _ hrec
        refine ⟨e :: pre, e', st', c1 ++ d1, d2, ?_, ?_, hs, ?_⟩
        · simp [hq]
        · simp [loop, hstep, hw, RunResult.after]
        · simp [hc]
    | done code1 err1 c1 =>
      rw [hstep] at h
      simp only [RunResult.returned.injEq] at h
      obtain ⟨rfl, rfl, rfl, rfl⟩ := h
      exact ⟨[], e, st, [], c1, by simp, by simp [loop], hstep, by simp⟩

theorem processed_append (pre rest : List ContainerEvent) :
    processed (pre ++ rest) rest = pre := by
  simp [processed]

/-- A blocked run on `e :: pre` is an iteration that does not return followed
by a blocked run on `pre`. -/
theorem loop_cons_waiting (cs : Bool) (stopFn : Option GoError) (e : ContainerEvent)
    (pre : List ContainerEvent) (st st' : RunState) (calls : List Effect)
    (h : loop cs stopFn st (e :: pre) = .waiting st' calls) :
    ∃ st1 c1 c2, step cs stopFn st e = .next st1 c1 ∧
      loop cs stopFn st1 pre = .waiting st' c2 ∧ calls = c1 ++ c2 := by
  simp only [loop] at h
  cases hstep : step cs stopFn st e with
  | next st1 c1 =>
    rw [hstep] at h
    simp only at h
    cases hrec : loop cs stopFn st1 pre with
    | returned code err c2 rest => rw [hrec] at h; simp [RunResult.after] at h
    | waiting st2 c2 =>
      rw [hrec] at h
      simp only [RunResult.after, RunResult.waiting.injEq] at h
      obtain ⟨rfl, rfl⟩ := h
      exact ⟨st1, c1, c2, rfl, hrec, rfl⟩
  | done code err c1 => rw [hstep] at h; simp at h

/-! ### One iteration -/

theorem checkLast_eq_next (st st' : RunState) (c c' : List Effect) :
    checkLast st c = .next st' c' ↔ st.containers ≠ [] ∧ st' = st ∧ c' = c := by
  unfold checkLast
  cases hc : st.containers <;> simp [eq_comm]

theorem checkLast_eq_done (st : RunState) (c c' : List Effect) (code : Int)
    (err : Option GoError) :
    checkLast st c = .done code err c' ↔
      st.containers = [] ∧ code = st.exitCode ∧ err = none ∧ c' = c := by
  unfold checkLast
  cases hc : st.containers <;> simp [eq_comm]

theorem checkLast_calls (st : RunState) (c : List Effect) : (checkLast st c).calls = c := by
  unfold checkLast
  split <;> rfl

/-- The iteration for an `Exit` event, the `switch` resolved. -/
theorem step_exit (cs : Bool) (stopFn : Option GoError) (st : RunState)
    (e : ContainerEvent) (hT : e.Type_ = .ContainerEventExit) :
    step cs stopFn st e =
      if cs then
        match (if !st.aborting then stopFn else none) with
        | some err =>
          .done 0 (some err) ((if !st.aborting then
            [Effect.Status e.Container (exitedWithCode e.ExitCode)] else []) ++
            [.Println "Aborting on container exit...", .stopFn])
        | none =>
          checkLast
            { aborting := true,
              exitCode :=
                if (if st.exitCodeFrom == "" then e.Service else st.exitCodeFrom) == e.Service
                then e.ExitCode else st.exitCode,
              exitCodeFrom := if st.exitCodeFrom == "" then e.Service else st.exitCodeFrom,
              containers := knownStep st.containers e }
            ((if !st.aborting then
              [Effect.Status e.Container (exitedWithCode e.ExitCode),
               .Println "Aborting on container exit...", .stopFn] else []) ++
             (if (if st.exitCodeFrom == "" then e.Service else st.exitCodeFrom) == e.Service
              then [.logrusError e.ExitCode] else []))
      else
        checkLast { st with containers := knownStep st.containers e }
          (if !st.aborting then
            [Effect.Status e.Container (exitedWithCode e.ExitCode)] else []) := by
  unfold step
  simp only [hT, knownStep]
  cases cs <;> cases hA : st.aborting <;> cases stopFn <;> cases hR : e.Restarting <;>
    simp <;> split <;> simp_all

/-- The iteration for an event that is not an `Exit`: it never returns. -/
theorem step_not_exit (cs : Bool) (stopFn : Option GoError) (st : RunState)
    (e : ContainerEvent) (hT : e.Type_ ≠ .ContainerEventExit) :
    step cs stopFn st e =
      .next { st with aborting := st.aborting || e.Type_ == .UserCancel,
                      containers := knownStep st.containers e }
        (match e.Type_ with
         | .ContainerEventAttach =>
           if e.Container ∈ st.containers then [] else [.Register e.Container]
         | .ContainerEventLog =>
           if st.aborting then [] else [.Log e.Container e.Service e.Line]
         | _ => []) := by
  unfold step
  cases hT' : e.Type_ <;> simp only [hT'] at hT ⊢
  · cases st with
    | mk a x f c => cases a <;> simp [knownStep, hT']
  · cases st with
    | mk a x f c => by_cases hc : e.Container ∈ c <;> simp [knownStep, hT', hc]
  · exact absurd rfl hT
  · simp [knownStep, hT']

/-- An iteration that does not return: the new `aborting` and `containers`. -/
theorem step_next (cs : Bool) (stopFn : Option GoError) (st st' : RunState)
    (e : ContainerEvent) (calls : List Effect)
    (h : step cs stopFn st e = .next st' calls) :
    st'.aborting = (st.aborting || setsAborting cs e) ∧
    st'.containers = knownStep st.containers e := by
  by_cases hT : e.Type_ = .ContainerEventExit
  · rw [step_exit cs stopFn st e hT] at h
    cases cs <;> cases hA : st.aborting <;> cases stopFn <;>
      simp [hA, checkLast_eq_next] at h <;> obtain ⟨-, rfl, -⟩ := h <;>
      simp [setsAborting, hT, hA]
  · rw [step_not_exit cs stopFn st e hT] at h
    simp only [StepResult.next.injEq] at h
    obtain ⟨rfl, -⟩ := h
    have hT' : (e.Type_ == EventType.ContainerEventExit) = false := by simpa using hT
    simp [setsAborting, hT']

/-- With cascade-stop, a stop callback that succeeds and a configured
exit-code source `s`, an iteration keeps `s` and captures the code of an
`Exit` of `s`. -/
theorem step_next_code (s : String) (hs : s ≠ "") (st st' : RunState)
    (e : ContainerEvent) (calls : List Effect) (hst : st.exitCodeFrom = s)
    (h : step true none st e = .next st' calls) :
    st'.exitCodeFrom = s ∧
    st'.exitCode = if isExitOf s e then e.ExitCode else st.exitCode := by
  by_cases hT : e.Type_ = .ContainerEventExit
  · rw [step_exit true none st e hT] at h
    simp [hst, hs, checkLast_eq_next] at h
    obtain ⟨-, rfl, -⟩ := h
    by_cases hS : e.Service = s
    · simp [isExitOf, hT, hS]
    · simp [isExitOf, hT, hS, Ne.symm hS]
  · rw [step_not_exit true none st e hT] at h
    simp only [StepResult.next.injEq] at h
    obtain ⟨rfl, -⟩ := h
    simp [isExitOf, hT, hst]

/-- The returning counterpart of `step_next_code`. -/
theorem step_done_code (s : String) (hs : s ≠ "") (st : RunState)
    (e : ContainerEvent) (code : Int) (err : Option GoError) (calls : List Effect)
    (hst : st.exitCodeFrom = s)
    (h : step true none st e = .done code err calls) :
    err = none ∧ code = if isExitOf s e then e.ExitCode else st.exitCode := by
  by_cases hT : e.Type_ = .ContainerEventExit
  · rw [step_exit true none st e hT] at h
    simp [hst, hs, checkLast_eq_done] at h
    obtain ⟨-, rfl, rfl, -⟩ := h
    by_cases hS : e.Service = s
    · simp [isExitOf, hT, hS]
    · simp [isExitOf, hT, hS, Ne.symm hS]
  · rw [step_not_exit true none st e hT] at h
    simp at h

/-! ### Exit-code selection -/

theorem lastExitCodeOr_cons (d : Int) (s : String) (e : ContainerEvent)
    (pre : List ContainerEvent) :
    lastExitCodeOr d s (e :: pre) =
      lastExitCodeOr (if isExitOf s e then e.ExitCode else d) s pre := by
  unfold lastExitCodeOr
  by_cases h : isExitOf s e = true
  · simp only [List.filter_cons, h, if_true]
    cases hl : pre.filter (isExitOf s) with
    | nil => simp
    | cons x l =>
      rw [List.getLast?_cons_cons]
      cases hx : (x :: l).getLast? with
      | none => simp at hx
      | some y => rfl
  · simp [List.filter_cons, h]

theorem lastExitCodeOr_nil (d : Int) (s : String) : lastExitCodeOr d s [] = d := by
  simp [lastExitCodeOr]

/-- The captured code while the loop is blocked. -/
theorem loop_waiting_code (s : String) (hs : s ≠ "") :
    ∀ (pre : List ContainerEvent) (st st' : RunState) (calls : List Effect),
      st.exitCodeFrom = s → loop true none st pre = .waiting st' calls →
      st'.exitCodeFrom = s ∧ st'.exitCode = lastExitCodeOr st.exitCode s pre := by
  intro pre
  induction pre with
  | nil =>
    intro st st' calls hst h
    simp only [loop, RunResult.waiting.injEq] at h
    obtain ⟨rfl, -⟩ := h
    exact ⟨hst, (lastExitCodeOr_nil _ _).symm⟩
  | cons e pre ih =>
    intro st st' calls hst h
    obtain ⟨st1, c1, c2, hstep, hrec, -⟩ := loop_cons_waiting _ _ _ _ _ _ _ h
    obtain ⟨h1, h2⟩ := step_next_code s hs st st1 e c1 hst hstep
    obtain ⟨h3, h4⟩ := ih st1 st' c2 h1 hrec
    exact ⟨h3, by rw [h4, h2, lastExitCodeOr_cons]⟩

theorem lastExitCodeOr_append (d : Int) (s : String) :
    ∀ (pre post : List ContainerEvent),
      lastExitCodeOr d s (pre ++ post) = lastExitCodeOr (lastExitCodeOr d s pre) s post := by
  intro pre
  induction pre generalizing d with
  | nil => intro post; simp [lastExitCodeOr_nil]
  | cons e pre ih => intro post; simp only [List.cons_append, lastExitCodeOr_cons, ih]

/-- C1. Exit-code selection: with cascade-stop, a non-empty exit-code source
`s` and a stop callback that succeeds, whenever `Run` returns it returns no
error and the exit code of the last `Exit` event of service `s` among the
events it read, the returning one included, and `0` when it read none. -/
theorem Run_exit_code_from (s : String) (hs : s ≠ "") (queue : List ContainerEvent)
    (code : Int) (err : Option GoError) (calls : List Effect) (rest : List ContainerEvent)
    (h : Run true s none queue = .returned code err calls rest) :
    err = none ∧ code = lastExitCodeOf s (processed queue rest) := by
  obtain ⟨pre, e, st', c1, c2, hq, hw, hstep, -⟩ := loop_returned_split _ _ _ _ _ _ _ _ h
  obtain ⟨h1, h2⟩ := loop_waiting_code s hs pre _ st' c1 rfl hw
  obtain ⟨h3, h4⟩ := step_done_code s hs st' e code err c2 h1 hstep
  refine ⟨h3, ?_⟩
  have hp : processed queue rest = pre ++ [e] := by
    rw [hq, show pre ++ e :: rest = (pre ++ [e]) ++ rest by simp, processed_append]
  rw [hp, lastExitCodeOf, lastExitCodeOr_append, lastExitCodeOr_cons, lastExitCodeOr_nil,
    h4, h2]
  rfl

/-- Scenario 5 of the specification returns `7`, the code of `Exit(b, 7)`. -/
theorem Run_exit_code_from_witness :
    "b" ≠ "" ∧
    Run true "b" none scenario5 = .returned 7 none
      [.Register "a", .Register "b", .Register "c", .Status "a" "exited with code 1",
       .Println "Aborting on container exit...", .stopFn, .logrusError 7] [] ∧
    ((none : Option GoError) = none ∧ (7 : Int) = lastExitCodeOf "b" (processed scenario5 [])) :=
  ⟨by decide, by decide,
    Run_exit_code_from "b" (by decide) scenario5 7 none
      [.Register "a", .Register "b", .Register "c", .Status "a" "exited with code 1",
       .Println "Aborting on container exit...", .stopFn, .logrusError 7] [] (by decide)⟩

/-! ### The `aborting` flag and the stop callback -/

/-- The actions of a run over one more event, from a blocked run. -/
theorem loop_snoc_calls (cs : Bool) (stopFn : Option GoError) (pre : List ContainerEvent)
    (e : ContainerEvent) (st st' : RunState) (c : List Effect)
    (h : loop cs stopFn st pre = .waiting st' c) :
    (loop cs stopFn st (pre ++ [e])).calls = c ++ (step cs stopFn st' e).calls := by
  rw [loop_append_waiting cs stopFn pre [e] st st' c h, calls_after]
  simp only [loop]
  cases step cs stopFn st' e <;> simp [RunResult.after, RunResult.calls, StepResult.calls]

/-- The flag `aborting` while the loop is blocked. -/
theorem loop_waiting_aborting (cs : Bool) (stopFn : Option GoError) :
    ∀ (pre : List ContainerEvent) (st st' : RunState) (calls : List Effect),
      loop cs stopFn st pre = .waiting st' calls →
      st'.aborting = abortingAfter cs st.aborting pre := by
  intro pre
  induction pre with
  | nil =>
    intro st st' calls h
    simp only [loop, RunResult.waiting.injEq] at h
    obtain ⟨rfl, -⟩ := h
    simp [abortingAfter]
  | cons e pre ih =>
    intro st st' calls h
    obtain ⟨st1, c1, c2, hstep, hrec, -⟩ := loop_cons_waiting _ _ _ _ _ _ _ h
    rw [ih st1 st' c2 hrec, (step_next cs stopFn st st1 e c1 hstep).1]
    simp [abortingAfter, Bool.or_assoc]

theorem abortingAfter_false_iff (pre : List ContainerEvent) :
    abortingAfter true false pre = false ↔
      ∀ x ∈ pre, x.Type_ ≠ .ContainerEventExit ∧ x.Type_ ≠ .UserCancel := by
  simp only [abortingAfter, Bool.false_or, List.any_eq_false, setsAborting, Bool.true_and,
    Bool.or_eq_true, beq_iff_eq, not_or, ne_eq]
  exact ⟨fun h x hx => ⟨(h x hx).2, (h x hx).1⟩, fun h x hx => ⟨(h x hx).2, (h x hx).1⟩⟩

/-- The stop callback is called in an iteration exactly for an `Exit` event
received with cascade-stop while `aborting` is false, and then once. -/
theorem step_calls_stop (cs : Bool) (stopFn : Option GoError) (st : RunState)
    (e : ContainerEvent) :
    (step cs stopFn st e).calls.count .stopFn =
      if cs = true ∧ e.Type_ = .ContainerEventExit ∧ st.aborting = false then 1 else 0 := by
  by_cases hT : e.Type_ = .ContainerEventExit
  · rw [step_exit cs stopFn st e hT]
    cases cs <;> cases hA : st.aborting <;> cases stopFn <;>
      simp only [Bool.not_true, Bool.not_false, if_true, if_false, Bool.false_eq_true,
        checkLast_calls] <;>
      simp [StepResult.calls, hT, List.count_cons, List.count_append,
        apply_ite (List.count Effect.stopFn)]
  · rw [step_not_exit cs stopFn st e hT]
    simp only [StepResult.calls, hT, false_and, and_false, if_false]
    cases hT' : e.Type_ <;> simp [apply_ite (List.count Effect.stopFn)]

/-- Once `aborting` is set the stop callback is not called. -/
theorem loop_aborting_no_stop (cs : Bool) (stopFn : Option GoError) :
    ∀ (queue : List ContainerEvent) (st : RunState), st.aborting = true →
      (loop cs stopFn st queue).calls.count .stopFn = 0 := by
  intro queue
  induction queue with
  | nil => intro st _; simp [loop, RunResult.calls]
  | cons e q ih =>
    intro st hA
    have hc := step_calls_stop cs stopFn st e
    simp only [hA, Bool.true_eq_false, and_false, if_false] at hc
    simp only [loop]
    cases hstep : step cs stopFn st e with
    | next st1 c1 =>
      have h1 := (step_next cs stopFn st st1 e c1 hstep).1
      rw [hA, Bool.true_or] at h1
      rw [hstep] at hc
      simp only [StepResult.calls] at hc
      simp only [calls_after, List.count_append, hc, ih st1 h1]
    | done code err c1 =>
      rw [hstep] at hc
      simpa [RunResult.calls, StepResult.calls] using hc

/-- The stop callback is called at most once in a run. -/
theorem loop_stop_le_one (cs : Bool) (stopFn : Option GoError) :
    ∀ (queue : List ContainerEvent) (st : RunState),
      (loop cs stopFn st queue).calls.count .stopFn ≤ 1 := by
  intro queue
  induction queue with
  | nil => intro st; simp [loop, RunResult.calls]
  | cons e q ih =>
    intro st
    have hc := step_calls_stop cs stopFn st e
    simp only [loop]
    cases hstep : step cs stopFn st e with
    | next st1 c1 =>
      rw [hstep] at hc
      simp only [StepResult.calls] at hc
      simp only [calls_after, List.count_append, hc]
      split
      · next hfire =>
        have h1 := (step_next cs stopFn st st1 e c1 hstep).1
        have h2 : st1.aborting = true := by
          rw [h1]; simp [setsAborting, hfire.1, hfire.2.1]
        rw [loop_aborting_no_stop cs stopFn q st1 h2]
      · have := ih st1
        omega
    | done code err c1 =>
      rw [hstep] at hc
      simp only [RunResult.calls, StepResult.calls] at hc ⊢
      rw [hc]; split <;> omega

/-- C2. Cascade-stop fires once. With cascade-stop, in every run the stop
callback is called at most once. When the loop has read `pre` and is about to
read `e`: `aborting` is false exactly when `pre` holds no `Exit` and no
`UserCancel`; the actions of the run are extended by those of the iteration on
`e`, which call the stop callback exactly when `e` is an `Exit` and `aborting`
is false; and when `e` is an `Exit`, `aborting` is true whenever the loop waits
for an event after `e`, however many events follow. -/
theorem Run_cascade_stop_once (s : String) (stopFn : Option GoError) :
    (∀ queue : List ContainerEvent,
      (Run true s stopFn queue).calls.count .stopFn ≤ 1) ∧
    (∀ (pre : List ContainerEvent) (e : ContainerEvent) (st : RunState) (c : List Effect),
      Run true s stopFn pre = .waiting st c →
      (st.aborting = false ↔
        ∀ x ∈ pre, x.Type_ ≠ .ContainerEventExit ∧ x.Type_ ≠ .UserCancel) ∧
      (Run true s stopFn (pre ++ [e])).calls = c ++ (step true stopFn st e).calls ∧
      (Effect.stopFn ∈ (step true stopFn st e).calls ↔
        e.Type_ = .ContainerEventExit ∧ st.aborting = false) ∧
      (e.Type_ = .ContainerEventExit →
        ∀ (more : List ContainerEvent) (st' : RunState) (c' : List Effect),
          Run true s stopFn (pre ++ e :: more) = .waiting st' c' → st'.aborting = true)) := by
  refine ⟨fun queue => loop_stop_le_one true stopFn queue _, ?_⟩
  intro pre e st c h
  have hA := loop_waiting_aborting true stopFn pre _ st c h
  refine ⟨?_, loop_snoc_calls true stopFn pre e _ st c h, ?_, ?_⟩
  · rw [hA]; exact abortingAfter_false_iff pre
  · rw [← List.count_pos_iff, step_calls_stop]
    by_cases hf : e.Type_ = .ContainerEventExit ∧ st.aborting = false <;> simp [hf]
  · intro hT more st' c' h'
    rw [loop_waiting_aborting true stopFn _ _ st' c' h']
    simp [abortingAfter, initState, setsAborting, hT]

/-- In scenario 5 the loop, blocked after the three `Attach` events with
`aborting` false, calls the stop callback on `Exit(a, 1)`, and it is its only
call in the run. -/
theorem Run_cascade_stop_once_witness :
    (Run true "b" none scenario5).calls.count .stopFn ≤ 1 ∧
    Effect.stopFn ∈ (step true none
      { aborting := false, exitCode := 0, exitCodeFrom := "b", containers := ["c", "b", "a"] }
      (exitEvent "a" 1)).calls :=
  ⟨(Run_cascade_stop_once "b" none).1 scenario5,
   ((Run_cascade_stop_once "b" none).2 [attachEvent "a", attachEvent "b", attachEvent "c"]
      (exitEvent "a" 1) _ [.Register "a", .Register "b", .Register "c"]
      (by decide)).2.2.1.mpr ⟨by decide, by decide⟩⟩

/-! ### Without cascade-stop -/

/-- Without cascade-stop an iteration leaves `exitCode` as it is. -/
theorem step_next_no_cascade (stopFn : Option GoError) (st st' : RunState)
    (e : ContainerEvent) (calls : List Effect)
    (h : step false stopFn st e = .next st' calls) : st'.exitCode = st.exitCode := by
  by_cases hT : e.Type_ = .ContainerEventExit
  · rw [step_exit false stopFn st e hT] at h
    simp [checkLast_eq_next] at h
    obtain ⟨-, rfl, -⟩ := h
    rfl
  · rw [step_not_exit false stopFn st e hT] at h
    simp only [StepResult.next.injEq] at h
    obtain ⟨rfl, -⟩ := h
    rfl

/-- Without cascade-stop an iteration that returns gives `exitCode` and no error. -/
theorem step_done_no_cascade (stopFn : Option GoError) (st : RunState)
    (e : ContainerEvent) (code : Int) (err : Option GoError) (calls : List Effect)
    (h : step false stopFn st e = .done code err calls) :
    code = st.exitCode ∧ err = none := by
  by_cases hT : e.Type_ = .ContainerEventExit
  · rw [step_exit false stopFn st e hT] at h
    simp [checkLast_eq_done] at h
    exact ⟨h.2.1, h.2.2.1⟩
  · rw [step_not_exit false stopFn st e hT] at h
    simp at h

theorem loop_waiting_no_cascade (stopFn : Option GoError) :
    ∀ (pre : List ContainerEvent) (st st' : RunState) (calls : List Effect),
      loop false stopFn st pre = .waiting st' calls → st'.exitCode = st.exitCode := by
  intro pre
  induction pre with
  | nil =>
    intro st st' calls h
    simp only [loop, RunResult.waiting.injEq] at h
    rw [h.1]
  | cons e pre ih =>
    intro st st' calls h
    obtain ⟨st1, c1, c2, hstep, hrec, -⟩ := loop_cons_waiting _ _ _ _ _ _ _ h
    rw [ih st1 st' c2 hrec, step_next_no_cascade stopFn st st1 e c1 hstep]

theorem loop_no_cascade_no_stop (stopFn : Option GoError) :
    ∀ (queue : List ContainerEvent) (st : RunState),
      (loop false stopFn st queue).calls.count .stopFn = 0 := by
  intro queue
  induction queue with
  | nil => intro st; simp [loop, RunResult.calls]
  | cons e q ih =>
    intro st
    have hc := step_calls_stop false stopFn st e
    simp only [Bool.false_eq_true, false_and, if_false] at hc
    simp only [loop]
    cases hstep : step false stopFn st e with
    | next st1 c1 =>
      rw [hstep] at hc
      simp only [StepResult.calls] at hc
      simp only [calls_after, List.count_append, hc, ih st1]
    | done code err c1 =>
      rw [hstep] at hc
      simpa [RunResult.calls, StepResult.calls] using hc

/-- C3. Without cascade-stop, whatever the exit-code source, the result of the
stop callback and the events, `Run` never calls the stop callback, and when it
returns it returns code `0` and no error. -/
theorem Run_no_cascade (s : String) (stopFn : Option GoError)
    (queue : List ContainerEvent) :
    Effect.stopFn ∉ (Run false s stopFn queue).calls ∧
    ∀ (code : Int) (err : Option GoError) (calls : List Effect)
      (rest : List ContainerEvent),
      Run false s stopFn queue = .returned code err calls rest → code = 0 ∧ err = none := by
  refine ⟨?_, ?_⟩
  · rw [← List.count_eq_zero]
    exact loop_no_cascade_no_stop stopFn queue _
  · intro code err calls rest h
    obtain ⟨pre, e, st', c1, c2, -, hw, hstep, -⟩ := loop_returned_split _ _ _ _ _ _ _ _ h
    have h1 := loop_waiting_no_cascade stopFn pre _ st' c1 hw
    obtain ⟨h2, h3⟩ := step_done_no_cascade stopFn st' e code err c2 hstep
    exact ⟨by rw [h2, h1]; rfl, h3⟩

/-- Scenario 6 of the specification: the run returns `0` on the second `Exit`,
and is still waiting for events after the first. -/
theorem Run_no_cascade_witness :
    Run false "" none scenario6 = .returned 0 none
      [.Register "a", .Register "b", .Status "a" "exited with code 3",
       .Status "b" "exited with code 0"] [] ∧
    Run false "" none (scenario6.take 3) = .waiting
      { aborting := false, exitCode := 0, exitCodeFrom := "", containers := ["b"] }
      [.Register "a", .Register "b", .Status "a" "exited with code 3"] ∧
    ((0 : Int) = 0 ∧ (none : Option GoError) = none) :=
  ⟨by decide, by decide,
   (Run_no_cascade "" none scenario6).2 0 none
     [.Register "a", .Register "b", .Status "a" "exited with code 3",
      .Status "b" "exited with code 0"] [] (by decide)⟩

/-! ### Attach -/

/-- C4. Attach is idempotent. For an `Attach` event `e` received with any loop
variables `st`: when its container is already known the iteration changes
nothing and makes no call; when it is not, the iteration adds it to the set
and makes the single call `Register` with it. A second `Attach` for the same
container right after `e` changes nothing more, so that the two produce
exactly one `Register` call when the container was not known, in particular
at the start of a run. -/
theorem Run_attach_idempotent (cs : Bool) (stopFn : Option GoError) (st : RunState)
    (e : ContainerEvent) (hT : e.Type_ = .ContainerEventAttach) :
    (e.Container ∈ st.containers → step cs stopFn st e = .next st []) ∧
    (e.Container ∉ st.containers →
      step cs stopFn st e =
        .next { st with containers := e.Container :: st.containers }
          [.Register e.Container]) ∧
    (∀ e2 : ContainerEvent, e2.Type_ = .ContainerEventAttach → e2.Container = e.Container →
      loop cs stopFn st [e, e2] = loop cs stopFn st [e] ∧
      (e.Container ∉ st.containers →
        loop cs stopFn st [e, e2] =
          .waiting { st with containers := e.Container :: st.containers }
            [.Register e.Container]) ∧
      ∀ s : String, Run cs s stopFn [e, e2] =
        .waiting { initState s with containers := [e.Container] }
          [.Register e.Container]) := by
  have hknown : ∀ st : RunState, e.Container ∈ st.containers →
      ∀ e2 : ContainerEvent, e2.Type_ = .ContainerEventAttach →
        e2.Container = e.Container → step cs stopFn st e2 = .next st [] := by
    intro st hc e2 hT2 hC2
    rw [step_not_exit cs stopFn st e2 (by rw [hT2]; decide)]
    cases st with
    | mk a x f c => cases a <;> simp_all [knownStep]
  have hnew : ∀ st : RunState, e.Container ∉ st.containers →
      step cs stopFn st e =
        .next { st with containers := e.Container :: st.containers }
          [.Register e.Container] := by
    intro st hc
    rw [step_not_exit cs stopFn st e (by rw [hT]; decide)]
    cases st with
    | mk a x f c => cases a <;> simp_all [knownStep]
  have htwo : ∀ st : RunState, e.Container ∉ st.containers →
      ∀ e2 : ContainerEvent, e2.Type_ = .ContainerEventAttach → e2.Container = e.Container →
        loop cs stopFn st [e, e2] =
          .waiting { st with containers := e.Container :: st.containers }
            [.Register e.Container] := by
    intro st hc e2 hT2 hC2
    have h2 := hknown { st with containers := e.Container :: st.containers }
      (List.mem_cons_self _ _) e2 hT2 hC2
    simp [loop, hnew st hc, h2, RunResult.after]
  refine ⟨fun hc => hknown st hc e hT rfl, hnew st, fun e2 hT2 hC2 => ⟨?_, ?_, ?_⟩⟩
  · by_cases hc : e.Container ∈ st.containers
    · simp [loop, hknown st hc e hT rfl, hknown st hc e2 hT2 hC2, RunResult.after]
    · rw [htwo st hc e2 hT2 hC2]
      simp [loop, hnew st hc, RunResult.after]
  · exact fun hc => htwo st hc e2 hT2 hC2
  · intro s
    exact htwo (initState s) (by simp [initState]) e2 hT2 hC2

/-- Two `Attach` events for container `a` at the start of a run register it
once. -/
theorem Run_attach_idempotent_witness :
    Run true "" none [attachEvent "a", attachEvent "a"] =
      .waiting { initState "" with containers := ["a"] } [.Register "a"] :=
  (Run_attach_idempotent true none (initState "") (attachEvent "a") rfl).2.2
    (attachEvent "a") rfl rfl |>.2.2 ""

/-! ### Log suppression -/

/-- The `Log` calls of one iteration. -/
theorem step_calls_log (cs : Bool) (stopFn : Option GoError) (st : RunState)
    (e : ContainerEvent) :
    (step cs stopFn st e).calls.filter isLogCall =
      if e.Type_ == .ContainerEventLog && !st.aborting then
        [Effect.Log e.Container e.Service e.Line] else [] := by
  by_cases hT : e.Type_ = .ContainerEventExit
  · rw [step_exit cs stopFn st e hT]
    cases cs <;> cases hA : st.aborting <;> cases stopFn <;>
      simp only [Bool.not_true, Bool.not_false, if_true, if_false, Bool.false_eq_true,
        checkLast_calls] <;>
      simp [StepResult.calls, hT, List.filter_cons, isLogCall,
        apply_ite (List.filter isLogCall)]
  · rw [step_not_exit cs stopFn st e hT]
    cases hT' : e.Type_ <;> cases hA : st.aborting <;>
      simp [StepResult.calls, isLogCall, apply_ite (List.filter isLogCall)]

theorem forwardedLogs_append (cs : Bool) :
    ∀ (pre post : List ContainerEvent) (aborting : Bool),
      forwardedLogs cs aborting (pre ++ post) =
        forwardedLogs cs aborting pre ++
          forwardedLogs cs (abortingAfter cs aborting pre) post := by
  intro pre
  induction pre with
  | nil => intro post aborting; simp [forwardedLogs, abortingAfter]
  | cons e pre ih =>
    intro post aborting
    have ha : abortingAfter cs aborting (e :: pre) =
        abortingAfter cs (aborting || setsAborting cs e) pre := by
      simp [abortingAfter, Bool.or_assoc]
    rw [List.cons_append, forwardedLogs, forwardedLogs, ih, List.append_assoc, ha]

theorem forwardedLogs_aborting (cs : Bool) :
    ∀ events : List ContainerEvent, forwardedLogs cs true events = [] := by
  intro events
  induction events with
  | nil => rfl
  | cons e es ih => simp [forwardedLogs, ih]

/-- The `Log` calls of a blocked run. -/
theorem loop_waiting_logs (cs : Bool) (stopFn : Option GoError) :
    ∀ (pre : List ContainerEvent) (st st' : RunState) (calls : List Effect),
      loop cs stopFn st pre = .waiting st' calls →
      calls.filter isLogCall = forwardedLogs cs st.aborting pre := by
  intro pre
  induction pre with
  | nil =>
    intro st st' calls h
    simp only [loop, RunResult.waiting.injEq] at h
    obtain ⟨-, rfl⟩ := h
    rfl
  | cons e pre ih =>
    intro st st' calls h
    obtain ⟨st1, c1, c2, hstep, hrec, rfl⟩ := loop_cons_waiting _ _ _ _ _ _ _ h
    have h1 := step_calls_log cs stopFn st e
    rw [hstep] at h1
    simp only [StepResult.calls] at h1
    rw [List.filter_append, h1, ih st1 st' c2 hrec, (step_next cs stopFn st st1 e c1 hstep).1]
    rfl

/-- The events read by a run of the loop: all of them when it is blocked. -/
theorem processed_waiting (queue : List ContainerEvent) : processed queue [] = queue := by
  simp [processed]

/-- The `Log` calls of a run of the loop. -/
theorem loop_logs (cs : Bool) (stopFn : Option GoError) (st : RunState)
    (queue : List ContainerEvent) :
    (loop cs stopFn st queue).calls.filter isLogCall =
      forwardedLogs cs st.aborting (processed queue (loop cs stopFn st queue).unread) := by
  cases h : loop cs stopFn st queue with
  | waiting st' c =>
    simp only [RunResult.calls, RunResult.unread, processed_waiting]
    exact loop_waiting_logs cs stopFn queue st st' c h
  | returned code err c rest =>
    obtain ⟨pre, e, st', c1, c2, hq, hw, hstep, rfl⟩ := loop_returned_split _ _ _ _ _ _ _ _ h
    have hp : processed queue rest = pre ++ [e] := by
      rw [hq, show pre ++ e :: rest = (pre ++ [e]) ++ rest by simp, processed_append]
    have h1 := step_calls_log cs stopFn st' e
    rw [hstep] at h1
    simp only [StepResult.calls] at h1
    simp only [RunResult.calls, RunResult.unread, hp, List.filter_append, forwardedLogs_append,
      loop_waiting_logs cs stopFn pre st st' c1 hw, h1,
      loop_waiting_aborting cs stopFn pre st st' c1 hw]
    simp [forwardedLogs]

/-- C5. Log suppression. The `Log` calls of a run are, in order, those of the
`Log` events it read while `aborting` was false, each with the container,
service and line of its event. When the loop has read `pre`, `aborting` is
true exactly when `pre` holds a `UserCancel` or, with cascade-stop, an `Exit`;
a `Log` event read then is forwarded if `aborting` is false and makes no call
otherwise, the loop variables unchanged; and once `aborting` is true no event
read later adds a `Log` call. -/
theorem Run_log_suppression (cs : Bool) (s : String) (stopFn : Option GoError) :
    (∀ queue : List ContainerEvent,
      (Run cs s stopFn queue).calls.filter isLogCall =
        forwardedLogs cs false (processed queue (Run cs s stopFn queue).unread)) ∧
    (∀ (pre : List ContainerEvent) (st : RunState) (c : List Effect),
      Run cs s stopFn pre = .waiting st c →
      (st.aborting = true ↔ ∃ x ∈ pre, x.Type_ = .UserCancel ∨
        (cs = true ∧ x.Type_ = .ContainerEventExit)) ∧
      (∀ e : ContainerEvent, e.Type_ = .ContainerEventLog →
        step cs stopFn st e =
          .next st (if st.aborting then [] else [.Log e.Container e.Service e.Line])) ∧
      (st.aborting = true → ∀ more : List ContainerEvent,
        (Run cs s stopFn (pre ++ more)).calls.filter isLogCall = c.filter isLogCall)) := by
  refine ⟨fun queue => loop_logs cs stopFn _ queue, ?_⟩
  intro pre st c h
  refine ⟨?_, ?_, ?_⟩
  · rw [loop_waiting_aborting cs stopFn pre _ st c h]
    simp [abortingAfter, initState, setsAborting]
  · intro e hT
    rw [step_not_exit cs stopFn st e (by rw [hT]; decide)]
    cases st with
    | mk a x f k => cases a <;> simp [knownStep, hT]
  · intro hA more
    have h1 : Run cs s stopFn (pre ++ more) = (loop cs stopFn st more).after c :=
      loop_append_waiting cs stopFn pre more _ st c h
    rw [h1, calls_after, List.filter_append, loop_logs, hA, forwardedLogs_aborting]
    simp

/-- A line logged after a `UserCancel` is not forwarded, one logged before it
is. -/
theorem Run_log_suppression_witness :
    Run true "" none [attachEvent "a", logEvent "a" "one", cancelEvent, logEvent "a" "two"] =
      .waiting { aborting := true, exitCode := 0, exitCodeFrom := "", containers := ["a"] }
        [.Register "a", .Log "a" "a" "one"] ∧
    List.filter isLogCall (Run true "" none
      ([attachEvent "a", logEvent "a" "one", cancelEvent] ++ [logEvent "a" "two"])).calls =
      List.filter isLogCall [.Register "a", .Log "a" "a" "one"] :=
  ⟨by decide,
   ((Run_log_suppression true "" none).2 [attachEvent "a", logEvent "a" "one", cancelEvent]
      { aborting := true, exitCode := 0, exitCodeFrom := "", containers := ["a"] }
      [.Register "a", .Log "a" "a" "one"] (by decide)).2.2 rfl [logEvent "a" "two"]⟩

/-! ### A failing stop callback -/

/-- With cascade-stop and a failing stop callback, an `Exit` received while
`aborting` is false makes `Run` return the error right after the call. -/
theorem step_stop_failure (err : GoError) (st : RunState) (e : ContainerEvent)
    (hT : e.Type_ = .ContainerEventExit) (hA : st.aborting = false) :
    step true (some err) st e =
      .done 0 (some err)
        [.Status e.Container (exitedWithCode e.ExitCode),
         .Println "Aborting on container exit...", .stopFn] := by
  rw [step_exit true (some err) st e hT]
  simp [hA]

/-- With a failing stop callback, an iteration that goes on has not called it. -/
theorem step_next_failing_stop (cs : Bool) (err : GoError) (st st' : RunState)
    (e : ContainerEvent) (calls : List Effect)
    (h : step cs (some err) st e = .next st' calls) : Effect.stopFn ∉ calls := by
  have hc := step_calls_stop cs (some err) st e
  rw [h] at hc
  simp only [StepResult.calls] at hc
  rw [← List.count_eq_zero, hc]
  by_cases hf : cs = true ∧ e.Type_ = .ContainerEventExit ∧ st.aborting = false
  · obtain ⟨rfl, hT, hA⟩ := hf
    rw [step_stop_failure err st e hT hA] at h
    simp at h
  · simp [hf]

/-- With a failing stop callback, an iteration that returns after calling it
returns `(0, err)`, the call being its last action. -/
theorem step_done_failing_stop (cs : Bool) (err : GoError) (st : RunState)
    (e : ContainerEvent) (code : Int) (r : Option GoError) (calls : List Effect)
    (h : step cs (some err) st e = .done code r calls) (hm : Effect.stopFn ∈ calls) :
    code = 0 ∧ r = some err ∧
      ∃ c, calls = c ++ [Effect.stopFn] ∧ Effect.stopFn ∉ c := by
  have hc := step_calls_stop cs (some err) st e
  rw [h] at hc
  simp only [StepResult.calls] at hc
  by_cases hf : cs = true ∧ e.Type_ = .ContainerEventExit ∧ st.aborting = false
  · obtain ⟨rfl, hT, hA⟩ := hf
    rw [step_stop_failure err st e hT hA] at h
    simp only [StepResult.done.injEq] at h
    obtain ⟨rfl, rfl, rfl⟩ := h
    exact ⟨rfl, rfl, [.Status e.Container (exitedWithCode e.ExitCode),
      .Println "Aborting on container exit..."], rfl, by simp⟩
  · rw [if_neg hf, List.count_eq_zero] at hc
    exact absurd hm hc

theorem loop_waiting_failing_stop (cs : Bool) (err : GoError) :
    ∀ (pre : List ContainerEvent) (st st' : RunState) (calls : List Effect),
      loop cs (some err) st pre = .waiting st' calls → Effect.stopFn ∉ calls := by
  intro pre
  induction pre with
  | nil =>
    intro st st' calls h
    simp only [loop, RunResult.waiting.injEq] at h
    simp [← h.2]
  | cons e pre ih =>
    intro st st' calls h
    obtain ⟨st1, c1, c2, hstep, hrec, rfl⟩ := loop_cons_waiting _ _ _ _ _ _ _ h
    simp only [List.mem_append, not_or]
    exact ⟨step_next_failing_stop cs err st st1 e c1 hstep, ih st1 st' c2 hrec⟩

/-- C6. A failing stop callback aborts the run. With a stop callback that
returns the error `err`: when the loop has read `pre`, with `aborting` false,
and receives an `Exit` event `e` under cascade-stop, `Run` returns `(0, err)`
whatever the exit code of `e` and the known containers, its actions being those
made before `e`, the status of `e`, the announcement and the call of the stop
callback, and all the events after `e` are left unread. In every run in which
the stop callback is called, `Run` returns `(0, err)` and the call is its last
action. -/
theorem Run_stop_failure (s : String) (err : GoError) :
    (∀ (pre : List ContainerEvent) (e : ContainerEvent) (rest : List ContainerEvent)
      (st : RunState) (c : List Effect),
      Run true s (some err) pre = .waiting st c →
      e.Type_ = .ContainerEventExit → st.aborting = false →
      Run true s (some err) (pre ++ e :: rest) =
        .returned 0 (some err)
          (c ++ [.Status e.Container (exitedWithCode e.ExitCode),
                 .Println "Aborting on container exit...", .stopFn]) rest) ∧
    (∀ (cs : Bool) (queue : List ContainerEvent),
      Effect.stopFn ∈ (Run cs s (some err) queue).calls →
      ∃ calls rest, Run cs s (some err) queue =
          .returned 0 (some err) (calls ++ [.stopFn]) rest ∧
        Effect.stopFn ∉ calls) := by
  refine ⟨?_, ?_⟩
  · intro pre e rest st c h hT hA
    have h1 : Run true s (some err) (pre ++ e :: rest) =
        (loop true (some err) st (e :: rest)).after c :=
      loop_append_waiting true (some err) pre (e :: rest) _ st c h
    rw [h1]
    simp [loop, step_stop_failure err st e hT hA, RunResult.after]
  · intro cs queue hm
    cases h : Run cs s (some err) queue with
    | waiting st c =>
      rw [h] at hm
      exact absurd hm (loop_waiting_failing_stop cs err queue _ st c h)
    | returned code r calls rest =>
      rw [h] at hm
      simp only [RunResult.calls] at hm
      obtain ⟨pre, e, st', c1, c2, -, hw, hstep, rfl⟩ :=
        loop_returned_split _ _ _ _ _ _ _ _ h
      have hn := loop_waiting_failing_stop cs err pre _ st' c1 hw
      have hm2 : Effect.stopFn ∈ c2 := by
        rcases List.mem_append.mp hm with h' | h'
        · exact absurd h' hn
        · exact h'
      obtain ⟨rfl, rfl, c, rfl, hc⟩ := step_done_failing_stop cs err st' e code r c2 hstep hm2
      refine ⟨c1 ++ c, rest, by simp, ?_⟩
      simp only [List.mem_append, not_or]
      exact ⟨hn, hc⟩

/-- In scenario 5 with a failing stop callback the run returns the error on
`Exit(a, 1)` with code `0`, and `Exit(b, 7)` and `Exit(c, 0)` are not read. -/
theorem Run_stop_failure_witness :
    Run true "b" (some (.external "stop failed")) scenario5 =
      .returned 0 (some (.external "stop failed"))
        ([.Register "a", .Register "b", .Register "c"] ++
          [.Status "a" "exited with code 1", .Println "Aborting on container exit...",
           .stopFn])
        [exitEvent "b" 7, exitEvent "c" 0] :=
  (Run_stop_failure "b" (.external "stop failed")).1
    [attachEvent "a", attachEvent "b", attachEvent "c"] (exitEvent "a" 1)
    [exitEvent "b" 7, exitEvent "c" 0]
    { aborting := false, exitCode := 0, exitCodeFrom := "b", containers := ["c", "b", "a"] }
    [.Register "a", .Register "b", .Register "c"] (by decide) rfl rfl

/-! ### The point where the run ends -/

/-- With a stop callback that succeeds, an iteration returns exactly for an
`Exit` event that leaves the known-container set empty. -/
theorem step_done_iff (cs : Bool) (st : RunState) (e : ContainerEvent) :
    (∃ code err calls, step cs none st e = .done code err calls) ↔
      e.Type_ = .ContainerEventExit ∧ knownStep st.containers e = [] := by
  by_cases hT : e.Type_ = .ContainerEventExit
  · rw [step_exit cs none st e hT]
    cases cs <;> simp [checkLast_eq_done, hT]
  · rw [step_not_exit cs none st e hT]
    simp [hT]

/-- With a stop callback that succeeds, `Run` returns no error. -/
theorem step_done_err (cs : Bool) (st : RunState) (e : ContainerEvent) (code : Int)
    (err : Option GoError) (calls : List Effect)
    (h : step cs none st e = .done code err calls) : err = none := by
  by_cases hT : e.Type_ = .ContainerEventExit
  · rw [step_exit cs none st e hT] at h
    cases cs <;> simp [checkLast_eq_done] at h <;> exact h.2.2.1
  · rw [step_not_exit cs none st e hT] at h
    simp at h

/-- A step result is either `next` or `done`. -/
theorem step_next_or_done (r : StepResult) :
    (∃ st c, r = .next st c) ∨ (∃ code err c, r = .done code err c) := by
  cases r with
  | next st c => exact Or.inl ⟨st, c, rfl⟩
  | done code err c => exact Or.inr ⟨code, err, c, rfl⟩

theorem knownAfter_cons (known : List String) (e : ContainerEvent)
    (pre : List ContainerEvent) :
    knownAfter known (e :: pre) = knownAfter (knownStep known e) pre := rfl

theorem knownAfter_snoc (known : List String) (pre : List ContainerEvent)
    (e : ContainerEvent) :
    knownAfter known (pre ++ [e]) = knownStep (knownAfter known pre) e := by
  simp [knownAfter, List.foldl_append]

/-- The known-container set while the loop is blocked. -/
theorem loop_waiting_containers (cs : Bool) (stopFn : Option GoError) :
    ∀ (pre : List ContainerEvent) (st st' : RunState) (calls : List Effect),
      loop cs stopFn st pre = .waiting st' calls →
      st'.containers = knownAfter st.containers pre := by
  intro pre
  induction pre with
  | nil =>
    intro st st' calls h
    simp only [loop, RunResult.waiting.injEq] at h
    rw [← h.1]; rfl
  | cons e pre ih =>
    intro st st' calls h
    obtain ⟨st1, c1, c2, hstep, hrec, -⟩ := loop_cons_waiting _ _ _ _ _ _ _ h
    rw [ih st1 st' c2 hrec, (step_next cs stopFn st st1 e c1 hstep).2, knownAfter_cons]

/-- While no event ends the run, the loop is blocked once the events are read. -/
theorem loop_waiting_of_no_end (cs : Bool) :
    ∀ (pre : List ContainerEvent) (st : RunState),
      (∀ p x t, pre = p ++ x :: t → ¬ endsRun st.containers p x) →
      ∃ st' calls, loop cs none st pre = .waiting st' calls := by
  intro pre
  induction pre with
  | nil => intro st _; exact ⟨st, [], rfl⟩
  | cons e pre ih =>
    intro st hno
    rcases step_next_or_done (step cs none st e) with ⟨st1, c1, hstep⟩ | hdone
    · have hc := (step_next cs none st st1 e c1 hstep).2
      have hno1 : ∀ p x t, pre = p ++ x :: t → ¬ endsRun st1.containers p x := by
        intro p x t hp hend
        refine hno (e :: p) x t (by simp [hp]) ?_
        simpa [endsRun, knownAfter_cons, hc] using hend
      obtain ⟨st', c2, hrec⟩ := ih st1 hno1
      exact ⟨st', c1 ++ c2, by simp [loop, hstep, hrec, RunResult.after]⟩
    · have hd := (step_done_iff cs st e).mp hdone
      exact absurd (show endsRun st.containers [] e from
        ⟨hd.1, by simpa [knownAfter] using hd.2⟩) (hno [] e pre rfl)

/-- A blocked run did not meet an event that ends the run. -/
theorem loop_waiting_no_end (cs : Bool) :
    ∀ (pre : List ContainerEvent) (st st' : RunState) (calls : List Effect),
      loop cs none st pre = .waiting st' calls →
      ∀ p x t, pre = p ++ x :: t → ¬ endsRun st.containers p x := by
  intro pre
  induction pre with
  | nil => intro st st' calls _ p x t hp; simp at hp
  | cons e pre ih =>
    intro st st' calls h p x t hp
    obtain ⟨st1, c1, c2, hstep, hrec, -⟩ := loop_cons_waiting _ _ _ _ _ _ _ h
    have hc := (step_next cs none st st1 e c1 hstep).2
    cases p with
    | nil =>
      simp only [List.nil_append, List.cons.injEq] at hp
      obtain ⟨rfl, -⟩ := hp
      rintro ⟨hT, hk⟩
      have hd := (step_done_iff cs st e).mpr ⟨hT, by simpa [knownAfter] using hk⟩
      rw [hstep] at hd
      simp at hd
    | cons y p =>
      simp only [List.cons_append, List.cons.injEq] at hp
      obtain ⟨rfl, hp⟩ := hp
      intro hend
      refine ih st1 st' c2 hrec p x t hp ?_
      simpa [endsRun, knownAfter_cons, hc] using hend

/-- C7. The point where the run ends. With a stop callback that succeeds,
`Run` returns right after reading the event `e` that follows `pre` exactly
when `e` is an `Exit` after whose processing no container is known and no
earlier event of `pre` is such an `Exit`; it then returns no error. The known
set the loop holds after `pre` is the one obtained from the `Attach` events
and the non-restarting `Exit` events of `pre`. An iteration never returns on
an event that is not an `Exit`. A restarting `Exit` leaves the known set as it
is, and does not return when its container is known; an `Exit` that is not
restarting removes its container, and only it, from the set. -/
theorem Run_termination_point (cs : Bool) (s : String) :
    (∀ (pre : List ContainerEvent) (e : ContainerEvent) (rest : List ContainerEvent),
      (∃ code err calls, Run cs s none (pre ++ e :: rest) = .returned code err calls rest) ↔
        (endsRun [] pre e ∧ ∀ p x t, pre = p ++ x :: t → ¬ endsRun [] p x)) ∧
    (∀ (queue : List ContainerEvent) (code : Int) (err : Option GoError)
      (calls : List Effect) (rest : List ContainerEvent),
      Run cs s none queue = .returned code err calls rest → err = none) ∧
    (∀ (pre : List ContainerEvent) (st : RunState) (c : List Effect),
      Run cs s none pre = .waiting st c → st.containers = knownAfter [] pre) ∧
    (∀ (st : RunState) (e : ContainerEvent), e.Type_ ≠ .ContainerEventExit →
      ∃ st' c, step cs none st e = .next st' c) ∧
    (∀ (st : RunState) (e : ContainerEvent), e.Type_ = .ContainerEventExit →
      e.Restarting = true →
      knownStep st.containers e = st.containers ∧
      (e.Container ∈ st.containers →
        ∃ st' c, step cs none st e = .next st' c ∧ st'.containers = st.containers)) ∧
    (∀ (st : RunState) (e : ContainerEvent), e.Type_ = .ContainerEventExit →
      e.Restarting = false →
      (∀ x, x ∈ knownStep st.containers e ↔ x ∈ st.containers ∧ x ≠ e.Container) ∧
      ∀ st' c, step cs none st e = .next st' c →
        ∀ x, x ∈ st'.containers ↔ x ∈ st.containers ∧ x ≠ e.Container) := by
  have hdel : ∀ (st : RunState) (e : ContainerEvent), e.Type_ = .ContainerEventExit →
      e.Restarting = false →
      ∀ x, x ∈ knownStep st.containers e ↔ x ∈ st.containers ∧ x ≠ e.Container := by
    intro st e hT hR x
    simp [knownStep, hT, hR, mapDelete]
  have hkeep : ∀ (st : RunState) (e : ContainerEvent), e.Type_ = .ContainerEventExit →
      e.Restarting = true → knownStep st.containers e = st.containers := by
    intro st e hT hR
    simp [knownStep, hT, hR]
  refine ⟨?_, ?_, ?_, ?_, ?_, ?_⟩
  · intro pre e rest
    constructor
    · rintro ⟨code, err, calls, h⟩
      obtain ⟨pre', e', st', c1, c2, hq, hw, hstep, -⟩ :=
        loop_returned_split _ _ _ _ _ _ _ _ h
      have hq' : (pre ++ [e]) ++ rest = (pre' ++ [e']) ++ rest := by simpa using hq
      have hpe := List.append_cancel_right hq'
      obtain ⟨rfl, he⟩ := List.append_inj' hpe rfl
      simp only [List.cons.injEq, and_true] at he
      subst he
      have hk := loop_waiting_containers cs none pre _ st' c1 hw
      have hd := (step_done_iff cs st' e).mp ⟨code, err, c2, hstep⟩
      refine ⟨⟨hd.1, ?_⟩, ?_⟩
      · rw [knownAfter_snoc, ← show st'.containers = knownAfter [] pre from hk]
        exact hd.2
      · exact loop_waiting_no_end cs pre _ st' c1 hw
    · rintro ⟨⟨hT, hk⟩, hno⟩
      obtain ⟨st', c1, hw⟩ := loop_waiting_of_no_end cs pre (initState s) hno
      have hk' := loop_waiting_containers cs none pre _ st' c1 hw
      rw [knownAfter_snoc, ← show st'.containers = knownAfter [] pre from hk'] at hk
      obtain ⟨code, err, c2, hstep⟩ := (step_done_iff cs st' e).mpr ⟨hT, hk⟩
      refine ⟨code, err, c1 ++ c2, ?_⟩
      have h1 : Run cs s none (pre ++ e :: rest) = (loop cs none st' (e :: rest)).after c1 :=
        loop_append_waiting cs none pre (e :: rest) _ st' c1 hw
      rw [h1]
      simp [loop, hstep, RunResult.after]
  · intro queue code err calls rest h
    obtain ⟨pre, e, st', c1, c2, -, -, hstep, -⟩ := loop_returned_split _ _ _ _ _ _ _ _ h
    exact step_done_err cs st' e code err c2 hstep
  · intro pre st c h
    exact loop_waiting_containers cs none pre _ st c h
  · intro st e hT
    rw [step_not_exit cs none st e hT]
    exact ⟨_, _, rfl⟩
  · intro st e hT hR
    refine ⟨hkeep st e hT hR, fun hc => ?_⟩
    rcases step_next_or_done (step cs none st e) with ⟨st1, c1, hstep⟩ | hdone
    · exact ⟨st1, c1, hstep, by rw [(step_next cs none st st1 e c1 hstep).2, hkeep st e hT hR]⟩
    · have hd := (step_done_iff cs st e).mp hdone
      rw [hkeep st e hT hR] at hd
      rw [hd.2] at hc
      simp at hc
  · intro st e hT hR
    refine ⟨hdel st e hT hR, fun st' c hstep x => ?_⟩
    rw [(step_next cs none st st' e c hstep).2]
    exact hdel st e hT hR x

/-- Scenario 6 ends on its second `Exit`, the first one to leave no container
known. -/
theorem Run_termination_point_witness :
    ∃ code err calls,
      Run false "" none ([attachEvent "a", attachEvent "b", exitEvent "a" 3] ++
        exitEvent "b" 0 :: []) = .returned code err calls [] :=
  ((Run_termination_point false "").1 [attachEvent "a", attachEvent "b", exitEvent "a" 3]
    (exitEvent "b" 0) []).mpr
    ⟨⟨rfl, by decide⟩, by
      intro p x t hp
      rintro ⟨hT, hk⟩
      rcases p with _ | ⟨y, _ | ⟨z, _ | ⟨w, p⟩⟩⟩ <;> simp at hp
      · obtain ⟨rfl, -⟩ := hp; exact absurd hT (by decide)
      · obtain ⟨-, rfl, -⟩ := hp; exact absurd hT (by decide)
      · obtain ⟨rfl, rfl, rfl, -⟩ := hp; exact absurd hk (by decide)⟩

/-! ## Properties of `checkPodsState` -/

/-- The test of line 62 skips exactly the pods that `filterPods` drops. -/
theorem skip_eq_not_filter (services : List String) (pod : Pod) :
    (decide (services.length > 0) && !StringContains services (mapGet pod.Labels ServiceLabel)) =
      !(services.isEmpty || decide (podService pod ∈ services)) := by
  cases services with
  | nil => simp
  | cons x xs => simp [StringContains, podService]

theorem filterPods_cons_keep (services : List String) (pod : Pod) (pods : List Pod)
    (h : (services.isEmpty || decide (podService pod ∈ services)) = true) :
    filterPods services (pod :: pods) = pod :: filterPods services pods := by
  simp only [filterPods, List.filter_cons, h, if_true]

theorem filterPods_cons_skip (services : List String) (pod : Pod) (pods : List Pod)
    (h : (services.isEmpty || decide (podService pod ∈ services)) = false) :
    filterPods services (pod :: pods) = filterPods services pods := by
  simp [filterPods, List.filter_cons, h]

/-- The loop passes over a pod outside the requested services. -/
theorem podsLoop_cons_skip (services : List String) (status : String) (pod : Pod)
    (pods : List Pod) (m : List (String × String)) (r : Bool)
    (h : (services.isEmpty || decide (podService pod ∈ services)) = false) :
    podsLoop services status (pod :: pods) m r = podsLoop services status pods m r := by
  have hsk := skip_eq_not_filter services pod
  rw [h] at hsk
  rw [podsLoop]
  simp only [hsk, Bool.not_false, if_true]

/-- The loop on a pod of the requested services. -/
theorem podsLoop_cons_keep (services : List String) (status : String) (pod : Pod)
    (pods : List Pod) (m : List (String × String)) (r : Bool)
    (h : (services.isEmpty || decide (podService pod ∈ services)) = true) :
    podsLoop services status (pod :: pods) m r =
      if status = REMOVING then
        podsLoop services status pods (mapSet m (podService pod) pod.Status.Message) r
      else if pod.Status.Phase = PodFailed then
        .failed (mapSet m (podService pod) pod.Status.Message) (.errorf pod.Status.Reason)
      else if status = RUNNING ∧
          ¬ (pod.Status.Phase = PodRunning ∧
            containersRunning pod.Status.ContainerStatuses = true) then
        podsLoop services status pods (mapSet m (podService pod) pod.Status.Message) false
      else
        podsLoop services status pods (mapSet m (podService pod) pod.Status.Message) r := by
  have hsk := skip_eq_not_filter services pod
  rw [h] at hsk
  rw [podsLoop]
  simp only [hsk, Bool.not_true, Bool.false_eq_true, if_false, podService]
  by_cases h1 : status = REMOVING
  · simp [h1]
  · by_cases h2 : pod.Status.Phase = PodFailed
    · simp [h1, h2]
    · by_cases h3 : status = RUNNING <;> by_cases h4 : pod.Status.Phase = PodRunning <;>
        cases h5 : containersRunning pod.Status.ContainerStatuses <;> simp [h1, h2, h3, h4, h5]

/-- Pods outside the requested services do not take part in the loop. -/
theorem podsLoop_filter (services : List String) (status : String) :
    ∀ (pods : List Pod) (m : List (String × String)) (r : Bool),
      podsLoop services status pods m r =
        podsLoop services status (filterPods services pods) m r := by
  intro pods
  induction pods with
  | nil => intro m r; rfl
  | cons pod pods ih =>
    intro m r
    cases h : (services.isEmpty || decide (podService pod ∈ services)) with
    | false => rw [podsLoop_cons_skip _ _ _ _ _ _ h, filterPods_cons_skip _ _ _ h, ih]
    | true =>
      rw [filterPods_cons_keep _ _ _ h, podsLoop_cons_keep _ _ _ _ _ _ h,
        podsLoop_cons_keep _ _ _ _ _ _ h]
      simp only [← ih]

theorem mapSet_ne_nil (m : List (String × String)) (k v : String) : mapSet m k v ≠ [] := by
  cases m with
  | nil => simp [mapSet]
  | cons kv m =>
    obtain ⟨k', v'⟩ := kv
    simp only [mapSet]
    split <;> simp

theorem containersRunning_iff (l : List ContainerStatus) :
    containersRunning l = true ↔ ∀ c ∈ l, c.State.Running ≠ none := by
  induction l with
  | nil => simp [containersRunning]
  | cons c l ih =>
    cases hc : c.State.Running <;> simp [containersRunning, hc, ih]

/-- For a target other than `REMOVING`, the loop returns from inside exactly
when a pod of the requested services has phase `Failed`. -/
theorem podsLoop_failed_iff (services : List String) (status : String)
    (hs : status ≠ REMOVING) :
    ∀ (pods : List Pod) (m : List (String × String)) (r : Bool),
      (∃ m' err, podsLoop services status pods m r = .failed m' err) ↔
        ∃ p ∈ filterPods services pods, p.Status.Phase = PodFailed := by
  intro pods
  induction pods with
  | nil => intro m r; simp [podsLoop, filterPods]
  | cons pod pods ih =>
    intro m r
    cases h : (services.isEmpty || decide (podService pod ∈ services)) with
    | false => rw [podsLoop_cons_skip _ _ _ _ _ _ h, filterPods_cons_skip _ _ _ h, ih]
    | true =>
      rw [filterPods_cons_keep _ _ _ h, podsLoop_cons_keep _ _ _ _ _ _ h, if_neg hs]
      by_cases h2 : pod.Status.Phase = PodFailed
      · simp [h2]
      · rw [if_neg h2]
        have hr : (∃ p ∈ pod :: filterPods services pods, p.Status.Phase = PodFailed) ↔
            ∃ p ∈ filterPods services pods, p.Status.Phase = PodFailed := by
          simp [h2]
        rw [hr]
        split <;> exact ih _ _

/-- For the target `REMOVING` the loop runs to its end, leaves `stateReached`
as it is, and its map is empty only when it started empty and no pod belongs
to the requested services. -/
theorem podsLoop_removing (services : List String) :
    ∀ (pods : List Pod) (m : List (String × String)) (r : Bool),
      ∃ m', podsLoop services REMOVING pods m r = .finished m' r ∧
        (m' = [] ↔ m = [] ∧ filterPods services pods = []) := by
  intro pods
  induction pods with
  | nil => intro m r; exact ⟨m, rfl, by simp [filterPods]⟩
  | cons pod pods ih =>
    intro m r
    cases h : (services.isEmpty || decide (podService pod ∈ services)) with
    | false =>
      rw [podsLoop_cons_skip _ _ _ _ _ _ h, filterPods_cons_skip _ _ _ h]
      exact ih m r
    | true =>
      rw [filterPods_cons_keep _ _ _ h, podsLoop_cons_keep _ _ _ _ _ _ h, if_pos rfl]
      obtain ⟨m', h1, h2⟩ := ih (mapSet m (podService pod) pod.Status.Message) r
      refine ⟨m', h1, ?_⟩
      rw [h2]
      simp [mapSet_ne_nil]

/-- For the target `RUNNING`, when no pod of the requested services has phase
`Failed`, the loop runs to its end and `stateReached` stays true exactly when
every such pod is running with running containers. -/
theorem podsLoop_running (services : List String) :
    ∀ (pods : List Pod) (m : List (String × String)) (r : Bool),
      (∀ p ∈ filterPods services pods, p.Status.Phase ≠ PodFailed) →
      ∃ m' r', podsLoop services RUNNING pods m r = .finished m' r' ∧
        (r' = true ↔ r = true ∧ ∀ p ∈ filterPods services pods, podRunning p) := by
  intro pods
  induction pods with
  | nil => intro m r _; exact ⟨m, r, rfl, by simp [filterPods]⟩
  | cons pod pods ih =>
    intro m r hno
    cases h : (services.isEmpty || decide (podService pod ∈ services)) with
    | false =>
      rw [podsLoop_cons_skip _ _ _ _ _ _ h]
      rw [filterPods_cons_skip _ _ _ h] at hno ⊢
      exact ih m r hno
    | true =>
      rw [filterPods_cons_keep _ _ _ h] at hno ⊢
      have h2 : pod.Status.Phase ≠ PodFailed := hno pod (List.mem_cons_self _ _)
      have hno' : ∀ p ∈ filterPods services pods, p.Status.Phase ≠ PodFailed :=
        fun p hp => hno p (List.mem_cons_of_mem _ hp)
      rw [podsLoop_cons_keep _ _ _ _ _ _ h, if_neg (by decide), if_neg h2]
      have hrun : (pod.Status.Phase = PodRunning ∧
          containersRunning pod.Status.ContainerStatuses = true) ↔ podRunning pod := by
        rw [containersRunning_iff]; rfl
      by_cases h3 : podRunning pod
      · rw [if_neg (by simp [hrun, h3])]
        obtain ⟨m', r', h4, h5⟩ := ih (mapSet m (podService pod) pod.Status.Message) r hno'
        exact ⟨m', r', h4, by simp [h5, h3]⟩
      · rw [if_pos ⟨rfl, by rw [hrun]; exact h3⟩]
        obtain ⟨m', r', h4, h5⟩ := ih (mapSet m (podService pod) pod.Status.Message) false hno'
        exact ⟨m', r', h4, by simp [h5, h3]⟩

/-- C8. Fail-fast on a failed pod. For every target status other than
`REMOVING`, every service subset and every pod list, `checkPodsState` returns
an error exactly when some pod of the requested services (all pods when the
subset is empty) has phase `Failed`, whatever the other pods are; and then
`reached` is false. -/
theorem checkPodsState_fail_fast (services : List String) (pods : List Pod)
    (status : String) (hs : status ≠ REMOVING) :
    ((checkPodsState services pods status).2.2 ≠ none ↔
      ∃ p ∈ filterPods services pods, p.Status.Phase = PodFailed) ∧
    ((checkPodsState services pods status).2.2 ≠ none →
      (checkPodsState services pods status).1 = false) := by
  have hiff := podsLoop_failed_iff services status hs pods [] true
  unfold checkPodsState
  cases h : podsLoop services status pods [] true with
  | finished m r =>
    rw [h] at hiff
    have hnone : ∀ b : Bool, (if b = true then ((false, m, none) :
        Bool × List (String × String) × Option GoError) else (r, m, none)).2.2 = none := by
      intro b; cases b <;> rfl
    simp only [hnone, ne_eq, not_true_eq_false, false_iff, false_imp_iff, and_true]
    rw [← hiff]
    simp
  | failed m err =>
    rw [h] at hiff
    simp only [ne_eq, reduceCtorEq, not_false_eq_true, true_iff, imp_self, and_true]
    exact hiff.mp ⟨m, err, rfl⟩

/-- One failed pod among running ones: an error for the target `RUNNING`, and
none when the failed pod is outside the requested services. -/
theorem checkPodsState_fail_fast_witness :
    checkPodsState [] [mkPod "p1" "web" "Running" [runningContainer],
        mkPod "p2" "db" "Failed" []] RUNNING =
      (false, [("web", "p1 message"), ("db", "p2 message")],
        some (.errorf "p2 reason")) ∧
    checkPodsState ["web"] [mkPod "p1" "web" "Running" [runningContainer],
        mkPod "p2" "db" "Failed" []] RUNNING =
      (true, [("web", "p1 message")], none) ∧
    (checkPodsState [] [mkPod "p1" "web" "Running" [runningContainer],
        mkPod "p2" "db" "Failed" []] RUNNING).1 = false :=
  ⟨by decide, by decide,
   (checkPodsState_fail_fast [] [mkPod "p1" "web" "Running" [runningContainer],
      mkPod "p2" "db" "Failed" []] RUNNING (by decide)).2 (by decide)⟩

/-- C9. Removed target. For the target `REMOVING`, `checkPodsState` returns
`reached = true` exactly when no pod is left after filtering the pod list to
the requested services (all pods when the subset is empty): any pod of the
requested services, in any phase and being deleted or not, gives
`reached = false`; and no error is returned. -/
theorem checkPodsState_removed (services : List String) (pods : List Pod) :
    ((checkPodsState services pods REMOVING).1 = true ↔ filterPods services pods = []) ∧
    (checkPodsState services pods REMOVING).2.2 = none ∧
    (∀ p ∈ pods, (services = [] ∨ podService p ∈ services) →
      (checkPodsState services pods REMOVING).1 = false) := by
  obtain ⟨m', h1, h2⟩ := podsLoop_removing services pods [] true
  have hval : checkPodsState services pods REMOVING =
      (if m' = [] then (true, m', none) else (false, m', none)) := by
    unfold checkPodsState
    rw [h1]
    cases m' <;> simp
  have hreach : (checkPodsState services pods REMOVING).1 = true ↔
      filterPods services pods = [] := by
    rw [hval]
    by_cases hm : m' = []
    · simp [hm, h2.mp hm]
    · simp only [if_neg hm, Bool.false_eq_true, false_iff]
      exact fun hf => hm (h2.mpr ⟨rfl, hf⟩)
  refine ⟨hreach, ?_, ?_⟩
  · rw [hval]; split <;> rfl
  · intro p hp hsvc
    have hmem : p ∈ filterPods services pods := by
      simp only [filterPods, List.mem_filter, Bool.or_eq_true, List.isEmpty_iff,
        decide_eq_true_eq]
      exact ⟨hp, hsvc⟩
    cases hr : (checkPodsState services pods REMOVING).1 with
    | false => rfl
    | true =>
      rw [hreach.mp hr] at hmem
      simp at hmem

/-- A failed pod that is being deleted still counts as a leftover pod, and an
empty filtered set is reached. -/
theorem checkPodsState_removed_witness :
    checkPodsState [] [{ mkPod "p1" "web" "Failed" [] with DeletionTimestamp := some () }]
      REMOVING = (false, [("web", "p1 message")], none) ∧
    checkPodsState ["db"] [mkPod "p1" "web" "Running" [runningContainer]] REMOVING =
      (true, [], none) ∧
    (checkPodsState [] [{ mkPod "p1" "web" "Failed" [] with DeletionTimestamp := some () }]
      REMOVING).1 = false :=
  ⟨by decide, by decide,
   (checkPodsState_removed []
      [{ mkPod "p1" "web" "Failed" [] with DeletionTimestamp := some () }]).2.2
      _ (List.mem_singleton.mpr rfl) (Or.inl rfl)⟩

/-- C10. Running target. For the target `RUNNING`, when no pod of the
requested services has phase `Failed`, `checkPodsState` returns no error and
`reached = true` exactly when every pod of the requested services (all pods
when the subset is empty) has phase `Running` and each of its container
statuses has a running sub-state; a pod list with the same pods of the
requested services gives the same result. -/
theorem checkPodsState_running (services : List String) (pods : List Pod)
    (hno : ∀ p ∈ filterPods services pods, p.Status.Phase ≠ PodFailed) :
    ((checkPodsState services pods RUNNING).1 = true ↔
      ∀ p ∈ filterPods services pods, podRunning p) ∧
    (checkPodsState services pods RUNNING).2.2 = none ∧
    (∀ pods2 : List Pod, filterPods services pods2 = filterPods services pods →
      checkPodsState services pods2 RUNNING = checkPodsState services pods RUNNING) := by
  obtain ⟨m', r', h1, h2⟩ := podsLoop_running services pods [] true hno
  have hval : checkPodsState services pods RUNNING = (r', m', none) := by
    unfold checkPodsState
    rw [h1]
    have : (RUNNING == REMOVING) = false := by decide
    simp [this]
  refine ⟨?_, ?_, ?_⟩
  · rw [hval, h2]; simp
  · rw [hval]
  · intro pods2 h
    unfold checkPodsState
    rw [podsLoop_filter services RUNNING pods2, podsLoop_filter services RUNNING pods, h]

/-- With the subset `web`, a pending pod of `db` does not matter: the running
pod of `web` gives `reached = true`; a waiting container gives `false`. -/
theorem checkPodsState_running_witness :
    checkPodsState ["web"] [mkPod "p1" "web" "Running" [runningContainer],
        mkPod "p2" "db" "Pending" [waitingContainer]] RUNNING =
      (true, [("web", "p1 message")], none) ∧
    checkPodsState ["web"] [mkPod "p1" "web" "Running" [runningContainer, waitingContainer]]
      RUNNING = (false, [("web", "p1 message")], none) ∧
    ((checkPodsState ["web"] [mkPod "p1" "web" "Running" [runningContainer],
        mkPod "p2" "db" "Pending" [waitingContainer]] RUNNING).1 = true ↔
      ∀ p ∈ filterPods ["web"] [mkPod "p1" "web" "Running" [runningContainer],
        mkPod "p2" "db" "Pending" [waitingContainer]], podRunning p) :=
  ⟨by decide, by decide,
   (checkPodsState_running ["web"] [mkPod "p1" "web" "Running" [runningContainer],
      mkPod "p2" "db" "Pending" [waitingContainer]] (by decide)).1⟩

/-! ### The error of a failed pod -/

/-- The error returned from inside the loop is built from the reason of the
first pod of the requested services in phase `Failed`. -/
theorem podsLoop_failed_first (services : List String) (status : String)
    (hs : status ≠ REMOVING) :
    ∀ (pods : List Pod) (m m' : List (String × String)) (r : Bool) (err : GoError),
      podsLoop services status pods m r = .failed m' err →
      ((filterPods services pods).find? (fun p => p.Status.Phase == PodFailed)).map
        (fun p => GoError.errorf p.Status.Reason) = some err := by
  intro pods
  induction pods with
  | nil => intro m m' r err h; simp [podsLoop] at h
  | cons pod pods ih =>
    intro m m' r err h
    cases hk : (services.isEmpty || decide (podService pod ∈ services)) with
    | false =>
      rw [podsLoop_cons_skip _ _ _ _ _ _ hk] at h
      rw [filterPods_cons_skip _ _ _ hk]
      exact ih m m' r err h
    | true =>
      rw [podsLoop_cons_keep _ _ _ _ _ _ hk, if_neg hs] at h
      rw [filterPods_cons_keep _ _ _ hk]
      by_cases h2 : pod.Status.Phase = PodFailed
      · rw [if_pos h2] at h
        simp only [PodsLoop.failed.injEq] at h
        simp [List.find?_cons, h2, h.2]
      · rw [if_neg h2] at h
        have hf : (pod.Status.Phase == PodFailed) = false := by simpa using h2
        rw [List.find?_cons, hf]
        split at h <;> exact ih _ m' _ err h

/-! ### The fuel of `fmtLoop` -/

theorem parsenum_length : ∀ (cs : List Char) (n : Nat) (b : Bool),
    (parsenum n b cs).2.length ≤ cs.length := by
  intro cs
  induction cs with
  | nil => intro n b; simp [parsenum]
  | cons c cs ih =>
    intro n b
    simp only [parsenum]
    split
    · split
      · simp
      · exact Nat.le_succ_of_le (ih _ _)
    · simp

theorem argNumber_length (cs : List Char) : (argNumber cs).1.length ≤ cs.length := by
  unfold argNumber
  split
  · next rest =>
    split
    · simp
    · have hspan := List.span_eq_take_drop (fun c => c != ']') rest
      split
      · simp
      · next inner x after heq =>
        rw [heq] at hspan
        have hlen : after.length < rest.length := by
          have h1 : (x :: after).length ≤ rest.length := by
            have h2 : x :: after = List.dropWhile (fun c => c != ']') rest :=
              (Prod.mk.inj hspan).2
            rw [h2]
            exact (List.dropWhile_sublist _).length_le
          simp only [List.length_cons] at h1
          omega
        split <;> simp <;> omega
  · simp

theorem fmtWidth_length (cs : List Char) (a : Bool) :
    (fmtWidth cs a).2.1.length ≤ cs.length := by
  unfold fmtWidth
  split
  · simp
  · exact parsenum_length cs 0 false

theorem fmtPrecision_length (cs : List Char) (a : Bool) :
    (fmtPrecision cs a).2.1.length ≤ cs.length := by
  unfold fmtPrecision
  split
  · next rest =>
    have h1 := argNumber_length rest
    split
    · next rest2 heq =>
      rw [heq] at h1
      simp only [List.length_cons] at h1 ⊢
      omega
    · next rest2 _ =>
      have h2 := parsenum_length (argNumber rest).1 0 false
      simp only [List.length_cons]
      omega
  · simp

theorem fmtLastIndex_length (cs : List Char) (a : Bool) :
    (fmtLastIndex cs a).1.length ≤ cs.length := by
  unfold fmtLastIndex
  split
  · simp
  · exact argNumber_length cs

/-- A verb leaves no more characters than it was given. -/
theorem fmtVerb_length (cs : List Char) : (fmtVerb cs).2.length ≤ cs.length := by
  have h0 : (cs.dropWhile
      (fun c => c == '#' || c == '0' || c == '+' || c == '-' || c == ' ')).length ≤
      cs.length := (List.dropWhile_sublist _).length_le
  have h1 := argNumber_length (cs.dropWhile
    (fun c => c == '#' || c == '0' || c == '+' || c == '-' || c == ' '))
  have h2 := fmtWidth_length (argNumber (cs.dropWhile
    (fun c => c == '#' || c == '0' || c == '+' || c == '-' || c == ' '))).1
    (argNumber (cs.dropWhile
    (fun c => c == '#' || c == '0' || c == '+' || c == '-' || c == ' '))).2.1
  have h3 := fmtPrecision_length (fmtWidth (argNumber (cs.dropWhile
    (fun c => c == '#' || c == '0' || c == '+' || c == '-' || c == ' '))).1
    (argNumber (cs.dropWhile
    (fun c => c == '#' || c == '0' || c == '+' || c == '-' || c == ' '))).2.1).2.1
    (fmtWidth (argNumber (cs.dropWhile
    (fun c => c == '#' || c == '0' || c == '+' || c == '-' || c == ' '))).1
    (argNumber (cs.dropWhile
    (fun c => c == '#' || c == '0' || c == '+' || c == '-' || c == ' '))).2.1).2.2.1
  have h4 := fmtLastIndex_length (fmtPrecision (fmtWidth (argNumber (cs.dropWhile
    (fun c => c == '#' || c == '0' || c == '+' || c == '-' || c == ' '))).1
    (argNumber (cs.dropWhile
    (fun c => c == '#' || c == '0' || c == '+' || c == '-' || c == ' '))).2.1).2.1
    (fmtWidth (argNumber (cs.dropWhile
    (fun c => c == '#' || c == '0' || c == '+' || c == '-' || c == ' '))).1
    (argNumber (cs.dropWhile
    (fun c => c == '#' || c == '0' || c == '+' || c == '-' || c == ' '))).2.1).2.2.1).2.1
    (fmtPrecision (fmtWidth (argNumber (cs.dropWhile
    (fun c => c == '#' || c == '0' || c == '+' || c == '-' || c == ' '))).1
    (argNumber (cs.dropWhile
    (fun c => c == '#' || c == '0' || c == '+' || c == '-' || c == ' '))).2.1).2.1
    (fmtWidth (argNumber (cs.dropWhile
    (fun c => c == '#' || c == '0' || c == '+' || c == '-' || c == ' '))).1
    (argNumber (cs.dropWhile
    (fun c => c == '#' || c == '0' || c == '+' || c == '-' || c == ' '))).2.1).2.2.1).2.2.1
  unfold fmtVerb
  simp only []
  split
  · simp
  · next verb rest heq =>
    rw [heq] at h4
    simp only [List.length_cons] at h4
    have : rest.length ≤ cs.length := by omega
    split
    · exact this
    · split <;> exact this

/-- The result of `fmtLoop` does not depend on the fuel, once it is at least
the number of characters: `Sprintf` reads the whole format. -/
theorem fmtLoop_fuel : ∀ (n : Nat) (cs : List Char) (f1 f2 : Nat),
    cs.length ≤ n → cs.length ≤ f1 → cs.length ≤ f2 → fmtLoop f1 cs = fmtLoop f2 cs := by
  intro n
  induction n with
  | zero =>
    intro cs f1 f2 hn _ _
    have : cs = [] := List.length_eq_zero.mp (Nat.le_zero.mp hn)
    subst this
    cases f1 <;> cases f2 <;> rfl
  | succ n ih =>
    intro cs f1 f2 hn h1 h2
    cases cs with
    | nil => cases f1 <;> cases f2 <;> rfl
    | cons c cs =>
      cases f1 with
      | zero => simp at h1
      | succ f1 =>
        cases f2 with
        | zero => simp at h2
        | succ f2 =>
          simp only [List.length_cons, Nat.add_le_add_iff_right] at hn h1 h2
          have hv := fmtVerb_length cs
          simp only [fmtLoop]
          split
          · rw [ih (fmtVerb cs).2 f1 f2 (by omega) (by omega) (by omega)]
          · rw [ih cs f1 f2 hn h1 h2]

/-- The characters of a format without `%` are written as they are. -/
theorem fmtLoop_plain : ∀ (cs : List Char) (fuel : Nat), cs.length ≤ fuel →
    '%' ∉ cs → fmtLoop fuel cs = cs := by
  intro cs
  induction cs with
  | nil => intro fuel _ _; cases fuel <;> rfl
  | cons c cs ih =>
    intro fuel hf hc
    cases fuel with
    | zero => simp at hf
    | succ fuel =>
      simp only [List.mem_cons, not_or] at hc
      have hne : (c == '%') = false := by
        simpa using fun h => hc.1 h.symm
      simp only [fmtLoop, hne, Bool.false_eq_true, if_false]
      rw [ih fuel (by simpa using hf) hc.2]

/-- An error built by `fmt.Errorf` from a format without `%` has that format
as its message. -/
theorem errorf_plain (format : String) (h : '%' ∉ format.toList) :
    (GoError.errorf format).Error = format := by
  simp only [GoError.Error, Sprintf]
  rw [fmtLoop_plain format.toList format.length (Nat.le_of_eq rfl) h]
  rfl

/-- C11. The message of the error for a failed pod, at a reason holding a `%`:
for the single pod of reason `100%` in phase `Failed`, `checkPodsState`
returns the error built by `fmt.Errorf` with the reason as its format, whose
message is `100%!(NOVERB)` and not the reason. -/
theorem checkPodsState_reason_as_format :
    (checkPodsState [] [failedPod "100%"] RUNNING).2.2 = some (.errorf "100%") ∧
    (GoError.errorf "100%").Error = "100%!(NOVERB)" ∧
    (GoError.errorf "100%").Error ≠ (failedPod "100%").Status.Reason := by
  decide

/-! ### The per-service message map -/

theorem lookup_mapSet (m : List (String × String)) (k v k' : String) :
    (mapSet m k v).lookup k' = if k' = k then some v else m.lookup k' := by
  induction m with
  | nil =>
    by_cases h : k' = k
    · simp [mapSet, List.lookup, h]
    · have hb : (k' == k) = false := by simpa using h
      simp [mapSet, List.lookup, h, hb]
  | cons kv m ih =>
    obtain ⟨k0, v0⟩ := kv
    by_cases h0 : k0 = k
    · subst h0
      by_cases h : k' = k0
      · simp [mapSet, List.lookup, h]
      · have hb : (k' == k0) = false := by simpa using h
        simp [mapSet, List.lookup, h, hb]
    · have hb : (k0 == k) = false := by simpa using h0
      simp only [mapSet, hb, Bool.false_eq_true, if_false, List.lookup, ih]
      by_cases h : k' = k0
      · subst h
        simp [h0]
      · have hb' : (k' == k0) = false := by simpa using h
        simp [hb']

theorem keys_mapSet (m : List (String × String)) (k v k' : String) :
    k' ∈ (mapSet m k v).map Prod.fst ↔ k' = k ∨ k' ∈ m.map Prod.fst := by
  induction m with
  | nil => simp [mapSet]
  | cons kv m ih =>
    obtain ⟨k0, v0⟩ := kv
    by_cases h0 : k0 = k
    · subst h0
      simp [mapSet]
    · have hb : (k0 == k) = false := by simpa using h0
      simp only [mapSet, hb, Bool.false_eq_true, if_false, List.map_cons, List.mem_cons, ih]
      tauto

theorem nodup_mapSet (m : List (String × String)) (k v : String)
    (h : (m.map Prod.fst).Nodup) : ((mapSet m k v).map Prod.fst).Nodup := by
  induction m with
  | nil => simp [mapSet]
  | cons kv m ih =>
    obtain ⟨k0, v0⟩ := kv
    simp only [List.map_cons, List.nodup_cons] at h
    by_cases h0 : k0 = k
    · subst h0
      simpa [mapSet] using h
    · have hb : (k0 == k) = false := by simpa using h0
      simp only [mapSet, hb, Bool.false_eq_true, if_false, List.map_cons, List.nodup_cons,
        keys_mapSet, not_or]
      exact ⟨⟨h0, h.1⟩, ih h.2⟩

theorem recordMessages_cons (m : List (String × String)) (pod : Pod) (pods : List Pod) :
    recordMessages m (pod :: pods) =
      recordMessages (mapSet m (podService pod) pod.Status.Message) pods := rfl

/-- A loop that runs to its end has recorded the message of every pod of the
requested services, in list order. -/
theorem podsLoop_finished_map (services : List String) (status : String) :
    ∀ (pods : List Pod) (m m' : List (String × String)) (r r' : Bool),
      podsLoop services status pods m r = .finished m' r' →
      m' = recordMessages m (filterPods services pods) := by
  intro pods
  induction pods with
  | nil =>
    intro m m' r r' h
    simp only [podsLoop, PodsLoop.finished.injEq] at h
    rw [← h.1]; rfl
  | cons pod pods ih =>
    intro m m' r r' h
    cases hk : (services.isEmpty || decide (podService pod ∈ services)) with
    | false =>
      rw [podsLoop_cons_skip _ _ _ _ _ _ hk] at h
      rw [filterPods_cons_skip _ _ _ hk]
      exact ih m m' r r' h
    | true =>
      rw [podsLoop_cons_keep _ _ _ _ _ _ hk] at h
      rw [filterPods_cons_keep _ _ _ hk, recordMessages_cons]
      split at h
      · exact ih _ m' _ r' h
      · split at h
        · simp at h
        · split at h <;> exact ih _ m' _ r' h

theorem recordMessages_nodup :
    ∀ (pods : List Pod) (m : List (String × String)), (m.map Prod.fst).Nodup →
      ((recordMessages m pods).map Prod.fst).Nodup := by
  intro pods
  induction pods with
  | nil => intro m h; exact h
  | cons pod pods ih =>
    intro m h
    rw [recordMessages_cons]
    exact ih _ (nodup_mapSet m _ _ h)

theorem recordMessages_keys (k : String) :
    ∀ (pods : List Pod) (m : List (String × String)),
      k ∈ (recordMessages m pods).map Prod.fst ↔
        (∃ p ∈ pods, podService p = k) ∨ k ∈ m.map Prod.fst := by
  intro pods
  induction pods with
  | nil => intro m; simp [recordMessages]
  | cons pod pods ih =>
    intro m
    rw [recordMessages_cons, ih, keys_mapSet]
    simp only [List.mem_cons, exists_eq_or_imp]
    constructor
    · rintro (h | h | h)
      · exact Or.inl (Or.inr h)
      · exact Or.inl (Or.inl h.symm)
      · exact Or.inr h
    · rintro ((h | h) | h)
      · exact Or.inr (Or.inl h.symm)
      · exact Or.inl h
      · exact Or.inr (Or.inr h)

theorem recordMessages_lookup (k : String) :
    ∀ (pods : List Pod) (m : List (String × String)),
      (recordMessages m pods).lookup k =
        match lastMessage k pods with
        | some msg => some msg
        | none => m.lookup k := by
  intro pods
  induction pods with
  | nil => intro m; simp [recordMessages, lastMessage]
  | cons pod pods ih =>
    intro m
    rw [recordMessages_cons, ih, lookup_mapSet]
    by_cases hk : podService pod = k
    · have hb : (podService pod == k) = true := by simpa using hk
      simp only [lastMessage, List.filter_cons, hb, if_true]
      cases hl : pods.filter (fun pod => podService pod == k) with
      | nil => simp [hk]
      | cons x l =>
        rw [List.getLast?_cons_cons]
        cases hx : (x :: l).getLast? with
        | none => simp at hx
        | some y => rfl
    · have hb : (podService pod == k) = false := by simpa using hk
      simp only [lastMessage, List.filter_cons, hb, Bool.false_eq_true, if_false,
        if_neg (Ne.symm hk)]

/-- C12. The per-service message map. Whenever `checkPodsState` returns no
error, whatever `reached` is, the keys of the returned map are distinct, they
are exactly the service labels of the pods of the requested services, and the
value at a service is the status message of the last pod, in list order, of
that service among them. -/
theorem checkPodsState_messages (services : List String) (pods : List Pod)
    (status : String) (h : (checkPodsState services pods status).2.2 = none) :
    ((checkPodsState services pods status).2.1.map Prod.fst).Nodup ∧
    (∀ k, k ∈ (checkPodsState services pods status).2.1.map Prod.fst ↔
      ∃ p ∈ filterPods services pods, podService p = k) ∧
    (∀ k, (checkPodsState services pods status).2.1.lookup k =
      lastMessage k (filterPods services pods)) := by
  unfold checkPodsState at h ⊢
  cases hl : podsLoop services status pods [] true with
  | failed m err => rw [hl] at h; simp at h
  | finished m r =>
    have hm := podsLoop_finished_map services status pods [] m true r hl
    have hval : ∀ b : Bool, (if b = true then ((false, m, none) :
        Bool × List (String × String) × Option GoError) else (r, m, none)).2.1 = m := by
      intro b; cases b <;> rfl
    simp only [hval]
    rw [hm]
    refine ⟨recordMessages_nodup _ [] (by simp), fun k => ?_, fun k => ?_⟩
    · rw [recordMessages_keys]; simp
    · rw [recordMessages_lookup]
      cases lastMessage k (filterPods services pods) <;> simp

/-- Two pods of `web` and one of `db`, with the subset `web`: one key, `web`,
with the message of the second pod of `web`. -/
theorem checkPodsState_messages_witness :
    (checkPodsState ["web"] [mkPod "p1" "web" "Running" [], mkPod "p2" "db" "Pending" [],
      mkPod "p3" "web" "Pending" []] RUNNING).2.1 = [("web", "p3 message")] ∧
    ∀ k, (checkPodsState ["web"] [mkPod "p1" "web" "Running" [], mkPod "p2" "db" "Pending" [],
      mkPod "p3" "web" "Pending" []] RUNNING).2.1.lookup k =
      lastMessage k (filterPods ["web"] [mkPod "p1" "web" "Running" [],
        mkPod "p2" "db" "Pending" [], mkPod "p3" "web" "Pending" []]) :=
  ⟨by decide,
   (checkPodsState_messages ["web"] [mkPod "p1" "web" "Running" [],
      mkPod "p2" "db" "Pending" [], mkPod "p3" "web" "Pending" []] RUNNING
      (by decide)).2.2⟩

/-! ## Properties of the label filters -/

theorem digitChar_value (d : Nat) (h : d < 10) : (Nat.digitChar d).toNat - 48 = d := by
  interval_cases d <;> rfl

theorem digitChar_ne_minus (d : Nat) (h : d < 10) : Nat.digitChar d ≠ '-' := by
  interval_cases d <;> decide

/-- The digits written by `Nat.toDigitsCore` with enough fuel. -/
theorem toDigitsCore_eq_digits :
    ∀ (fuel n : Nat) (acc : List Char), 0 < n → n < fuel →
      Nat.toDigitsCore 10 fuel n acc =
        (Nat.digits 10 n).reverse.map Nat.digitChar ++ acc := by
  intro fuel
  induction fuel with
  | zero => intro n acc _ h; omega
  | succ fuel ih =>
    intro n acc hn hf
    rw [Nat.toDigitsCore, Nat.digits_def' (by norm_num) hn]
    by_cases h0 : n / 10 = 0
    · simp [h0]
    · simp only [h0, if_false]
      rw [ih (n / 10) _ (Nat.pos_of_ne_zero h0) (by omega)]
      simp

/-- Go `%d` as rendered by `toString`: the decimal numeral. -/
theorem toString_nat_eq_decimal (n : Nat) : toString n = decimalNat n := by
  show (Nat.toDigits 10 n).asString = decimalNat n
  unfold decimalNat
  by_cases h : n = 0
  · subst h; rfl
  · rw [if_neg h, Nat.toDigits, toDigitsCore_eq_digits (n + 1) n [] (Nat.pos_of_ne_zero h)
      (Nat.lt_succ_self n)]
    simp [List.asString]

theorem toString_int_eq_decimal (n : Int) : toString n = decimal n := by
  cases n with
  | ofNat m => exact toString_nat_eq_decimal m
  | negSucc m =>
    show "-" ++ toString (m + 1) = "-" ++ decimalNat (m + 1)
    rw [toString_nat_eq_decimal]

theorem decimalValue_decimalNat (n : Nat) : decimalValue (decimalNat n) = n := by
  unfold decimalNat
  by_cases h : n = 0
  · subst h; rfl
  · rw [if_neg h]
    simp only [decimalValue, ← List.map_reverse, List.reverse_reverse, List.map_map]
    have hmap : List.map ((fun c => c.toNat - 48) ∘ Nat.digitChar) (Nat.digits 10 n) =
        Nat.digits 10 n := by
      conv_rhs => rw [← List.map_id (Nat.digits 10 n)]
      apply List.map_congr_left
      intro d hd
      exact digitChar_value d (Nat.digits_lt_base (by norm_num) hd)
    rw [hmap, Nat.ofDigits_digits]

theorem decimalNat_injective (n m : Nat) (h : decimalNat n = decimalNat m) : n = m := by
  rw [← decimalValue_decimalNat n, h, decimalValue_decimalNat]

theorem decimalNat_no_minus (n : Nat) : '-' ∉ (decimalNat n).data := by
  unfold decimalNat
  by_cases h : n = 0
  · subst h; decide
  · rw [if_neg h]
    simp only [List.mem_map, List.mem_reverse, not_exists, not_and]
    intro d hd
    exact digitChar_ne_minus d (Nat.digits_lt_base (by norm_num) hd)

theorem append_left_cancel (a b c : String) (h : a ++ b = a ++ c) : b = c := by
  have hd : (a ++ b).data = (a ++ c).data := by rw [h]
  simp only [String.data_append] at hd
  exact String.ext (List.append_cancel_left hd)

theorem decimal_injective (i j : Int) (h : decimal i = decimal j) : i = j := by
  cases i with
  | ofNat n =>
    cases j with
    | ofNat m => rw [decimalNat_injective n m h]
    | negSucc m =>
      exfalso
      simp only [decimal] at h
      apply decimalNat_no_minus n
      rw [h]
      simp [String.data_append]
  | negSucc n =>
    cases j with
    | ofNat m =>
      exfalso
      simp only [decimal] at h
      apply decimalNat_no_minus m
      rw [← h]
      simp [String.data_append]
    | negSucc m =>
      simp only [decimal] at h
      have := decimalNat_injective _ _ (append_left_cancel _ _ _ h)
      simp only [Nat.add_right_cancel_iff] at this
      rw [this]

/-- C19. The label filter vocabulary. Each of the five filters is the pair of
key `label` and of value the label constant, `=`, and the rendered argument:
the string as it is for `projectFilter`, `serviceFilter` and `slugFilter`,
`True` or `False` for `oneOffFilter`, the decimal numeral of the index for
`containerNumberFilter`. Each of the five gives distinct filters for distinct
arguments. -/
theorem label_filters :
    (∀ name, projectFilter name =
      { Key := "label", Value := "com.docker.compose.project=" ++ name }) ∧
    (∀ name, serviceFilter name =
      { Key := "label", Value := "com.docker.compose.service=" ++ name }) ∧
    (∀ slug, slugFilter slug =
      { Key := "label", Value := "com.docker.compose.slug=" ++ slug }) ∧
    oneOffFilter true = { Key := "label", Value := "com.docker.compose.oneoff=True" } ∧
    oneOffFilter false = { Key := "label", Value := "com.docker.compose.oneoff=False" } ∧
    (∀ index, containerNumberFilter index =
      { Key := "label",
        Value := "com.docker.compose.container-number=" ++ decimal index }) ∧
    Function.Injective projectFilter ∧ Function.Injective serviceFilter ∧
    Function.Injective slugFilter ∧ Function.Injective oneOffFilter ∧
    Function.Injective containerNumberFilter := by
  have hs : ∀ (l a : String), sprintfEqS l a = (l ++ "=") ++ a := fun l a => rfl
  have hinj : ∀ (l a b : String), Arg "label" (sprintfEqS l a) = Arg "label" (sprintfEqS l b) →
      a = b := by
    intro l a b h
    simp only [Arg, KeyValuePair.mk.injEq, true_and, hs] at h
    exact append_left_cancel _ _ _ h
  refine ⟨fun _ => rfl, fun _ => rfl, fun _ => rfl, rfl, rfl, ?_, ?_, ?_, ?_, ?_, ?_⟩
  · intro index
    simp only [containerNumberFilter, Arg, sprintfEqD, toString_int_eq_decimal]
    rfl
  · exact fun a b h => hinj _ a b h
  · exact fun a b h => hinj _ a b h
  · exact fun a b h => hinj _ a b h
  · intro a b h
    cases a <;> cases b <;> first | rfl | exact absurd h (by decide)
  · intro a b h
    simp only [containerNumberFilter, Arg, sprintfEqD, KeyValuePair.mk.injEq, true_and,
      toString_int_eq_decimal] at h
    exact decimal_injective a b (append_left_cancel _ _ _ h)

/-! ## Properties of the backend variants -/

/-- C13. The capability matrix. For every input, `Up`, `Exec`, `Port` and
`Images` of the simulated variant and `RunOneOffContainer` and `Remove` of the
cloud-native variant return the sentinel `ErrNotImplemented` with zero or empty
values; `RunOneOffContainer` of the simulated variant returns code `0` and the
sentinel wrapped with the message `use docker-compose run`, whose cause is the
sentinel; none of the operations of the simulated variant calls the wrapped
backend. -/
theorem not_implemented_operations (T : ApiTypes) (e : ecsLocalSimulation T)
    (b : ecsAPIService) (project : Project) (name service : String) (port : Int)
    (up : T.UpOptions) (run : T.RunOptions) (po : T.PortOptions) (io : T.ImagesOptions)
    (rm : RemoveOptions) :
    e.Up project up = (some ErrNotImplemented, []) ∧
    e.Exec project run = ((0, some ErrNotImplemented), []) ∧
    e.Port name service port po = (("", 0, some ErrNotImplemented), []) ∧
    e.Images name io = (([], some ErrNotImplemented), []) ∧
    b.RunOneOffContainer (T := T) project run = (0, some ErrNotImplemented) ∧
    b.Remove project rm = some ErrNotImplemented ∧
    e.RunOneOffContainer project run =
      ((0, some (.wrap ErrNotImplemented "use docker-compose run")), []) ∧
    (GoError.wrap ErrNotImplemented "use docker-compose run").Cause = ErrNotImplemented ∧
    (GoError.wrap ErrNotImplemented "use docker-compose run").Error =
      "use docker-compose run: not implemented" :=
  ⟨rfl, rfl, rfl, rfl, rfl, rfl, rfl, rfl, by decide⟩

/-- `Down` of the simulated variant, called with `RemoveOrphans` false, calls
the wrapped backend with `RemoveOrphans` true: not with the options it
received. -/
theorem Down_changes_options :
    (ecsLocalSimulation.Down (T := textApi) { compose := quietBackend textApi } "demo"
        { RemoveOrphans := false, Timeout := none, Volumes := false }).2 =
      [.Down "demo" { RemoveOrphans := true, Timeout := none, Volumes := false }] ∧
    (ecsLocalSimulation.Down (T := textApi) { compose := quietBackend textApi } "demo"
        { RemoveOrphans := false, Timeout := none, Volumes := false }).2 ≠
      [.Down "demo" { RemoveOrphans := false, Timeout := none, Volumes := false }] := by
  refine ⟨rfl, ?_⟩
  intro h
  simp only [ecsLocalSimulation.Down, invoke, List.cons.injEq, Call.Down.injEq,
    DownOptions.mk.injEq] at h
  exact absurd h.1.2.1 (by decide)

/-- C14, amended. The simulated variant forwards the lifecycle operations.
Each of `Build`, `Push`, `Pull`, `Start`, `Restart`, `Stop`, `Kill`, `Logs`,
`Ps`, `List`, `Remove`, `Copy`, `Pause`, `UnPause`, `Top` and `Events` makes
one call, of the same operation of the wrapped backend with the arguments it
received, and returns what that call returns. `Down` makes one call of `Down`
of the wrapped backend with the project name it received and the options it
received in which `RemoveOrphans` is set to true, and returns what that call
returns. -/
theorem simulation_forwards (T : ApiTypes) (e : ecsLocalSimulation T) :
    (∀ p o, e.Build p o = (e.compose (.Build p o), [.Build p o])) ∧
    (∀ p o, e.Push p o = (e.compose (.Push p o), [.Push p o])) ∧
    (∀ p o, e.Pull p o = (e.compose (.Pull p o), [.Pull p o])) ∧
    (∀ p o, e.Start p o = (e.compose (.Start p o), [.Start p o])) ∧
    (∀ p o, e.Restart p o = (e.compose (.Restart p o), [.Restart p o])) ∧
    (∀ p o, e.Stop p o = (e.compose (.Stop p o), [.Stop p o])) ∧
    (∀ p o, e.Kill p o = (e.compose (.Kill p o), [.Kill p o])) ∧
    (∀ n c o, e.Logs n c o = (e.compose (.Logs n c o), [.Logs n c o])) ∧
    (∀ n o, e.Ps n o = (e.compose (.Ps n o), [.Ps n o])) ∧
    (∀ o, e.List_ o = (e.compose (.List_ o), [.List_ o])) ∧
    (∀ p o, e.Remove p o = (e.compose (.Remove p o), [.Remove p o])) ∧
    (∀ p o, e.Copy p o = (e.compose (.Copy p o), [.Copy p o])) ∧
    (∀ n o, e.Pause n o = (e.compose (.Pause n o), [.Pause n o])) ∧
    (∀ n o, e.UnPause n o = (e.compose (.UnPause n o), [.UnPause n o])) ∧
    (∀ n l, e.Top n l = (e.compose (.Top n l), [.Top n l])) ∧
    (∀ n o, e.Events n o = (e.compose (.Events n o), [.Events n o])) ∧
    (∀ n (o : DownOptions), e.Down n o =
      (e.compose (.Down n { o with RemoveOrphans := true }),
        [.Down n { o with RemoveOrphans := true }])) :=
  ⟨fun _ _ => rfl, fun _ _ => rfl, fun _ _ => rfl, fun _ _ => rfl, fun _ _ => rfl,
   fun _ _ => rfl, fun _ _ => rfl, fun _ _ _ => rfl, fun _ _ => rfl, fun _ => rfl,
   fun _ _ => rfl, fun _ _ => rfl, fun _ _ => rfl, fun _ _ => rfl, fun _ _ => rfl,
   fun _ _ => rfl, fun _ _ => rfl⟩

/-! ## Properties of `runRemove` -/

/-- Without the stop option `runRemove` makes one call, of `Remove`, with the
resolved project and the requested services, and returns what it returns. -/
theorem runRemove_no_stop (T : ApiTypes) (backend : Backend T) (opts : removeOptions)
    (services : List String) (project : Project)
    (hp : opts.toProject services = .ok project) (hs : opts.stop = false) :
    runRemove backend opts services =
      (backend (.Remove project { Volumes := false, Force := false, Services := services }),
       [.Remove project { Volumes := false, Force := false, Services := services }]) := by
  simp [runRemove, hp, hs, invoke]

/-- When the project cannot be resolved `runRemove` returns the error and
calls nothing. -/
theorem runRemove_no_project (T : ApiTypes) (backend : Backend T) (opts : removeOptions)
    (services : List String) (err : GoError) (hp : opts.toProject services = .error err) :
    runRemove backend opts services = (some err, []) := by
  simp [runRemove, hp]

/-- With the stop option `runRemove` makes one call, of `Stop`, and returns
what it returns. -/
theorem runRemove_stop (T : ApiTypes) (backend : Backend T) (opts : removeOptions)
    (services : List String) (project : Project)
    (hp : opts.toProject services = .ok project) (hs : opts.stop = true) :
    runRemove backend opts services =
      (backend (.Stop project { Timeout := none, Services := services }),
       [.Stop project { Timeout := none, Services := services }]) := by
  simp [runRemove, hp, hs, invoke]

/-- C20. With the stop option set, a project that resolves and a backend whose
`Stop` succeeds, `runRemove` for the service `web` returns no error after the
single call `Stop`: `Remove` is not called. -/
theorem runRemove_stop_skips_remove :
    runRemove (quietBackend textApi)
        { toProject := fun _ => .ok demoProject, force := false, stop := true,
          volumes := false } ["web"] =
      (none, [.Stop demoProject { Timeout := none, Services := ["web"] }]) ∧
    ∀ c ∈ (runRemove (quietBackend textApi)
        { toProject := fun _ => .ok demoProject, force := false, stop := true,
          volumes := false } ["web"]).2,
      ∀ p o, c ≠ Call.Remove p o := by
  refine ⟨rfl, ?_⟩
  intro c hc p o
  have : c = .Stop demoProject { Timeout := none, Services := ["web"] } := by
    simpa [runRemove, invoke] using hc
  rw [this]
  exact fun h => Call.noConfusion h

/-! ## Properties of the augmentation for local simulation -/

theorem lookup_kvSet {V : Type} (m : List (String × V)) (k : String) (v : V) (k' : String) :
    (kvSet m k v).lookup k' = if k' = k then some v else m.lookup k' := by
  induction m with
  | nil =>
    by_cases h : k' = k
    · simp [kvSet, List.lookup, h]
    · have hb : (k' == k) = false := by simpa using h
      simp [kvSet, List.lookup, h, hb]
  | cons kv m ih =>
    obtain ⟨k0, v0⟩ := kv
    by_cases h0 : k0 = k
    · subst h0
      by_cases h : k' = k0
      · simp [kvSet, List.lookup, h]
      · have hb : (k' == k0) = false := by simpa using h
        simp [kvSet, List.lookup, h, hb]
    · have hb : (k0 == k) = false := by simpa using h0
      simp only [kvSet, hb, Bool.false_eq_true, if_false, List.lookup, ih]
      by_cases h : k' = k0
      · subst h
        simp [h0]
      · have hb' : (k' == k0) = false := by simpa using h
        simp [hb']

/-- The body of the loop on a service whose maps `Networks` and `Environment`
are not `nil`. -/
theorem enhanceService_eq (i : Nat) (s : ServiceConfig)
    (nets : List (String × Option ServiceNetworkConfig))
    (env : List (String × Option String))
    (hn : s.Networks = some nets) (he : s.Environment = some env) :
    enhanceService i s = some
      { s with
        Networks := some (kvSet nets "credentials_network"
          (some { Ipv4Address := sprintfAddress (i + 3) })),
        DependsOn := some (kvSet (s.DependsOn.getD []) "ecs-local-endpoints"
          { Condition := ServiceConditionStarted }),
        Environment := some (kvSet (kvSet env "AWS_CONTAINER_CREDENTIALS_RELATIVE_URI"
          (some "/creds")) "ECS_CONTAINER_METADATA_URI" (some "http://169.254.170.2/v3")) } := by
  unfold enhanceService
  simp only [hn, he]
  cases s.DependsOn <;> rfl

/-- The service written back for a service of index `i` is that service
augmented. -/
theorem enhanceService_augmented (i : Nat) (s s' : ServiceConfig)
    (h : enhanceService i s = some s') : augmentedService i s s' := by
  cases hn : s.Networks with
  | none => simp [enhanceService, hn] at h
  | some nets =>
    cases he : s.Environment with
    | none => simp [enhanceService, hn, he] at h
    | some env =>
      rw [enhanceService_eq i s nets env hn he] at h
      simp only [Option.some.injEq] at h
      subst h
      have haddr : sprintfAddress (i + 3) = "169.254.170." ++ decimalNat (i + 3) := by
        simp only [sprintfAddress, toString_nat_eq_decimal]
      refine ⟨rfl, rfl, rfl, ?_, ?_, ?_, ?_, ?_, ?_, ?_⟩
      · simp [kvGet, lookup_kvSet, haddr]
      · intro k hk
        simp [kvGet, lookup_kvSet, hk, hn]
      · simp [kvGet, lookup_kvSet]
      · simp [kvGet, lookup_kvSet]
      · intro k hk1 hk2
        simp [kvGet, lookup_kvSet, hk1, hk2, he]
      · simp [kvGet, lookup_kvSet, ServiceConditionStarted]
      · intro k hk
        cases hd : s.DependsOn <;> simp [kvGet, lookup_kvSet, hk, hd]

/-- The loop over the services, when no map it writes to is `nil`: as many
services, the one of index `j` being the result of the body for index `i + j`. -/
theorem enhanceServices_ok :
    ∀ (l : List ServiceConfig) (i : Nat),
      (∀ s ∈ l, s.Networks ≠ none ∧ s.Environment ≠ none) →
      ∃ l', enhanceServices i l = some l' ∧ l'.length = l.length ∧
        ∀ j s, l[j]? = some s → ∃ s', l'[j]? = some s' ∧ enhanceService (i + j) s = some s' := by
  intro l
  induction l with
  | nil => intro i _; exact ⟨[], rfl, rfl, by simp⟩
  | cons s l ih =>
    intro i hs
    obtain ⟨hn, he⟩ := hs s (List.mem_cons_self _ _)
    obtain ⟨nets, hn⟩ := Option.ne_none_iff_exists'.mp hn
    obtain ⟨env, he⟩ := Option.ne_none_iff_exists'.mp he
    obtain ⟨s1, h1⟩ : ∃ s1, enhanceService i s = some s1 :=
      ⟨_, enhanceService_eq i s nets env hn he⟩
    obtain ⟨l', h2, h3, h4⟩ := ih (i + 1) (fun t ht => hs t (List.mem_cons_of_mem _ ht))
    refine ⟨s1 :: l', by simp only [enhanceServices, h1, h2], by simp [h3], ?_⟩
    intro j t hj
    cases j with
    | zero =>
      simp only [List.getElem?_cons_zero, Option.some.injEq] at hj
      subst hj
      exact ⟨s1, by simp, by simpa using h1⟩
    | succ j =>
      simp only [List.getElem?_cons_succ] at hj
      obtain ⟨t', h5, h6⟩ := h4 j t hj
      refine ⟨t', by simpa using h5, ?_⟩
      rw [← h6]
      congr 1
      omega

/-- The augmentation when the home directory resolves and no map it writes to
is `nil`. -/
theorem enhance_done (host : Host) (home : String) (project : Project)
    (nets : List (String × NetworkConfig))
    (hh : host.UserHomeDir = .ok home) (hn : project.Networks = some nets)
    (hs : ∀ s ∈ project.Services, s.Networks ≠ none ∧ s.Environment ≠ none) :
    ∃ l', enhanceServices 0 project.Services = some l' ∧
      l'.length = project.Services.length ∧
      (∀ j s, project.Services[j]? = some s →
        ∃ s', l'[j]? = some s' ∧ enhanceService j s = some s') ∧
      enhanceForLocalSimulation host project =
        .done { project with
          Networks := some (kvSet nets "credentials_network" credentialsNetwork),
          Services := l' ++ [sidecar host home] } := by
  obtain ⟨l', h1, h2, h3⟩ := enhanceServices_ok project.Services 0 hs
  refine ⟨l', h1, h2, ?_, ?_⟩
  · intro j s hj
    obtain ⟨s', h4, h5⟩ := h3 j s hj
    exact ⟨s', h4, by simpa using h5⟩
  · simp only [enhanceForLocalSimulation, hn, hh, h1]

/-- The augmentation of the project of two services succeeds. -/
theorem enhance_content_done_demo :
    ∃ p', enhanceForLocalSimulation (hostWithHome "/root") demoProject = .done p' ∧
      p'.Services.length = 3 :=
  ⟨_, rfl, rfl⟩

/-- C15. The content of the augmentation. For a project of `n` services
whose maps written by the augmentation are not `nil` and a home directory that
resolves to `home`, `enhanceForLocalSimulation` returns the project with
`n + 1` services in which: the networks hold `credentials_network` (driver
`bridge`, subnet `169.254.170.0/24`, gateway `169.254.170.1`) and every other
network as before; the service of index `i < n` is the original one of index
`i` augmented (address `169.254.170.(i+3)` on `credentials_network`, the two
credential variables, a dependency on `ecs-local-endpoints` with condition
`service_started`, everything else kept); the last service is the sidecar
`ecs-local-endpoints`, of image `amazon/amazon-ecs-local-container-endpoints`,
with the bind mounts of `/var/run` and of the directory `.aws` of `home`, the
environment `HOME=/home` and `AWS_PROFILE=default`, and the address
`169.254.170.2`; name, volumes, secrets and configs of the project are kept. -/
theorem enhance_content (host : Host) (home : String) (project : Project)
    (nets : List (String × NetworkConfig))
    (hh : host.UserHomeDir = .ok home) (hn : project.Networks = some nets)
    (hs : ∀ s ∈ project.Services, s.Networks ≠ none ∧ s.Environment ≠ none) :
    ∃ p', enhanceForLocalSimulation host project = .done p' ∧
      p'.Services.length = project.Services.length + 1 ∧
      kvGet p'.Networks "credentials_network" = some
        { Name := "credentials_network", Driver := "bridge",
          Ipam := { Config := [{ Subnet := "169.254.170.0/24",
                                 Gateway := "169.254.170.1" }] } } ∧
      (∀ k, k ≠ "credentials_network" → kvGet p'.Networks k = kvGet project.Networks k) ∧
      (∀ i s, project.Services[i]? = some s →
        ∃ s', p'.Services[i]? = some s' ∧ augmentedService i s s') ∧
      p'.Services[project.Services.length]? = some
        { Name := "ecs-local-endpoints",
          Image := "amazon/amazon-ecs-local-container-endpoints",
          Volumes := [{ Type_ := "bind", Source := "/var/run", Target := "/var/run" },
                      { Type_ := "bind", Source := host.Join home ".aws",
                        Target := "/home/.aws" }],
          Environment := some [("HOME", some "/home"), ("AWS_PROFILE", some "default")],
          Networks := some [("credentials_network", some { Ipv4Address := "169.254.170.2" })],
          DependsOn := none } ∧
      p'.Name = project.Name ∧ p'.Volumes = project.Volumes ∧
      p'.Secrets = project.Secrets ∧ p'.Configs = project.Configs := by
  obtain ⟨l', -, h2, h3, h4⟩ := enhance_done host home project nets hh hn hs
  refine ⟨_, h4, ?_, ?_, ?_, ?_, ?_, rfl, rfl, rfl, rfl⟩
  · simp [h2]
  · simp [kvGet, lookup_kvSet, credentialsNetwork]
  · intro k hk
    simp [kvGet, lookup_kvSet, hk, hn]
  · intro i s hi
    obtain ⟨s', h5, h6⟩ := h3 i s hi
    refine ⟨s', ?_, enhanceService_augmented i s s' h6⟩
    have hlt : i < l'.length := by
      rw [h2]
      exact (List.getElem?_eq_some.mp hi).1
    simp only [List.getElem?_append_left hlt, h5]
  · simp only [← h2, List.getElem?_concat_length]
    rfl

/-- The project of two services `web` and `db`, with the home `/root`. -/
theorem enhance_content_witness :
    ∃ p', enhanceForLocalSimulation (hostWithHome "/root") demoProject = .done p' ∧
      p'.Services.length = demoProject.Services.length + 1 ∧
      ∀ i s, demoProject.Services[i]? = some s →
        ∃ s', p'.Services[i]? = some s' ∧ augmentedService i s s' := by
  obtain ⟨p', h1, h2, -, -, h3, -⟩ := enhance_content (hostWithHome "/root") "/root"
    demoProject [("default", { Name := "demo_default", Driver := "",
                               Ipam := { Config := [] } })] rfl rfl (by decide)
  exact ⟨p', h1, h2, h3⟩

/-- After `Create` and after `Convert` on the simulated variant, the project
of the caller is not the one it held before the call. -/
theorem Create_changes_caller_project :
    (ecsLocalSimulation.Create (T := textApi) { compose := quietBackend textApi }
        (hostWithHome "/root") demoProject "opts").map (fun r => r.project) ≠
      some demoProject ∧
    (ecsLocalSimulation.Convert (T := textApi) { compose := quietBackend textApi }
        (hostWithHome "/root") demoProject { Format := "yaml", Output := "" }).map
        (fun r => r.project) ≠ some demoProject := by
  decide

/-- C16, amended. `Create` and `Convert` on the simulated variant augment the
project of the caller in place. When the augmentation succeeds with the
project `p'`: `Create` makes the single call `Create` of the wrapped backend
with `p'`, returns what it returns, and leaves `p'` as the project of the
caller; `Convert` calls nothing, leaves as the project of the caller `p'`
without its network `default`, and returns the encoding of the services,
networks, volumes, secrets and configs of that project in the requested
format, or the format error. -/
theorem Create_Convert_in_place (T : ApiTypes) (e : ecsLocalSimulation T) (host : Host)
    (project p' : Project) (h : enhanceForLocalSimulation host project = .done p') :
    (∀ opts, e.Create host project opts =
      some { ret := e.compose (.Create p' opts), calls := [.Create p' opts],
             project := p' }) ∧
    (∀ options, ∃ r, e.Convert host project options = some r ∧ r.calls = [] ∧
      r.project = { p' with Networks := p'.Networks.map (fun m => kvDelete m "default") } ∧
      r.ret =
        (if options.Format = "json" then
          host.MarshalIndent
            { services := r.project.Services, networks := r.project.Networks,
              volumes := r.project.Volumes, secrets := r.project.Secrets,
              configs := r.project.Configs }
        else if options.Format = "yaml" then
          host.Marshal
            { services := r.project.Services, networks := r.project.Networks,
              volumes := r.project.Volumes, secrets := r.project.Secrets,
              configs := r.project.Configs }
        else (none, some (host.unsupportedFormat options)))) := by
  refine ⟨fun opts => ?_, fun options => ?_⟩
  · simp only [ecsLocalSimulation.Create, h, invoke]
  · cases hc : e.Convert host project options with
    | none => simp [ecsLocalSimulation.Convert, h] at hc
    | some r =>
      simp only [ecsLocalSimulation.Convert, h, Option.some.injEq] at hc
      subst hc
      refine ⟨_, rfl, rfl, rfl, ?_⟩
      by_cases h1 : options.Format = "json"
      · simp [h1]
      · by_cases h2 : options.Format = "yaml"
        · simp [h1, h2]
        · simp [h1, h2]

/-- The project of the caller after `Create` on the project of two services
is the augmented project, the one the wrapped backend is called with. -/
theorem Create_Convert_in_place_witness :
    ∃ p', enhanceForLocalSimulation (hostWithHome "/root") demoProject = .done p' ∧
      ecsLocalSimulation.Create (T := textApi) { compose := quietBackend textApi }
        (hostWithHome "/root") demoProject "opts" =
        some { ret := none, calls := [.Create p' "opts"], project := p' } := by
  obtain ⟨p', h1, -⟩ := enhance_content_done_demo
  exact ⟨p', h1, (Create_Convert_in_place textApi { compose := quietBackend textApi }
    (hostWithHome "/root") demoProject p' h1).1 "opts"⟩

/-- When the home directory cannot be resolved, the augmentation returns the
resolution error after it has added `credentials_network` to the networks of
the project. -/
theorem enhance_failed (host : Host) (err : GoError) (project : Project)
    (nets : List (String × NetworkConfig))
    (hh : host.UserHomeDir = .error err) (hn : project.Networks = some nets) :
    enhanceForLocalSimulation host project =
      .failed { project with
        Networks := some (kvSet nets "credentials_network" credentialsNetwork) } err := by
  simp only [enhanceForLocalSimulation, hn, hh]

/-- C17. The failure of the augmentation, on the project of two services with
a home directory that cannot be resolved: `Create` and `Convert` return the
resolution error, call nothing and produce no document, and the project of
the caller has gained the network `credentials_network`, which it did not have
before the call. -/
theorem Create_failure_adds_network :
    (ecsLocalSimulation.Create (T := textApi) { compose := quietBackend textApi }
        hostWithoutHome demoProject "opts").map
        (fun r => (r.ret, r.calls.length, r.project.Services, r.project.Networks)) =
      some (some (.external "$HOME is not defined"), 0, demoProject.Services,
        some [("default", { Name := "demo_default", Driver := "", Ipam := { Config := [] } }),
              ("credentials_network", credentialsNetwork)]) ∧
    (ecsLocalSimulation.Convert (T := textApi) { compose := quietBackend textApi }
        hostWithoutHome demoProject { Format := "yaml", Output := "" }).map
        (fun r => (r.ret, r.calls.length, r.project.Services, r.project.Networks)) =
      some ((none, some (.external "$HOME is not defined")), 0, demoProject.Services,
        some [("default", { Name := "demo_default", Driver := "", Ipam := { Config := [] } }),
              ("credentials_network", credentialsNetwork)]) ∧
    kvGet demoProject.Networks "credentials_network" = none ∧
    (ecsLocalSimulation.Create (T := textApi) { compose := quietBackend textApi }
        hostWithoutHome demoProject "opts").map (fun r => r.project) ≠ some demoProject :=
  ⟨rfl, rfl, rfl, by decide⟩

/-- Up to 253 services, the address of every service is a well-formed address
of the subnet `169.254.170.0/24`. -/
theorem address_in_subnet (i : Nat) (h : i < 253) :
    inCredentialsSubnet (sprintfAddress (i + 3)) = true := by
  have hall : ∀ n : Fin 253, inCredentialsSubnet (sprintfAddress (n.val + 3)) = true := by
    set_option maxRecDepth 100000 in decide
  exact hall ⟨i, h⟩

/-- The services of `projectOfSize n` have the maps the augmentation writes to. -/
theorem projectOfSize_maps (n : Nat) :
    ∀ s ∈ (projectOfSize n).Services, s.Networks ≠ none ∧ s.Environment ≠ none := by
  intro s hs
  simp only [projectOfSize, List.mem_map] at hs
  obtain ⟨i, -, rfl⟩ := hs
  simp [plainService]

/-- C18. The address of the service of index 253, in a project of 254
services: the augmentation succeeds and attaches that service to
`credentials_network` at `169.254.170.256`, which is not a well-formed IPv4
address, its last part being above 255, and so not an address of the subnet
`169.254.170.0/24`. -/
theorem address_out_of_subnet :
    ∃ p' s', enhanceForLocalSimulation (hostWithHome "/root") (projectOfSize 254) = .done p' ∧
      p'.Services[253]? = some s' ∧
      kvGet s'.Networks "credentials_network" =
        some (some { Ipv4Address := "169.254.170.256" }) ∧
      parseIPv4 "169.254.170.256" = none ∧
      inCredentialsSubnet "169.254.170.256" = false := by
  obtain ⟨l', -, h2, h3, h4⟩ := enhance_done (hostWithHome "/root") "/root" (projectOfSize 254)
    [("default", { Name := "demo_default", Driver := "", Ipam := { Config := [] } })]
    rfl rfl (projectOfSize_maps 254)
  have hlen : (projectOfSize 254).Services.length = 254 := by
    simp [projectOfSize]
  have hget : (projectOfSize 254).Services[253]? = some (plainService ("s" ++ toString 253)) := by
    simp [projectOfSize, List.getElem?_map, List.getElem?_range]
  obtain ⟨s', h5, h6⟩ := h3 253 _ hget
  refine ⟨_, s', h4, ?_, ?_, by decide, by decide⟩
  · have hlt : 253 < l'.length := by rw [h2, hlen]; decide
    simp only [List.getElem?_append_left hlt, h5]
  · have h7 := (enhanceService_augmented 253 _ s' h6).2.2.2.1
    rw [h7, ← toString_nat_eq_decimal]
    decide

/-! ## The implicit exit-code source of `printer.Run` -/

/-- While no `Exit` is read the loop does not return, and it leaves the
exit-code source and the captured code as they are. -/
theorem loop_no_exit (cs : Bool) (stopFn : Option GoError) :
    ∀ (pre : List ContainerEvent) (st : RunState),
      (∀ x ∈ pre, x.Type_ ≠ .ContainerEventExit) →
      ∃ st' c, loop cs stopFn st pre = .waiting st' c ∧
        st'.exitCodeFrom = st.exitCodeFrom ∧ st'.exitCode = st.exitCode ∧
        Effect.stopFn ∉ c := by
  intro pre
  induction pre with
  | nil => intro st _; exact ⟨st, [], rfl, rfl, rfl, by simp⟩
  | cons x pre ih =>
    intro st hpre
    have hx := hpre x (List.mem_cons_self _ _)
    obtain ⟨st1, d1, hstep, hsrc, hcode⟩ : ∃ st1 d1, step cs stopFn st x = .next st1 d1 ∧
        st1.exitCodeFrom = st.exitCodeFrom ∧ st1.exitCode = st.exitCode :=
      ⟨_, _, step_not_exit cs stopFn st x hx, rfl, rfl⟩
    obtain ⟨st', c, h1, h2, h3, h4⟩ := ih st1 (fun y hy => hpre y (List.mem_cons_of_mem _ hy))
    have hc := step_calls_stop cs stopFn st x
    rw [hstep] at hc
    simp only [StepResult.calls, hx, false_and, and_false, if_false, List.count_eq_zero] at hc
    refine ⟨st', d1 ++ c, by simp only [loop, hstep, h1, RunResult.after],
      by rw [h2, hsrc], by rw [h3, hcode], ?_⟩
    simp only [List.mem_append, not_or]
    exact ⟨hc, h4⟩

/-- With cascade-stop, an exit-code source that is set stays as it is. -/
theorem step_next_source (stopFn : Option GoError) (s : String) (hs : s ≠ "")
    (st st' : RunState) (e : ContainerEvent) (calls : List Effect)
    (hst : st.exitCodeFrom = s) (h : step true stopFn st e = .next st' calls) :
    st'.exitCodeFrom = s := by
  by_cases hT : e.Type_ = .ContainerEventExit
  · rw [step_exit true stopFn st e hT] at h
    cases hA : st.aborting <;> cases stopFn <;>
      simp [hA, hst, hs, checkLast_eq_next] at h <;> obtain ⟨-, rfl, -⟩ := h <;> rfl
  · rw [step_not_exit true stopFn st e hT] at h
    simp only [StepResult.next.injEq] at h
    obtain ⟨rfl, -⟩ := h
    exact hst

theorem loop_waiting_source (stopFn : Option GoError) (s : String) (hs : s ≠ "") :
    ∀ (pre : List ContainerEvent) (st st' : RunState) (calls : List Effect),
      st.exitCodeFrom = s → loop true stopFn st pre = .waiting st' calls →
      st'.exitCodeFrom = s := by
  intro pre
  induction pre with
  | nil =>
    intro st st' calls hst h
    simp only [loop, RunResult.waiting.injEq] at h
    rw [← h.1]; exact hst
  | cons e pre ih =>
    intro st st' calls hst h
    obtain ⟨st1, c1, c2, hstep, hrec, -⟩ := loop_cons_waiting _ _ _ _ _ _ _ h
    exact ih st1 st' c2 (step_next_source stopFn s hs st st1 e c1 hst hstep) hrec

/-- With cascade-stop, a stop callback that succeeds and the exit-code source
`s` set, a loop that returns gives the code of the last `Exit` of `s` it read,
and the code captured before when it read none. -/
theorem loop_returned_code (s : String) (hs : s ≠ "") (st : RunState)
    (queue : List ContainerEvent) (code : Int) (err : Option GoError)
    (calls : List Effect) (rest : List ContainerEvent) (hst : st.exitCodeFrom = s)
    (h : loop true none st queue = .returned code err calls rest) :
    ∃ read, queue = read ++ rest ∧ err = none ∧ code = lastExitCodeOr st.exitCode s read := by
  obtain ⟨pre, e, st', c1, c2, hq, hw, hstep, -⟩ := loop_returned_split _ _ _ _ _ _ _ _ h
  obtain ⟨h1, h2⟩ := loop_waiting_code s hs pre st st' c1 hst hw
  obtain ⟨h3, h4⟩ := step_done_code s hs st' e code err c2 h1 hstep
  refine ⟨pre ++ [e], by simp [hq], h3, ?_⟩
  rw [lastExitCodeOr_append, lastExitCodeOr_cons, lastExitCodeOr_nil, h4, h2]

/-- The iteration on the first `Exit`, of service `e.Service`, read with no
exit-code source and a stop callback that is not called or succeeds: it
returns the code of the event when no container is left, and goes on with the
service and the code of the event otherwise. -/
theorem step_first_exit (stopFn : Option GoError) (st : RunState) (e : ContainerEvent)
    (he : e.Type_ = .ContainerEventExit) (hst : st.exitCodeFrom = "")
    (hok : st.aborting = true ∨ stopFn = none) :
    ∃ c, (knownStep st.containers e = [] →
        step true stopFn st e = .done e.ExitCode none c) ∧
      (knownStep st.containers e ≠ [] →
        ∃ st1, step true stopFn st e = .next st1 c ∧
          st1.exitCodeFrom = e.Service ∧ st1.exitCode = e.ExitCode) := by
  have hstep : step true stopFn st e =
      checkLast { aborting := true, exitCode := e.ExitCode, exitCodeFrom := e.Service,
                  containers := knownStep st.containers e }
        ((if st.aborting then [] else
          [Effect.Status e.Container (exitedWithCode e.ExitCode),
           .Println "Aborting on container exit...", .stopFn]) ++
         [.logrusError e.ExitCode]) := by
    rw [step_exit true stopFn st e he]
    rcases hok with hA | hf
    · simp [hA, hst]
    · subst hf
      cases hA : st.aborting <;> simp [hA, hst]
  refine ⟨(if st.aborting then [] else
      [Effect.Status e.Container (exitedWithCode e.ExitCode),
       .Println "Aborting on container exit...", .stopFn]) ++ [.logrusError e.ExitCode],
    fun hk => ?_, fun hk =>
      ⟨{ aborting := true, exitCode := e.ExitCode, exitCodeFrom := e.Service,
         containers := knownStep st.containers e }, ?_, rfl, rfl⟩⟩
  · rw [hstep]
    exact (checkLast_eq_done _ _ _ _ _).mpr ⟨hk, rfl, rfl, rfl⟩
  · rw [hstep]
    exact (checkLast_eq_next _ _ _ _).mpr ⟨hk, rfl, rfl⟩

/-- After a `UserCancel`, the first `Exit` still makes its service the
exit-code source: the run returns the code `3` of that `Exit`, not `0`, the stop
callback not being called. -/
theorem Run_cancel_then_exit :
    Run true "" none [attachEvent "a", cancelEvent, exitEvent "a" 3] =
      .returned 3 none [.Register "a", .logrusError 3] [] ∧
    Run true "" none [attachEvent "a", attachEvent "b", cancelEvent, exitEvent "a" 3] =
      .waiting { aborting := true, exitCode := 3, exitCodeFrom := "a", containers := ["b"] }
        [.Register "a", .Register "b", .logrusError 3] := by
  decide

/-- C21, amended. The implicit exit-code source is the service of the first
exit. With cascade-stop and no exit-code source configured, let `e` be the
first `Exit` read, after the events `pre`, its service not empty. Before `e`
no source is adopted and the code is `0`; `aborting` is then true exactly when
`pre` holds a `UserCancel`. Once `e` is read the source is the service of `e`
for the rest of the run, whether `aborting` was set or not. The stop callback
is called in the run exactly when `pre` holds no `UserCancel`. With a stop
callback that succeeds, a run that returns gives no error and the code of the
last `Exit` of the service of `e` among the events read. -/
theorem Run_implicit_source (stopFn : Option GoError) (pre : List ContainerEvent)
    (e : ContainerEvent) (hpre : ∀ x ∈ pre, x.Type_ ≠ .ContainerEventExit)
    (he : e.Type_ = .ContainerEventExit) (hs : e.Service ≠ "") :
    (∃ st c, Run true "" stopFn pre = .waiting st c ∧ st.exitCodeFrom = "" ∧
      st.exitCode = 0 ∧ (st.aborting = true ↔ ∃ x ∈ pre, x.Type_ = .UserCancel)) ∧
    (∀ more st c, Run true "" stopFn (pre ++ e :: more) = .waiting st c →
      st.exitCodeFrom = e.Service) ∧
    (∀ more, Effect.stopFn ∈ (Run true "" stopFn (pre ++ e :: more)).calls ↔
      ∀ x ∈ pre, x.Type_ ≠ .UserCancel) ∧
    (∀ more code err calls rest,
      Run true "" none (pre ++ e :: more) = .returned code err calls rest →
      err = none ∧ code = lastExitCodeOf e.Service (processed (pre ++ e :: more) rest)) := by
  have hab : ∀ (f : Option GoError) (st : RunState) (c : List Effect),
      Run true "" f pre = .waiting st c →
      (st.aborting = true ↔ ∃ x ∈ pre, x.Type_ = .UserCancel) := by
    intro f st c hw
    rw [loop_waiting_aborting true f pre _ st c hw]
    simp only [abortingAfter, initState, Bool.false_or, List.any_eq_true, setsAborting,
      Bool.true_and, Bool.or_eq_true, beq_iff_eq]
    constructor
    · rintro ⟨x, hx, h | h⟩
      · exact ⟨x, hx, h⟩
      · exact absurd h (hpre x hx)
    · rintro ⟨x, hx, h⟩
      exact ⟨x, hx, Or.inl h⟩
  obtain ⟨st0, c0, hw0, hsrc0, hcode0, hstop0⟩ := loop_no_exit true stopFn pre (initState "") hpre
  refine ⟨⟨st0, c0, hw0, hsrc0, hcode0, hab stopFn st0 c0 hw0⟩, ?_, ?_, ?_⟩
  · intro more st c h
    have h1 : Run true "" stopFn (pre ++ e :: more) =
        (loop true stopFn st0 (e :: more)).after c0 :=
      loop_append_waiting true stopFn pre (e :: more) _ st0 c0 hw0
    rw [h1] at h
    cases hl : loop true stopFn st0 (e :: more) with
    | returned code err c1 rest => rw [hl] at h; simp [RunResult.after] at h
    | waiting st1 c1 =>
      rw [hl] at h
      simp only [RunResult.after, RunResult.waiting.injEq] at h
      obtain ⟨rfl, -⟩ := h
      obtain ⟨st2, d1, d2, hstep, hrec, -⟩ := loop_cons_waiting _ _ _ _ _ _ _ hl
      have hsrc2 : st2.exitCodeFrom = e.Service := by
        rw [step_exit true stopFn st0 e he] at hstep
        cases hA : st0.aborting <;> cases stopFn <;>
          simp [hA, hsrc0, checkLast_eq_next] at hstep <;>
          obtain ⟨-, rfl, -⟩ := hstep <;> rfl
      exact loop_waiting_source stopFn e.Service hs more st2 st1 d2 hsrc2 hrec
  · intro more
    have h1 : Run true "" stopFn (pre ++ e :: more) =
        (loop true stopFn st0 (e :: more)).after c0 :=
      loop_append_waiting true stopFn pre (e :: more) _ st0 c0 hw0
    have hcancel := hab stopFn st0 c0 hw0
    have hstepc := step_calls_stop true stopFn st0 e
    rw [h1, calls_after]
    cases hA : st0.aborting with
    | true =>
      have h0 := loop_aborting_no_stop true stopFn (e :: more) st0 hA
      rw [List.count_eq_zero] at h0
      simp only [List.mem_append, hstop0, h0, or_self, false_iff, not_forall]
      obtain ⟨x, hx, hxc⟩ := hcancel.mp hA
      exact ⟨x, hx, fun hn => hn hxc⟩
    | false =>
      have hno : ∀ x ∈ pre, x.Type_ ≠ .UserCancel := by
        intro x hx hxc
        have := hcancel.mpr ⟨x, hx, hxc⟩
        rw [hA] at this
        exact absurd this (by decide)
      rw [List.mem_append]
      refine ⟨fun _ => hno, fun _ => Or.inr ?_⟩
      rw [if_pos ⟨rfl, he, hA⟩] at hstepc
      have hmem : Effect.stopFn ∈ (step true stopFn st0 e).calls :=
        List.count_pos_iff.mp (by omega)
      simp only [loop]
      cases hstep : step true stopFn st0 e with
      | next st1 d1 =>
        rw [hstep] at hmem
        simp only [StepResult.calls] at hmem
        simp only [calls_after, List.mem_append]
        exact Or.inl hmem
      | done code err d1 =>
        rw [hstep] at hmem
        simpa [RunResult.calls, StepResult.calls] using hmem
  · intro more code err calls rest h
    obtain ⟨st0', c0', hw0', hsrc0', hcode0', -⟩ :=
      loop_no_exit true none pre (initState "") hpre
    have h1 : Run true "" none (pre ++ e :: more) =
        (loop true none st0' (e :: more)).after c0' :=
      loop_append_waiting true none pre (e :: more) _ st0' c0' hw0'
    rw [h1] at h
    obtain ⟨d, hdone, hnext⟩ := step_first_exit none st0' e he hsrc0' (Or.inr rfl)
    have hlast : ∀ read : List ContainerEvent,
        lastExitCodeOf e.Service (pre ++ e :: read) = lastExitCodeOr e.ExitCode e.Service read := by
      intro read
      have hnone : lastExitCodeOr 0 e.Service pre = 0 := by
        have hf : pre.filter (isExitOf e.Service) = [] := by
          rw [List.filter_eq_nil_iff]
          intro x hx
          have := hpre x hx
          simp [isExitOf, this]
        simp [lastExitCodeOr, hf]
      rw [lastExitCodeOf, lastExitCodeOr_append, hnone, lastExitCodeOr_cons]
      simp [isExitOf, he]
    by_cases hk : knownStep st0'.containers e = []
    · simp only [loop, hdone hk, RunResult.after, RunResult.returned.injEq] at h
      obtain ⟨rfl, rfl, -, rfl⟩ := h
      have hp : processed (pre ++ e :: more) more = pre ++ [e] := by
        rw [show pre ++ e :: more = (pre ++ [e]) ++ more by simp, processed_append]
      refine ⟨rfl, ?_⟩
      rw [hp, hlast [], lastExitCodeOr_nil]
    · obtain ⟨st1, hstep, hsrc1, hcode1⟩ := hnext hk
      simp only [loop, hstep] at h
      cases hl : loop true none st1 more with
      | waiting st2 d2 => rw [hl] at h; simp [RunResult.after] at h
      | returned code2 err2 d2 rest2 =>
        rw [hl] at h
        simp only [RunResult.after, RunResult.returned.injEq] at h
        obtain ⟨rfl, rfl, -, rfl⟩ := h
        obtain ⟨read, hq, herr, hcode⟩ :=
          loop_returned_code e.Service hs st1 more code2 err2 d2 rest2 hsrc1 hl
        have hp : processed (pre ++ e :: more) rest2 = pre ++ e :: read := by
          rw [hq, show pre ++ e :: (read ++ rest2) = (pre ++ e :: read) ++ rest2 by simp,
            processed_append]
        exact ⟨herr, by rw [hp, hlast read, hcode, hcode1]⟩

/-- The run of `Attach(a)`, `UserCancel`, `Exit(a, 3)`: the first `Exit` comes
after a `UserCancel`, and the run returns its code. -/
theorem Run_implicit_source_witness :
    (none : Option GoError) = none ∧
    (3 : Int) = lastExitCodeOf "a"
      (processed ([attachEvent "a", cancelEvent] ++ exitEvent "a" 3 :: []) []) :=
  (Run_implicit_source none [attachEvent "a", cancelEvent] (exitEvent "a" 3)
    (by decide) rfl (by decide)).2.2.2 [] 3 none [.Register "a", .logrusError 3] []
    (by decide)

/-! ## The augmentation and the invariants of the project -/

/-- A loop over the services that ends has kept the names, and relates each
service to its augmented one, both ways. -/
theorem enhanceServices_inv :
    ∀ (l : List ServiceConfig) (i : Nat) (l' : List ServiceConfig),
      enhanceServices i l = some l' →
      l'.map (fun s => s.Name) = l.map (fun s => s.Name) ∧
      (∀ s' ∈ l', ∃ s ∈ l, ∃ j, augmentedService j s s') ∧
      (∀ s ∈ l, ∃ s' ∈ l', ∃ j, augmentedService j s s') := by
  intro l
  induction l with
  | nil =>
    intro i l' h
    simp only [enhanceServices, Option.some.injEq] at h
    subst h
    simp
  | cons s l ih =>
    intro i l' h
    simp only [enhanceServices] at h
    cases h1 : enhanceService i s with
    | none => simp [h1] at h
    | some s1 =>
      cases h2 : enhanceServices (i + 1) l with
      | none => simp [h1, h2] at h
      | some l1 =>
        simp only [h1, h2, Option.some.injEq] at h
        subst h
        obtain ⟨hn, hb, hf⟩ := ih (i + 1) l1 h2
        have haug := enhanceService_augmented i s s1 h1
        refine ⟨by simp [hn, haug.1], ?_, ?_⟩
        · intro t' ht'
          rcases List.mem_cons.mp ht' with rfl | ht'
          · exact ⟨s, List.mem_cons_self _ _, i, haug⟩
          · obtain ⟨t, ht, j, hj⟩ := hb t' ht'
            exact ⟨t, List.mem_cons_of_mem _ ht, j, hj⟩
        · intro t ht
          rcases List.mem_cons.mp ht with rfl | ht
          · exact ⟨s1, List.mem_cons_self _ _, i, haug⟩
          · obtain ⟨t', ht', j, hj⟩ := hf t ht
            exact ⟨t', List.mem_cons_of_mem _ ht', j, hj⟩

/-- An augmentation that succeeds gives the services of the loop followed by
the sidecar. -/
theorem enhance_done_inv (host : Host) (project p' : Project)
    (h : enhanceForLocalSimulation host project = .done p') :
    ∃ l' home, enhanceServices 0 project.Services = some l' ∧
      p'.Services = l' ++ [sidecar host home] := by
  unfold enhanceForLocalSimulation at h
  cases hn : project.Networks with
  | none => simp [hn] at h
  | some nets =>
    cases hh : host.UserHomeDir with
    | error err => simp [hn, hh] at h
    | ok home =>
      cases hl : enhanceServices 0 project.Services with
      | none => simp [hn, hh, hl] at h
      | some l' =>
        simp only [hn, hh, hl, Enhanced.done.injEq] at h
        subst h
        exact ⟨l', home, rfl, rfl⟩

/-- A dependency of the augmented project starts at an original service, and
is a dependency on the sidecar or a dependency of the original project. -/
theorem dependsOn_enhanced (host : Host) (project p' : Project)
    (h : enhanceForLocalSimulation host project = .done p') (a b : String)
    (hd : dependsOn p' a b) :
    (∃ s ∈ project.Services, s.Name = a) ∧
      (b = "ecs-local-endpoints" ∨ dependsOn project a b) := by
  obtain ⟨l', home, hl, hp⟩ := enhance_done_inv host project p' h
  obtain ⟨-, hb, -⟩ := enhanceServices_inv _ _ _ hl
  obtain ⟨s', hs', hname, hdep⟩ := hd
  rw [hp, List.mem_append, List.mem_singleton] at hs'
  rcases hs' with hs' | rfl
  · obtain ⟨s, hs, j, haug⟩ := hb s' hs'
    have hn : s.Name = a := by rw [← haug.1, hname]
    refine ⟨⟨s, hs, hn⟩, ?_⟩
    by_cases hbk : b = "ecs-local-endpoints"
    · exact Or.inl hbk
    · exact Or.inr ⟨s, hs, hn, by rw [← haug.2.2.2.2.2.2.2.2.2 b hbk]; exact hdep⟩
  · exact absurd rfl hdep

/-- Every original service depends on `ecs-local-endpoints` in the augmented
project. -/
theorem dependsOn_sidecar (host : Host) (project p' : Project)
    (h : enhanceForLocalSimulation host project = .done p') (s : ServiceConfig)
    (hs : s ∈ project.Services) : dependsOn p' s.Name "ecs-local-endpoints" := by
  obtain ⟨l', home, hl, hp⟩ := enhance_done_inv host project p' h
  obtain ⟨-, -, hf⟩ := enhanceServices_inv _ _ _ hl
  obtain ⟨s', hs', j, haug⟩ := hf s hs
  refine ⟨s', by rw [hp]; exact List.mem_append_left _ hs', haug.1, ?_⟩
  rw [haug.2.2.2.2.2.2.2.2.1]
  simp

/-- The service names of the augmented project: the original ones, then
`ecs-local-endpoints`. -/
theorem names_enhanced (host : Host) (project p' : Project)
    (h : enhanceForLocalSimulation host project = .done p') :
    p'.Services.map (fun s => s.Name) =
      project.Services.map (fun s => s.Name) ++ ["ecs-local-endpoints"] := by
  obtain ⟨l', home, hl, hp⟩ := enhance_done_inv host project p' h
  obtain ⟨hn, -, -⟩ := enhanceServices_inv _ _ _ hl
  rw [hp, List.map_append, hn]
  rfl

/-- The project of two services has no dependency, hence no cycle. -/
theorem demoProject_acyclic : acyclicDependsOn demoProject := by
  have hfirst : ∀ a b, Relation.TransGen (dependsOn demoProject) a b →
      ∃ c, dependsOn demoProject a c := by
    intro a b hab
    induction hab with
    | single hd => exact ⟨_, hd⟩
    | tail _ _ ih => exact ih
  intro a haa
  obtain ⟨c, s, hs, -, hd⟩ := hfirst a a haa
  simp only [demoProject, List.mem_cons, List.mem_singleton, List.not_mem_nil, or_false] at hs
  rcases hs with rfl | rfl <;> exact hd rfl

/-- C22. The augmentation and the invariants of the project. Let the
augmentation of a project succeed. When the service names of the project are
unique, none is `ecs-local-endpoints` and its relation `DependsOn` has no cycle,
the augmented project has unique service names and a relation `DependsOn`
without cycle, every original service depends on `ecs-local-endpoints`, and
`ecs-local-endpoints`, which is a service of the augmented project, depends on
nothing. When the project holds a service named `ecs-local-endpoints`, the
service names of the augmented project are not unique and
`ecs-local-endpoints` depends on itself. -/
theorem enhance_invariants (host : Host) (project p' : Project)
    (h : enhanceForLocalSimulation host project = .done p') :
    (uniqueServiceNames project →
      (∀ s ∈ project.Services, s.Name ≠ "ecs-local-endpoints") →
      acyclicDependsOn project →
      uniqueServiceNames p' ∧ acyclicDependsOn p' ∧
      (∀ s ∈ project.Services, dependsOn p' s.Name "ecs-local-endpoints") ∧
      (∃ s ∈ p'.Services, s.Name = "ecs-local-endpoints") ∧
      (∀ b, ¬ dependsOn p' "ecs-local-endpoints" b)) ∧
    ((∃ s ∈ project.Services, s.Name = "ecs-local-endpoints") →
      ¬ uniqueServiceNames p' ∧
      dependsOn p' "ecs-local-endpoints" "ecs-local-endpoints") := by
  have hnames := names_enhanced host project p' h
  refine ⟨fun huniq hnew hacyc => ⟨?_, ?_, ?_, ?_, ?_⟩, fun hex => ⟨?_, ?_⟩⟩
  · unfold uniqueServiceNames at huniq ⊢
    rw [hnames]
    refine List.Nodup.append huniq (List.nodup_singleton _) ?_
    intro a ha hb
    rw [List.mem_singleton] at hb
    subst hb
    obtain ⟨s, hs, hsn⟩ := List.mem_map.mp ha
    exact hnew s hs hsn
  · have horig : ∀ a b, Relation.TransGen (dependsOn p') a b →
        (∃ s ∈ project.Services, s.Name = a) := by
      intro a b hab
      induction hab with
      | single hd => exact (dependsOn_enhanced host project p' h _ _ hd).1
      | tail _ _ ih => exact ih
    have hlift : ∀ a b, Relation.TransGen (dependsOn p') a b →
        (∃ s ∈ project.Services, s.Name = b) →
        Relation.TransGen (dependsOn project) a b := by
      intro a b hab
      induction hab with
      | single hd =>
        rintro ⟨s, hs, hsn⟩
        rcases (dependsOn_enhanced host project p' h _ _ hd).2 with hb | hb
        · exact absurd (hsn.trans hb) (hnew s hs)
        · exact Relation.TransGen.single hb
      | @tail c d hac hcd ih =>
        rintro ⟨s, hs, hsn⟩
        obtain ⟨hc, hb⟩ := dependsOn_enhanced host project p' h _ _ hcd
        rcases hb with hb | hb
        · exact absurd (hsn.trans hb) (hnew s hs)
        · exact Relation.TransGen.tail (ih hc) hb
    intro a haa
    exact hacyc a (hlift a a haa (horig a a haa))
  · exact fun s hs => dependsOn_sidecar host project p' h s hs
  · obtain ⟨l', home, -, hp⟩ := enhance_done_inv host project p' h
    exact ⟨sidecar host home, by rw [hp]; simp, rfl⟩
  · intro b hd
    obtain ⟨s, hs, hsn⟩ := (dependsOn_enhanced host project p' h _ _ hd).1
    exact hnew s hs hsn
  · unfold uniqueServiceNames
    rw [hnames]
    obtain ⟨s, hs, hsn⟩ := hex
    intro hnd
    have hdis := List.disjoint_of_nodup_append hnd
    exact hdis (List.mem_map.mpr ⟨s, hs, hsn⟩) (List.mem_singleton.mpr rfl)
  · obtain ⟨s, hs, hsn⟩ := hex
    have := dependsOn_sidecar host project p' h s hs
    rwa [hsn] at this

/-- The project of two services `web` and `db`, and a project that holds a
service named `ecs-local-endpoints`. -/
theorem enhance_invariants_witness :
    (∃ p', enhanceForLocalSimulation (hostWithHome "/root") demoProject = .done p' ∧
      uniqueServiceNames p' ∧ acyclicDependsOn p' ∧
      (∀ s ∈ demoProject.Services, dependsOn p' s.Name "ecs-local-endpoints") ∧
      (∃ s ∈ p'.Services, s.Name = "ecs-local-endpoints") ∧
      (∀ b, ¬ dependsOn p' "ecs-local-endpoints" b)) ∧
    (∃ p', enhanceForLocalSimulation (hostWithHome "/root") clashProject = .done p' ∧
      ¬ uniqueServiceNames p' ∧
      dependsOn p' "ecs-local-endpoints" "ecs-local-endpoints") :=
  ⟨⟨_, rfl, (enhance_invariants (hostWithHome "/root") demoProject _ rfl).1
      (by decide) (by decide) demoProject_acyclic⟩,
   ⟨_, rfl, (enhance_invariants (hostWithHome "/root") clashProject _ rfl).2
      ⟨plainService "ecs-local-endpoints", by decide, rfl⟩⟩⟩

end Compose
